import Mathlib

/-! # FavoritePlaces backend: the AI routes (`src/backend/routes/ai.js`)

A shallow embedding of `parseJSON` and of the three route handlers
(`/summarize-notes`, `/suggest-tags`, `/smart-search`), together with the part of
the JavaScript platform they rely on: strings, the two regular expressions of
`parseJSON`, `JSON.parse`, `JSON.stringify`, truthiness, property access and the
string conversion performed by template literals.

Conventions.
* A JavaScript string is a sequence of UTF-16 code units: `JSString = List Nat`.
* Binary floating point is not modelled.  The number type and the few number
  operations the code needs are fields of an `Engine`; every definition is
  executable once an engine is fixed (`intEngine` is used for concrete runs).
* An exception is a value of `JSError`; code that may throw returns `Except`.
* Outbound calls (vision annotation, text generation) are recorded in a trace,
  so that "how many calls were made" is a statement about the returned trace.
* Code units that occur as numbers: 34 double quote, 44 comma, 45 minus,
  58 colon, 91 and 93 square brackets, 92 backslash, 96 backtick, 123 and 125
  braces, 10 line feed, 32 space.
-/

namespace FavoritePlaces

/-! ## Strings -/

/-- A JavaScript string: its UTF-16 code units, in order. -/
abbrev JSString := List Nat

/-- UTF-16 encoding of a list of Unicode scalar values. -/
def utf16 : List Char → JSString
  | [] => []
  | c :: cs =>
    if c.toNat < 0x10000 then c.toNat :: utf16 cs
    else (0xD800 + (c.toNat - 0x10000) / 0x400) :: (0xDC00 + (c.toNat - 0x10000) % 0x400) :: utf16 cs

/-- The JavaScript string denoted by a string literal of the source. -/
def lit (s : String) : JSString := utf16 s.toList

/-- The characters matched by `\s` in a regular expression, which are also the
characters removed by `String.prototype.trim` (WhiteSpace and LineTerminator). -/
def isSpace (c : Nat) : Bool :=
  c = 0x09 || c = 0x0A || c = 0x0B || c = 0x0C || c = 0x0D || c = 0x20 || c = 0xA0 ||
  c = 0x1680 || (0x2000 ≤ c && c ≤ 0x200A) || c = 0x2028 || c = 0x2029 || c = 0x202F ||
  c = 0x205F || c = 0x3000 || c = 0xFEFF

/-- Removal of trailing whitespace. -/
def trimEnd (s : JSString) : JSString := (s.reverse.dropWhile isSpace).reverse

/-- The method `String.prototype.trim`. -/
def trim (s : JSString) : JSString := trimEnd (s.dropWhile isSpace)

/-- The method `Array.prototype.join` on an array of strings. -/
def joinWith (sep : JSString) : List JSString → JSString
  | [] => []
  | [s] => s
  | s :: t :: rest => s ++ sep ++ joinWith sep (t :: rest)

/-! ## Exceptions and the engine -/

/-- The exceptions that occur in the routes. -/
inductive JSError where
  /-- The `SyntaxError` thrown by `JSON.parse` on the given text. -/
  | syntaxError (text : JSString)
  /-- A `TypeError`; the argument names the operation that failed. -/
  | typeError (site : String)
  /-- An error `new Error(message)`. -/
  | error (message : JSString)
  deriving DecidableEq, Repr

/-- The parts of the JavaScript engine that are taken as given: the number type
(IEEE doubles in a real engine) with its conversions, and the wording of the
messages of built-in errors. -/
structure Engine where
  /-- The type of Number values. -/
  D : Type
  /-- The operation `Number::toString` (radix 10). -/
  numberToString : D → JSString
  /-- The Number value of a JSON number literal. -/
  numberOfLiteral : JSString → D
  /-- Whether the number is finite (neither an infinity nor NaN). -/
  isFinite : D → Bool
  /-- The operation `ToBoolean` on numbers: false for zeros and NaN. -/
  numberTruthy : D → Bool
  /-- The expression `(x * 100).toFixed(0)`. -/
  percentFixed0 : D → JSString
  /-- The message of the `SyntaxError` of `JSON.parse` on a text. -/
  syntaxErrorMessage : JSString → JSString
  /-- The message of a `TypeError` raised at an operation. -/
  typeErrorMessage : String → JSString

/-- The property `error.message` of a caught exception. -/
def Engine.message (E : Engine) : JSError → JSString
  | .syntaxError t => E.syntaxErrorMessage t
  | .typeError site => E.typeErrorMessage site
  | .error m => m

/-! ## JSON values -/

/-- The values `JSON.parse` can return.  An object is the list of its own
properties in creation order. -/
inductive JSON (D : Type) where
  | null
  | bool (b : Bool)
  | num (d : D)
  | str (s : JSString)
  | arr (xs : List (JSON D))
  | obj (ms : List (JSString × JSON D))

namespace JSON

/-- The abstract operation `CreateDataProperty` on the property list of an
object: an existing key keeps its place and gets the new value, a new key is
added at the end. -/
def setProp {D : Type} : List (JSString × JSON D) → JSString → JSON D → List (JSString × JSON D)
  | [], k, v => [(k, v)]
  | (k', v') :: ms, k, v => if k' = k then (k', v) :: ms else (k', v') :: setProp ms k v

/-- Own-property lookup in a property list. -/
def lookup {D : Type} (k : JSString) : List (JSString × JSON D) → Option (JSON D)
  | [] => none
  | (k', v) :: ms => if k' = k then some v else lookup k ms

/-- Whether the value is an object (a key/value document). -/
def isObject {D : Type} : JSON D → Bool
  | obj _ => true
  | _ => false

/-- The function `Array.isArray`. -/
def isArray {D : Type} : JSON D → Bool
  | arr _ => true
  | _ => false

end JSON

/-! ## `JSON.stringify` -/

/-- A hexadecimal digit in lower case. -/
def hexDigit (n : Nat) : Nat := if n < 10 then 48 + n else 87 + n

/-- The operation `UnicodeEscape`: backslash, `u` and four hexadecimal digits. -/
def unicodeEscape (c : Nat) : JSString :=
  [92, 117, hexDigit (c / 4096 % 16), hexDigit (c / 256 % 16), hexDigit (c / 16 % 16), hexDigit (c % 16)]

/-- A leading (high) surrogate code unit. -/
def isLeadSurrogate (c : Nat) : Bool := 0xD800 ≤ c && c ≤ 0xDBFF

/-- A trailing (low) surrogate code unit. -/
def isTrailSurrogate (c : Nat) : Bool := 0xDC00 ≤ c && c ≤ 0xDFFF

/-- The text `QuoteJSONString` produces for one code unit that is not part of a
surrogate pair. -/
def quoteUnit (c : Nat) : JSString :=
  if c = 8 then [92, 98]
  else if c = 9 then [92, 116]
  else if c = 10 then [92, 110]
  else if c = 12 then [92, 102]
  else if c = 13 then [92, 114]
  else if c = 34 then [92, 34]
  else if c = 92 then [92, 92]
  else if c < 32 || isLeadSurrogate c || isTrailSurrogate c then unicodeEscape c
  else [c]

/-- The body of `QuoteJSONString`: a surrogate pair is copied, any other code
unit goes through `quoteUnit`. -/
def quoteUnits : JSString → JSString
  | [] => []
  | [c] => quoteUnit c
  | c :: d :: rest =>
    if isLeadSurrogate c && isTrailSurrogate d then c :: d :: quoteUnits rest
    else quoteUnit c ++ quoteUnits (d :: rest)

/-- The operation `QuoteJSONString`. -/
def quoteJSONString (s : JSString) : JSString := 34 :: (quoteUnits s ++ [34])

mutual
/-- The function `JSON.stringify` (one argument) on a JSON value. -/
def stringify (E : Engine) : JSON E.D → JSString
  | .null => lit "null"
  | .bool true => lit "true"
  | .bool false => lit "false"
  | .num d => if E.isFinite d then E.numberToString d else lit "null"
  | .str s => quoteJSONString s
  | .arr xs => 91 :: (stringifyElements E xs ++ [93])
  | .obj ms => 123 :: (stringifyMembers E ms ++ [125])
/-- The elements of an array, separated by commas. -/
def stringifyElements (E : Engine) : List (JSON E.D) → JSString
  | [] => []
  | [x] => stringify E x
  | x :: y :: xs => stringify E x ++ 44 :: stringifyElements E (y :: xs)
/-- The members of an object, separated by commas. -/
def stringifyMembers (E : Engine) : List (JSString × JSON E.D) → JSString
  | [] => []
  | [(k, v)] => quoteJSONString k ++ 58 :: stringify E v
  | (k, v) :: m :: ms => quoteJSONString k ++ 58 :: (stringify E v ++ 44 :: stringifyMembers E (m :: ms))
end

/-! ## `JSON.parse` -/

/-- JSON whitespace: tab, line feed, carriage return, space. -/
def isJSONSpace (c : Nat) : Bool := c = 9 || c = 10 || c = 13 || c = 32

/-- Skips JSON whitespace. -/
def skipWs (s : JSString) : JSString := s.dropWhile isJSONSpace

/-- The value of a hexadecimal digit, in either case. -/
def hexVal (c : Nat) : Option Nat :=
  if 48 ≤ c ∧ c ≤ 57 then some (c - 48)
  else if 97 ≤ c ∧ c ≤ 102 then some (c - 87)
  else if 65 ≤ c ∧ c ≤ 70 then some (c - 55)
  else none

/-- The code unit written by four hexadecimal digits. -/
def hex4 (a b c d : Nat) : Option Nat :=
  match hexVal a, hexVal b, hexVal c, hexVal d with
  | some x, some y, some z, some w => some (((x * 16 + y) * 16 + z) * 16 + w)
  | _, _, _, _ => none

/-- The code unit denoted by a single-character escape, if it is one. -/
def simpleEscape (c : Nat) : Option Nat :=
  if c = 34 then some 34
  else if c = 92 then some 92
  else if c = 47 then some 47
  else if c = 98 then some 8
  else if c = 102 then some 12
  else if c = 110 then some 10
  else if c = 114 then some 13
  else if c = 116 then some 9
  else none

/-- Reads the characters of a JSON string after its opening quote, up to and
including the closing quote; returns the string value and the remaining text. -/
def parseString : JSString → Option (JSString × JSString)
  | [] => none
  | c :: rest =>
    if c = 34 then some ([], rest)
    else if c = 92 then
      match rest with
      | [] => none
      | e :: rest1 =>
        if e = 117 then
          match rest1 with
          | h1 :: h2 :: h3 :: h4 :: rest2 =>
            match hex4 h1 h2 h3 h4 with
            | some u => (parseString rest2).map (fun r => (u :: r.1, r.2))
            | none => none
          | _ => none
        else
          match simpleEscape e with
          | some u => (parseString rest1).map (fun r => (u :: r.1, r.2))
          | none => none
    else if c < 32 then none
    else (parseString rest).map (fun r => (c :: r.1, r.2))

/-- The states of the automaton of the JSON number grammar
`-? (0 | [1-9][0-9]*) (. [0-9]+)? ([eE] [+-]? [0-9]+)?`. -/
inductive NumState where
  | start | minus | zero | int | dot | frac | e | esign | exp
  deriving DecidableEq, Repr

/-- A decimal digit. -/
def isDigit (c : Nat) : Bool := 48 ≤ c && c ≤ 57

/-- One transition of the number automaton. -/
def numStep : NumState → Nat → Option NumState
  | .start, c => if c = 45 then some .minus else if c = 48 then some .zero
      else if isDigit c then some .int else none
  | .minus, c => if c = 48 then some .zero else if isDigit c then some .int else none
  | .zero, c => if c = 46 then some .dot else if c = 101 || c = 69 then some .e else none
  | .int, c => if isDigit c then some .int else if c = 46 then some .dot
      else if c = 101 || c = 69 then some .e else none
  | .dot, c => if isDigit c then some .frac else none
  | .frac, c => if isDigit c then some .frac else if c = 101 || c = 69 then some .e else none
  | .e, c => if c = 43 || c = 45 then some .esign else if isDigit c then some .exp else none
  | .esign, c => if isDigit c then some .exp else none
  | .exp, c => if isDigit c then some .exp else none

/-- The states in which a complete number has been read. -/
def NumState.accepting : NumState → Bool
  | .zero | .int | .frac | .exp => true
  | _ => false

/-- Runs the number automaton as far as it goes: the state reached, the
characters read, and the remaining text. -/
def scanNumber : NumState → JSString → NumState × JSString × JSString
  | q, [] => (q, [], [])
  | q, c :: rest =>
    match numStep q c with
    | some q' => let r := scanNumber q' rest; (r.1, c :: r.2.1, r.2.2)
    | none => (q, [], c :: rest)

/-- Reads a JSON number literal at the head of the text. -/
def lexNumber (s : JSString) : Option (JSString × JSString) :=
  let r := scanNumber .start s
  if r.1.accepting then some (r.2.1, r.2.2) else none

/-- Reads the given keyword at the head of the text. -/
def expect (kw : JSString) (s : JSString) : Option JSString :=
  if kw.isPrefixOf s then some (s.drop kw.length) else none

mutual
/-- Reads one JSON value, skipping whitespace before it.  The first argument
bounds the number of nested calls; the bound `jsonParse` supplies is always
enough (`jsonParse_of_parseValue`). -/
def parseValue (E : Engine) : Nat → JSString → Option (JSON E.D × JSString)
  | 0, _ => none
  | fuel + 1, s =>
    match skipWs s with
    | [] => none
    | c :: rest =>
      if c = 123 then
        match skipWs rest with
        | [] => none
        | c' :: rest' =>
          if c' = 125 then some (.obj [], rest')
          else (parseMembers E fuel (c' :: rest')).map
            (fun r => (.obj (r.1.foldl (fun acc kv => JSON.setProp acc kv.1 kv.2) []), r.2))
      else if c = 91 then
        match skipWs rest with
        | [] => none
        | c' :: rest' =>
          if c' = 93 then some (.arr [], rest')
          else (parseElements E fuel (c' :: rest')).map (fun r => (.arr r.1, r.2))
      else if c = 34 then (parseString rest).map (fun r => (.str r.1, r.2))
      else if c = 116 then (expect (lit "true") (c :: rest)).map (fun r => (.bool true, r))
      else if c = 102 then (expect (lit "false") (c :: rest)).map (fun r => (.bool false, r))
      else if c = 110 then (expect (lit "null") (c :: rest)).map (fun r => (.null, r))
      else (lexNumber (c :: rest)).map (fun r => (.num (E.numberOfLiteral r.1), r.2))
/-- Reads the elements of a non-empty array and the closing bracket. -/
def parseElements (E : Engine) : Nat → JSString → Option (List (JSON E.D) × JSString)
  | 0, _ => none
  | fuel + 1, s =>
    match parseValue E fuel s with
    | none => none
    | some (v, rest) =>
      match skipWs rest with
      | [] => none
      | c :: rest' =>
        if c = 44 then (parseElements E fuel rest').map (fun r => (v :: r.1, r.2))
        else if c = 93 then some ([v], rest')
        else none
/-- Reads the members of a non-empty object and the closing brace, in source
order (a key may occur more than once). -/
def parseMembers (E : Engine) : Nat → JSString → Option (List (JSString × JSON E.D) × JSString)
  | 0, _ => none
  | fuel + 1, s =>
    match skipWs s with
    | [] => none
    | q :: rest =>
      if q = 34 then
        match parseString rest with
        | none => none
        | some (k, rest1) =>
          match skipWs rest1 with
          | [] => none
          | c :: rest2 =>
            if c = 58 then
              match parseValue E fuel rest2 with
              | none => none
              | some (v, rest3) =>
                match skipWs rest3 with
                | [] => none
                | c' :: rest4 =>
                  if c' = 44 then (parseMembers E fuel rest4).map (fun r => ((k, v) :: r.1, r.2))
                  else if c' = 125 then some ([(k, v)], rest4)
                  else none
            else none
      else none
end

/-- The function `JSON.parse` on a string: one value surrounded by optional
whitespace; anything else throws a `SyntaxError`. -/
def jsonParse (E : Engine) (text : JSString) : Except JSError (JSON E.D) :=
  match parseValue E (text.length + 1) text with
  | some (v, rest) => if skipWs rest = [] then .ok v else .error (.syntaxError text)
  | none => .error (.syntaxError text)

/-! ## A concrete engine for running examples -/

/-- The decimal digits of a natural number, most significant first. The first
argument bounds the number of digits. -/
def natDigits : Nat → Nat → JSString
  | 0, _ => []
  | fuel + 1, n => if n < 10 then [48 + n] else natDigits fuel (n / 10) ++ [48 + n % 10]

/-- The decimal text of an integer. -/
def intToString (i : Int) : JSString :=
  if i < 0 then 45 :: natDigits (i.natAbs + 1) i.natAbs else natDigits (i.natAbs + 1) i.natAbs

/-- The value of a run of decimal digits read after the accumulator `acc`;
stops at the first character that is not a digit. -/
def readDigits : Nat → JSString → Nat
  | acc, [] => acc
  | acc, c :: rest => if isDigit c then readDigits (acc * 10 + (c - 48)) rest else acc

/-- The integer written by the sign and integer part of a number literal. -/
def intOfLiteral : JSString → Int
  | [] => 0
  | c :: rest => if c = 45 then - (readDigits 0 rest : Int) else (readDigits 0 (c :: rest) : Int)

/-- An engine whose numbers are the integers, written in plain decimal.  It
agrees with a JavaScript engine on integer literals below 2^53 in magnitude;
the fraction and exponent of a literal are not interpreted.  Error messages
are fixed texts. -/
def intEngine : Engine where
  D := Int
  numberToString := intToString
  numberOfLiteral := intOfLiteral
  isFinite := fun _ => true
  numberTruthy := fun i => i != 0
  percentFixed0 := fun i => intToString (i * 100)
  syntaxErrorMessage := fun _ => lit "Unexpected token in JSON"
  typeErrorMessage := fun _ => lit "Cannot read properties"

/-! ## The two regular expressions of `parseJSON` -/

/-- The result of `String.prototype.match` with a regular expression without
the global flag: the matched text `m[0]` and the first capture group `m[1]`
(`none` stands for `undefined`: the expression has no group). -/
structure RegExpMatch where
  whole : JSString
  group1 : Option JSString
  deriving DecidableEq, Repr

/-- Three backticks. -/
def fence : JSString := [96, 96, 96]

/-- The tail of the first expression: the whitespace run and the closing
backticks.  The run is greedy: the matcher first extends it, and only then
tries the backticks at the current position.  Returns the text after the
match. -/
def closeFence : JSString → Option JSString
  | [] => none
  | c :: rest =>
    match (if isSpace c then closeFence rest else none) with
    | some r => some r
    | none => expect fence (c :: rest)

/-- The lazy group followed by the tail: the group is extended one character
at a time, only when the tail does not match at the current position.  Returns
the group and the text after the match. -/
def lazyBody : JSString → Option (JSString × JSString)
  | [] => none
  | c :: rest =>
    match closeFence (c :: rest) with
    | some r => some ([], r)
    | none => (lazyBody rest).map (fun x => (c :: x.1, x.2))

/-- The greedy whitespace run after the opening, followed by the lazy group
and the tail: the run is extended first, a shorter run is tried on failure. -/
def openBody : JSString → Option (JSString × JSString)
  | [] => none
  | c :: rest =>
    match (if isSpace c then openBody rest else none) with
    | some x => some x
    | none => lazyBody (c :: rest)

/-- The optional label `json` (tried first with the label, then without) and
the rest of the expression. -/
def afterOpen (s : JSString) : Option (JSString × JSString) :=
  match (match expect (lit "json") s with
         | some r => openBody r
         | none => none) with
  | some x => some x
  | none => openBody s

/-- A match of the first expression starting exactly at the head of the text. -/
def fenceAt (s : JSString) : Option RegExpMatch :=
  match expect fence s with
  | none => none
  | some r => (afterOpen r).map (fun x => ⟨s.take (s.length - x.2.length), some x.1⟩)

/-- The call `text.match(re)` for the first expression of `parseJSON`: three
backticks, an optional `json`, whitespace, a lazy group of any characters,
whitespace, three backticks.  Start positions are tried from left to right. -/
def matchFence : JSString → Option RegExpMatch
  | [] => none
  | c :: rest =>
    match fenceAt (c :: rest) with
    | some m => some m
    | none => matchFence rest

/-- The greedy run of any characters followed by a closing brace: the longest
prefix of the text that ends in a closing brace. -/
def greedyToBrace : JSString → Option JSString
  | [] => none
  | c :: rest =>
    match greedyToBrace rest with
    | some m => some (c :: m)
    | none => if c = 125 then some [c] else none

/-- The call `text.match(re)` for the second expression of `parseJSON`: an
opening brace, a greedy run of any characters, a closing brace.  It has no
capture group. -/
def matchBraces : JSString → Option RegExpMatch
  | [] => none
  | c :: rest =>
    match (if c = 123 then greedyToBrace rest else none) with
    | some m => some ⟨c :: m, none⟩
    | none => matchBraces rest

/-- The expression `jsonMatch[1] || jsonMatch[0]`: the group when it is a
non-empty string, the whole match otherwise. -/
def RegExpMatch.candidate (m : RegExpMatch) : JSString :=
  match m.group1 with
  | some g => if g = [] then m.whole else g
  | none => m.whole

/-- The expression `text.match(fenced) || text.match(braces)`. -/
def jsonMatch (text : JSString) : Option RegExpMatch :=
  match matchFence text with
  | some m => some m
  | none => matchBraces text

/-- The function `parseJSON` of `routes/ai.js`. -/
def parseJSON (E : Engine) (text : JSString) : Except JSError (JSON E.D) :=
  match jsonMatch text with
  | some m => jsonParse E m.candidate
  | none => jsonParse E text

/-! ## The fragment of JavaScript used by the handlers

A value is a JSON value or `undefined`; `Option (JSON D)` with `none` for
`undefined`. -/

/-- The operation `ToBoolean`. -/
def truthy (E : Engine) : Option (JSON E.D) → Bool
  | none => false
  | some .null => false
  | some (.bool b) => b
  | some (.num d) => E.numberTruthy d
  | some (.str s) => !s.isEmpty
  | some (.arr _) => true
  | some (.obj _) => true

/-- Property read `v.k` for a property name that no built-in prototype
defines (all names read by the handlers are of this kind): a `TypeError` on
`undefined` and `null`, the own property of an object, `undefined` otherwise. -/
def getProp {D : Type} (v : Option (JSON D)) (k : String) : Except JSError (Option (JSON D)) :=
  match v with
  | none => .error (.typeError ("read " ++ k))
  | some .null => .error (.typeError ("read " ++ k))
  | some (.obj ms) => .ok (JSON.lookup (lit k) ms)
  | some _ => .ok none

/-- The text of one array element inside `join`: empty for `null`, otherwise
the result `conv` of converting the element with `ToString`. -/
def elementStr {D : Type} (x : JSON D) (conv : Except JSError JSString) : Except JSError JSString :=
  match x with
  | .null => .ok []
  | _ => conv

mutual
/-- The operation `ToString` on a JSON value.  An array is joined with commas
(`Array.prototype.toString`).  An object without an own property `toString`
gives the text of `Object.prototype.toString`; with one (its value is never
callable) the conversion to a primitive fails with a `TypeError`. -/
def toStr (E : Engine) : JSON E.D → Except JSError JSString
  | .null => .ok (lit "null")
  | .bool true => .ok (lit "true")
  | .bool false => .ok (lit "false")
  | .num d => .ok (E.numberToString d)
  | .str s => .ok s
  | .arr xs => joinValues E (lit ",") xs
  | .obj ms =>
    if (JSON.lookup (lit "toString") ms).isSome then .error (.typeError "convert object to primitive")
    else .ok (lit "[object Object]")
/-- The method `Array.prototype.join` on an array of JSON values: `null`
elements give the empty string, the others are converted with `ToString`. -/
def joinValues (E : Engine) (sep : JSString) : List (JSON E.D) → Except JSError JSString
  | [] => .ok []
  | [x] => elementStr x (toStr E x)
  | x :: y :: xs =>
    match elementStr x (toStr E x) with
    | .error err => .error err
    | .ok s =>
      match joinValues E sep (y :: xs) with
      | .error err => .error err
      | .ok r => .ok (s ++ sep ++ r)
end

/-- A substitution `${v}` of a template literal. -/
def templateStr (E : Engine) : Option (JSON E.D) → Except JSError JSString
  | none => .ok (lit "undefined")
  | some v => toStr E v

/-- A substitution `${v || fallback}` of a template literal. -/
def templateOr (E : Engine) (v : Option (JSON E.D)) (fallback : JSString) : Except JSError JSString :=
  if truthy E v then templateStr E v else .ok fallback

/-! ## Requests, responses, outbound calls -/

/-- The value `req.body` left by `express.json()`: a JSON object (the empty
object when the request carries no JSON) or a JSON array. -/
inductive Body (D : Type) where
  | object (ms : List (JSString × JSON D))
  | array (xs : List (JSON D))

/-- A field taken from the body by destructuring; `none` is `undefined`.  An
array has none of the fields the handlers read. -/
def Body.field {D : Type} : Body D → String → Option (JSON D)
  | .object ms, k => JSON.lookup (lit k) ms
  | .array _, _ => none

/-- A response: status code and JSON body (`res.status(s).json(b)`; `res.json(b)`
answers with status 200). -/
structure Response (D : Type) where
  status : Nat
  body : JSON D

/-- An annotation with a description, as in `labelAnnotations`. -/
structure EntityAnnotation where
  description : JSString

/-- A colour of `dominantColors.colors`, with its score. -/
structure ColorInfo (D : Type) where
  score : D
  red : D
  green : D
  blue : D

/-- The result of `visionClient.annotateImage`.  The members the source reads
through `?.` may be missing (`none`); the ones it reads directly are present. -/
structure AnnotateImageResponse (D : Type) where
  labelAnnotations : Option (List EntityAnnotation)
  landmarkAnnotations : Option (List EntityAnnotation)
  /-- The path `imagePropertiesAnnotation?.dominantColors?.colors`. -/
  dominantColors : Option (List (ColorInfo D))

/-- An outbound call made while handling a request. -/
inductive Call (D : Type) where
  /-- A call of `visionClient.annotateImage` for the given `imageUri`. -/
  | annotate (imageUri : JSON D)
  /-- A call of `model.generateContent` with the given prompt. -/
  | generate (prompt : JSString)

/-- What surrounds a handler: the two external services and the environment. -/
structure Env (E : Engine) where
  /-- The call `model.generateContent(prompt)` followed by `response.text()`. -/
  generateContent : JSString → Except JSError JSString
  /-- The vision client, `none` when its construction failed at start-up. -/
  visionClient : Option (JSON E.D → Except JSError (AnnotateImageResponse E.D))
  /-- Whether `process.env.NODE_ENV === 'development'`. -/
  development : Bool

/-- The function `callGemini`: every failure is rethrown as an `Error` with
the prefix `AI service error: `. -/
def callGemini (E : Engine) (env : Env E) (prompt : JSString) : Except JSError JSString :=
  match env.generateContent prompt with
  | .ok text => .ok text
  | .error err => .error (.error (lit "AI service error: " ++ E.message err))

/-- The 400 answer of the validation step. -/
def badRequest {D : Type} (message : String) : Response D :=
  ⟨400, .obj [(lit "error", .str (lit "Bad Request")), (lit "message", .str (lit message))]⟩

/-- The 500 answer of the `catch` block; `details` is present only in
development. -/
def serverError (E : Engine) (env : Env E) (message : String) (err : JSError) : Response E.D :=
  ⟨500, .obj ([(lit "error", .str (lit "Internal Server Error")), (lit "message", .str (lit message))] ++
    (if env.development then [(lit "details", .str (E.message err))] else []))⟩

/-! ## Prompt texts

The constant parts of the three template literals, copied from the source. -/

/-- The summary prompt up to the title. -/
def summaryPromptHead : JSString :=
  lit "You are an expert at analyzing travel notes and creating structured summaries. \n" ++
  lit "Your job is to take raw, unstructured notes about a place and organize them into three clear sections.\n" ++
  lit "\n" ++
  lit "Return ONLY valid JSON in this exact format (no other text, no markdown):\n" ++
  lit "\x7b\n" ++
  lit "  \"whyILikedIt\": \"A concise 1-2 sentence explanation of what made this place special\",\n" ++
  lit "  \"tips\": \"Practical advice for future visitors (2-3 sentences)\",\n" ++
  lit "  \"bestTimeToGo\": \"When to visit (time of day, season, or conditions)\"\n" ++
  lit "\x7d\n" ++
  lit "\n" ++
  lit "Keep each field brief and actionable. If the notes don't contain info for a field, use your best judgment based on the place type.\n" ++
  lit "\n" ++
  lit "Place: "

/-- The summary prompt after the notes. -/
def summaryPromptTail : JSString :=
  lit "\n" ++
  lit "\n" ++
  lit "Create a structured summary following the JSON format specified."

/-- The tag prompt up to the title. -/
def tagPromptHead : JSString :=
  lit "You are an expert at analyzing images and generating relevant, useful tags for a places app.\n" ++
  lit "Based on the image analysis data and place context, suggest 5-8 relevant tags that would help users categorize and search for this place.\n" ++
  lit "\n" ++
  lit "Focus on:\n" ++
  lit "- Atmosphere (cozy, modern, rustic, vibrant, etc.)\n" ++
  lit "- Activities (dining, photography, relaxation, etc.)\n" ++
  lit "- Audience (family-friendly, romantic, group-friendly, solo-friendly, etc.)\n" ++
  lit "- Characteristics (indoor/outdoor, quiet/lively, budget-friendly/upscale, etc.)\n" ++
  lit "\n" ++
  lit "Return ONLY valid JSON in this format (no other text, no markdown):\n" ++
  lit "\x7b\n" ++
  lit "  \"tags\": [\"tag1\", \"tag2\", \"tag3\", ...]\n" ++
  lit "\x7d\n" ++
  lit "\n" ++
  lit "Keep tags short (1-2 words each) and practical.\n" ++
  lit "\n" ++
  lit "Place: "

/-- The tag prompt after the optional image analysis section. -/
def tagPromptTail : JSString :=
  lit "\n" ++
  lit "\n" ++
  lit "Suggest relevant tags for this place."

/-- The search prompt up to the query. -/
def searchPromptHead : JSString :=
  lit "You are a smart search assistant for a places app.\n" ++
  lit "Given a natural language query and a list of places, identify which places best match the user's intent.\n" ++
  lit "\n" ++
  lit "Return ONLY valid JSON in this format (no other text, no markdown):\n" ++
  lit "\x7b\n" ++
  lit "  \"matchingIds\": [\"place-id-1\", \"place-id-2\", ...],\n" ++
  lit "  \"explanation\": \"Brief explanation of why these places match\"\n" ++
  lit "\x7d\n" ++
  lit "\n" ++
  lit "If no places match, return empty array with explanation.\n" ++
  lit "\n" ++
  lit "User query: \""

/-- The search prompt after the list of places. -/
def searchPromptTail : JSString :=
  lit "\n" ++
  lit "\n" ++
  lit "Which places match the query?"

/-! ## `POST /ai/summarize-notes` -/

/-- The validation test `!notes || notes.trim().length === 0`.  A truthy value
that is not a string has no method `trim`: the call throws a `TypeError`. -/
def notesMissing (E : Engine) (notes : Option (JSON E.D)) : Except JSError Bool :=
  if !truthy E notes then .ok true
  else
    match notes with
    | some (.str s) => .ok ((trim s).length == 0)
    | _ => .error (.typeError "notes.trim is not a function")

/-- The template literal of the summary prompt. -/
def summaryPrompt (E : Engine) (title category address notes : Option (JSON E.D)) :
    Except JSError JSString := do
  let t ← templateStr E title
  let c ← templateStr E category
  let a ← templateStr E address
  let n ← templateStr E notes
  pure (summaryPromptHead ++ t ++ lit "\nCategory: " ++ c ++ lit "\nLocation: " ++ a ++
    lit "\n\nRaw notes:\n" ++ n ++ summaryPromptTail)

/-- The handler of `POST /ai/summarize-notes`: the response and the outbound
calls made, in order.  (The log line after `parseJSON` converts `title` a
second time, which cannot fail where the prompt was built.) -/
def summarizeNotes (E : Engine) (env : Env E) (body : Body E.D) : Response E.D × List (Call E.D) :=
  let title := body.field "title"
  let notes := body.field "notes"
  let category := body.field "category"
  let address := body.field "address"
  match notesMissing E notes with
  | .error err => (serverError E env "Failed to generate summary" err, [])
  | .ok true => (badRequest "Notes field is required", [])
  | .ok false =>
    match summaryPrompt E title category address notes with
    | .error err => (serverError E env "Failed to generate summary" err, [])
    | .ok prompt =>
      match callGemini E env prompt with
      | .error err => (serverError E env "Failed to generate summary" err, [.generate prompt])
      | .ok response =>
        match parseJSON E response with
        | .error err => (serverError E env "Failed to generate summary" err, [.generate prompt])
        | .ok summary => (⟨200, summary⟩, [.generate prompt])

/-! ## `POST /ai/suggest-tags` -/

/-- The text assigned to `imageDescription` from an annotation result. -/
def imageDescriptionOf (E : Engine) (result : AnnotateImageResponse E.D) : JSString :=
  let labels := (result.labelAnnotations.map (fun ls => ls.map (fun l => l.description))).getD []
  let landmarks := (result.landmarkAnnotations.map (fun ls => ls.map (fun l => l.description))).getD []
  let colors := (result.dominantColors.map
    (fun cs => (cs.take 3).map (fun c => E.percentFixed0 c.score ++ lit "%"))).getD []
  lit "\nLabels detected: " ++ joinWith (lit ", ") labels ++
  lit "\nLandmarks: " ++ (if landmarks.length > 0 then joinWith (lit ", ") landmarks else lit "none") ++
  lit "\nDominant colors: " ++ joinWith (lit ", ") colors

/-- The vision step: `imageDescription` (empty when there is no client or the
call throws) and the annotation calls made. -/
def describeImage (E : Engine) (env : Env E) (photoUrl : JSON E.D) : JSString × List (Call E.D) :=
  match env.visionClient with
  | none => ([], [])
  | some client =>
    match client photoUrl with
    | .ok result => (imageDescriptionOf E result, [.annotate photoUrl])
    | .error _ => ([], [.annotate photoUrl])

/-- The image analysis section of the tag prompt: present exactly when
`imageDescription` is a non-empty string. -/
def imageSection (imageDescription : JSString) : JSString :=
  if imageDescription.isEmpty then [] else lit "\nImage analysis:\n" ++ imageDescription

/-- The template literal of the tag prompt. -/
def tagPrompt (E : Engine) (title category : Option (JSON E.D)) (imageDescription : JSString) :
    Except JSError JSString := do
  let t ← templateOr E title (lit "Unknown")
  let c ← templateOr E category (lit "General")
  pure (tagPromptHead ++ t ++ lit "\nCategory: " ++ c ++ lit "\n" ++
    imageSection imageDescription ++ tagPromptTail)

/-- The expression `Array.isArray(result.tags) ? result.tags : []`. -/
def coerceTags {D : Type} : Option (JSON D) → JSON D
  | some (.arr xs) => .arr xs
  | _ => .arr []

/-- The handler of `POST /ai/suggest-tags`.  (The log line before the answer
converts `title` and the length of the array `tags`; neither can throw: a
falsy `title` is a primitive, a truthy one was converted for the prompt.) -/
def suggestTags (E : Engine) (env : Env E) (body : Body E.D) : Response E.D × List (Call E.D) :=
  let photoUrl := body.field "photoUrl"
  let title := body.field "title"
  let category := body.field "category"
  match photoUrl, truthy E photoUrl with
  | some url, true =>
    let vision := describeImage E env url
    match tagPrompt E title category vision.1 with
    | .error err => (serverError E env "Failed to generate tags" err, vision.2)
    | .ok prompt =>
      match callGemini E env prompt with
      | .error err => (serverError E env "Failed to generate tags" err, vision.2 ++ [.generate prompt])
      | .ok response =>
        match parseJSON E response with
        | .error err => (serverError E env "Failed to generate tags" err, vision.2 ++ [.generate prompt])
        | .ok result =>
          match getProp (some result) "tags" with
          | .error err => (serverError E env "Failed to generate tags" err, vision.2 ++ [.generate prompt])
          | .ok tags => (⟨200, .obj [(lit "tags", coerceTags tags)]⟩, vision.2 ++ [.generate prompt])
  | _, _ => (badRequest "photoUrl is required", [])

/-! ## `POST /ai/smart-search` -/

/-- The validation test `!query || !places || !Array.isArray(places)`. -/
def searchInvalid (E : Engine) (query places : Option (JSON E.D)) : Bool :=
  !truthy E query || !truthy E places ||
    !(match places with
      | some v => v.isArray
      | none => false)

/-- The expression `p.tags?.join(', ') || 'none'`. -/
def tagsText (E : Engine) (p : JSON E.D) : Except JSError JSString := do
  let tags ← getProp (some p) "tags"
  match tags with
  | none => pure (lit "none")
  | some .null => pure (lit "none")
  | some (.arr xs) => do
    let s ← joinValues E (lit ", ") xs
    pure (if s.isEmpty then lit "none" else s)
  | some _ => .error (.typeError "p.tags.join is not a function")

/-- The expression `p.notes?.substring(0, 100) || 'none'`. -/
def notesText {D : Type} (p : JSON D) : Except JSError JSString := do
  let notes ← getProp (some p) "notes"
  match notes with
  | none => pure (lit "none")
  | some .null => pure (lit "none")
  | some (.str s) => pure (if (s.take 100).isEmpty then lit "none" else s.take 100)
  | some _ => .error (.typeError "p.notes.substring is not a function")

/-- The line of one place in the search prompt. -/
def placeLine (E : Engine) (p : JSON E.D) : Except JSError JSString := do
  let id ← getProp (some p) "id"
  let idText ← templateStr E id
  let title ← getProp (some p) "title"
  let titleText ← templateStr E title
  let category ← getProp (some p) "category"
  let categoryText ← templateStr E category
  let tags ← tagsText E p
  let notes ← notesText p
  pure (lit "ID: " ++ idText ++ lit " | Title: " ++ titleText ++ lit " | Category: " ++ categoryText ++
    lit " | Tags: " ++ tags ++ lit " | Notes: " ++ notes)

/-- The call `places.map(p => ...)`: the lines in order; the first exception
ends the loop. -/
def placeLines (E : Engine) : List (JSON E.D) → Except JSError (List JSString)
  | [] => .ok []
  | p :: ps =>
    match placeLine E p with
    | .error err => .error err
    | .ok l =>
      match placeLines E ps with
      | .error err => .error err
      | .ok ls => .ok (l :: ls)

/-- The template literal of the search prompt. -/
def searchPrompt (E : Engine) (query : Option (JSON E.D)) (places : List (JSON E.D)) :
    Except JSError JSString := do
  let q ← templateStr E query
  let ls ← placeLines E places
  pure (searchPromptHead ++ q ++ lit "\"\n\nAvailable places:\n" ++ joinWith (lit "\n") ls ++
    searchPromptTail)

/-- The substitution `${result.matchingIds?.length || 0}` of the log line that
follows `parseJSON`.  Reading `matchingIds` throws when `result` is `null`.
The length of an array or of a string is a number; a number or a boolean has
no `length`; an object has the `length` it owns, which the template literal
converts to text when it is truthy (and that conversion can throw). -/
def matchCount (E : Engine) (result : JSON E.D) : Except JSError JSString := do
  let ids ← getProp (some result) "matchingIds"
  match ids with
  | none => pure (lit "0")
  | some .null => pure (lit "0")
  | some (.arr xs) => pure (intToString xs.length)
  | some (.str s) => pure (intToString s.length)
  | some (.obj ms) => templateOr E (JSON.lookup (lit "length") ms) (lit "0")
  | some _ => pure (lit "0")

/-- The handler of `POST /ai/smart-search`.  After `parseJSON` the log line is
evaluated inside the `try`: its template literal converts `query` (already
converted for the prompt) and the count `matchCount`, which can throw. -/
def smartSearch (E : Engine) (env : Env E) (body : Body E.D) : Response E.D × List (Call E.D) :=
  let query := body.field "query"
  let places := body.field "places"
  match places, searchInvalid E query places with
  | some (.arr ps), false =>
    match searchPrompt E query ps with
    | .error err => (serverError E env "Failed to process search" err, [])
    | .ok prompt =>
      match callGemini E env prompt with
      | .error err => (serverError E env "Failed to process search" err, [.generate prompt])
      | .ok response =>
        match parseJSON E response with
        | .error err => (serverError E env "Failed to process search" err, [.generate prompt])
        | .ok result =>
          match matchCount E result with
          | .error err => (serverError E env "Failed to process search" err, [.generate prompt])
          | .ok _ => (⟨200, result⟩, [.generate prompt])
  | _, _ => (badRequest "query and places array are required", [])

/-! ## JSON values that survive serialisation -/

/-- A number is preserved when `JSON.stringify` writes it as a JSON number
literal that `JSON.parse` reads back as the same number.  (In a real engine:
every finite number except negative zero.) -/
def Engine.Preserved (E : Engine) (d : E.D) : Prop :=
  E.isFinite d = true ∧ lexNumber (E.numberToString d) = some (E.numberToString d, []) ∧
    E.numberOfLiteral (E.numberToString d) = d

mutual
/-- The JSON values of the engine: the keys of every object are distinct (as
the property names of a JavaScript object are) and every number is preserved. -/
def JSON.Valid (E : Engine) : JSON E.D → Prop
  | .null => True
  | .bool _ => True
  | .num d => E.Preserved d
  | .str _ => True
  | .arr xs => JSON.ValidElements E xs
  | .obj ms => (ms.map Prod.fst).Nodup ∧ JSON.ValidMembers E ms
/-- Every element is valid. -/
def JSON.ValidElements (E : Engine) : List (JSON E.D) → Prop
  | [] => True
  | x :: xs => JSON.Valid E x ∧ JSON.ValidElements E xs
/-- Every member value is valid. -/
def JSON.ValidMembers (E : Engine) : List (JSString × JSON E.D) → Prop
  | [] => True
  | (_, v) :: ms => JSON.Valid E v ∧ JSON.ValidMembers E ms
end

mutual
/-- A bound on the number of nested parser calls needed to read the value
back from its serialisation. -/
def JSON.cost {D : Type} : JSON D → Nat
  | .null => 1
  | .bool _ => 1
  | .num _ => 1
  | .str _ => 1
  | .arr xs => 1 + JSON.costElements xs
  | .obj ms => 1 + JSON.costMembers ms
/-- The bound for the elements of an array. -/
def JSON.costElements {D : Type} : List (JSON D) → Nat
  | [] => 0
  | x :: xs => 1 + JSON.cost x + JSON.costElements xs
/-- The bound for the members of an object. -/
def JSON.costMembers {D : Type} : List (JSString × JSON D) → Nat
  | [] => 0
  | (_, v) :: ms => 1 + JSON.cost v + JSON.costMembers ms
end

/-- Whether the text contains three consecutive backticks. -/
def containsFence : JSString → Bool
  | [] => false
  | c :: rest => fence.isPrefixOf (c :: rest) || containsFence rest

/-- A text that ends, or continues with a comma, a closing bracket or a
closing brace: what follows a value inside a serialisation. -/
def Terminated (rest : JSString) : Prop :=
  rest = [] ∨ ∃ c r, rest = c :: r ∧ (c = 44 ∨ c = 93 ∨ c = 125)

/-! ## Notions used to state the properties -/

/-- The own property `k` of a value that is an object; `undefined` (`none`) for
a missing property and for a value that is not an object. -/
def JSON.own {D : Type} (v : JSON D) (k : String) : Option (JSON D) :=
  match v with
  | .obj ms => JSON.lookup (lit k) ms
  | _ => none

/-- A field that is absent or a string. -/
def Textual {D : Type} (v : Option (JSON D)) : Prop :=
  v = none ∨ ∃ s, v = some (.str s)

/-- A search candidate of the documented shape: an object whose `id`, `title`,
`category` and `notes` are strings or absent and whose `tags` is an array of
strings or absent. -/
def PlainPlace {D : Type} (p : JSON D) : Prop :=
  ∃ ms, p = .obj ms ∧ Textual (JSON.lookup (lit "id") ms) ∧ Textual (JSON.lookup (lit "title") ms) ∧
    Textual (JSON.lookup (lit "category") ms) ∧ Textual (JSON.lookup (lit "notes") ms) ∧
    (JSON.lookup (lit "tags") ms = none ∨
      ∃ ts : List JSString, JSON.lookup (lit "tags") ms = some (.arr (ts.map .str)))

/-- A surrounding for concrete runs: no vision client, production mode, and a
generator that answers every prompt with the given text. -/
def stubEnv (reply : JSString) : Env intEngine where
  generateContent := fun _ => .ok reply
  visionClient := none
  development := false

/-- A surrounding for concrete runs with a vision client whose call has the
given outcome for every image. -/
def stubVisionEnv (reply : JSString) (outcome : Except JSError (AnnotateImageResponse intEngine.D)) :
    Env intEngine where
  generateContent := fun _ => .ok reply
  visionClient := some (fun _ => outcome)
  development := false

/-- The same surrounding without a vision client. -/
def Env.withoutVision {E : Engine} (env : Env E) : Env E :=
  { env with visionClient := none }

/-- The text contains a fenced block: three backticks and, later and without
overlap, three backticks again. -/
def HasFencedBlock (text : JSString) : Prop :=
  ∃ P M Q : JSString, text = P ++ (fence ++ (M ++ (fence ++ Q)))

/-- The text `span` is the part of `text` from its first opening brace to its
last closing brace, the latter coming after the former. -/
def BraceSpan (text span : JSString) : Prop :=
  ∃ P A B : JSString, text = P ++ 123 :: (A ++ 125 :: B) ∧ 123 ∉ P ∧ 125 ∉ B ∧ span = 123 :: (A ++ [125])

/-! ## Notions used to state the properties of the prompts and of the error answer -/

/-- A surrounding for concrete runs with a chosen outcome of the generator and
a chosen mode; no vision client. -/
def testEnv (outcome : Except JSError JSString) (development : Bool) : Env intEngine where
  generateContent := fun _ => outcome
  visionClient := none
  development := development

/-- The uniform answer to a processing failure: status 500 and a body made of
the fixed label, the generic message of the operation and, in development
only, the member `details` with the message of the error. -/
def IsServerError (E : Engine) (env : Env E) (r : Response E.D) (message : String) (details : JSString) :
    Prop :=
  r.status = 500 ∧
  r.body = .obj ([(lit "error", .str (lit "Internal Server Error")), (lit "message", .str (lit message))] ++
    (if env.development then [(lit "details", .str details)] else []))

/-- The entry of a candidate in the search prompt: the five labelled fields. -/
def entryText (id title category tags notes : JSString) : JSString :=
  lit "ID: " ++ id ++ lit " | Title: " ++ title ++ lit " | Category: " ++ category ++
    lit " | Tags: " ++ tags ++ lit " | Notes: " ++ notes

/-- The text shown for `tags`: `none` when `tags` is absent (or `null`); for an
array the elements joined by a comma and a blank, or `none` when that joined
text is empty. -/
def TagsField (E : Engine) (tags : Option (JSON E.D)) (T : JSString) : Prop :=
  match tags with
  | none => T = lit "none"
  | some .null => T = lit "none"
  | some (.arr xs) => ∃ s, joinValues E (lit ", ") xs = .ok s ∧ T = if s = [] then lit "none" else s
  | some _ => False

/-- The text shown for `notes`: `none` when `notes` is absent (or `null`) or
the empty string; otherwise its first 100 code units. -/
def NotesField {D : Type} (notes : Option (JSON D)) (N : JSString) : Prop :=
  match notes with
  | none => N = lit "none"
  | some .null => N = lit "none"
  | some (.str s) => N = if s = [] then lit "none" else s.take 100
  | some _ => False

/-- The text `line` is the entry of the candidate `p`. -/
def IsEntry (E : Engine) (p : JSON E.D) (line : JSString) : Prop :=
  ∃ id title category T N, line = entryText id title category T N ∧
    templateStr E (p.own "id") = .ok id ∧ templateStr E (p.own "title") = .ok title ∧
    templateStr E (p.own "category") = .ok category ∧
    TagsField E (p.own "tags") T ∧ NotesField (p.own "notes") N

/-- The local `colors` of the vision step: the percentage strings of the
colours kept for the prompt. -/
def colorShares (E : Engine) (result : AnnotateImageResponse E.D) : List JSString :=
  (result.dominantColors.map
    (fun cs => (cs.take 3).map (fun c => E.percentFixed0 c.score ++ lit "%"))).getD []

/-- The text before the first run of three backticks and the text after it;
`none` when there is no such run. -/
def splitAtFence : JSString → Option (JSString × JSString)
  | [] => none
  | c :: rest =>
    if fence.isPrefixOf (c :: rest) then some ([], (c :: rest).drop 3)
    else (splitAtFence rest).map (fun x => (c :: x.1, x.2))

/-- Removes the label `json` at the head of the text, if it is there. -/
def dropLabel (s : JSString) : JSString :=
  if (lit "json").isPrefixOf s then s.drop 4 else s

/-- The whitespace-trimmed interior of the first fenced block: the text
between the first three backticks (and the label `json`, if it follows them)
and the next three backticks, trimmed; `none` when the text has no fenced
block. -/
def firstFencedInterior (text : JSString) : Option JSString :=
  match splitAtFence text with
  | none => none
  | some y => (splitAtFence (dropLabel y.2)).map (fun x => trim x.1)

/-! # Properties -/

/-! ## Strings: `JSON.parse` reads back what `QuoteJSONString` writes -/

theorem hexVal_hexDigit (n : Nat) (h : n < 16) : hexVal (hexDigit n) = some n := by
  interval_cases n <;> rfl

theorem hex4_unicodeEscape (c : Nat) (h : c < 65536) :
    hex4 (hexDigit (c / 4096 % 16)) (hexDigit (c / 256 % 16)) (hexDigit (c / 16 % 16)) (hexDigit (c % 16))
      = some c := by
  unfold hex4
  rw [hexVal_hexDigit _ (Nat.mod_lt _ (by norm_num)), hexVal_hexDigit _ (Nat.mod_lt _ (by norm_num)),
    hexVal_hexDigit _ (Nat.mod_lt _ (by norm_num)), hexVal_hexDigit _ (Nat.mod_lt _ (by norm_num))]
  simp only [Option.some.injEq]
  omega

theorem parseString_cons_plain (c : Nat) (rest : JSString) (h1 : c ≠ 34) (h2 : c ≠ 92) (h3 : ¬ c < 32) :
    parseString (c :: rest) = (parseString rest).map (fun r => (c :: r.1, r.2)) := by
  rw [parseString.eq_def]
  simp [h1, h2, h3]

theorem parseString_unicodeEscape (c : Nat) (rest : JSString) (h : c < 65536) :
    parseString (unicodeEscape c ++ rest) = (parseString rest).map (fun r => (c :: r.1, r.2)) := by
  unfold unicodeEscape
  simp only [List.cons_append, List.nil_append]
  rw [parseString.eq_def]
  simp [hex4_unicodeEscape c h]

theorem parseString_quoteUnit (c : Nat) (rest : JSString) :
    parseString (quoteUnit c ++ rest) = (parseString rest).map (fun r => (c :: r.1, r.2)) := by
  unfold quoteUnit
  split_ifs with h8 h9 h10 h12 h13 h34 h92 hesc
  iterate 7 (subst_vars; simp only [List.cons_append, List.nil_append]; rw [parseString.eq_def]; simp [simpleEscape])
  · apply parseString_unicodeEscape
    simp [isLeadSurrogate, isTrailSurrogate] at hesc
    omega
  · simp only [List.cons_append, List.nil_append]
    apply parseString_cons_plain _ _ h34 h92
    simp at hesc
    omega

theorem parseString_quote (rest : JSString) : parseString (34 :: rest) = some ([], rest) := by
  rw [parseString.eq_def]; simp

theorem parseString_quoteUnits (s rest : JSString) :
    parseString (quoteUnits s ++ 34 :: rest) = some (s, rest) := by
  induction s using quoteUnits.induct with
  | case1 => simp [quoteUnits, parseString_quote]
  | case2 c =>
    simp only [quoteUnits]
    rw [parseString_quoteUnit]
    simp [parseString_quote]
  | case3 c d rest' hpair ih =>
    simp only [quoteUnits, hpair, if_true, List.cons_append]
    simp [isLeadSurrogate, isTrailSurrogate] at hpair
    rw [parseString_cons_plain c _ (by omega) (by omega) (by omega),
      parseString_cons_plain d _ (by omega) (by omega) (by omega), ih]
    simp
  | case4 c d rest' hpair ih =>
    simp only [quoteUnits, hpair, Bool.false_eq_true, if_false, List.append_assoc]
    rw [parseString_quoteUnit, ih]
    simp

theorem parseString_quoteJSONString (s rest : JSString) :
    ∃ tl, quoteJSONString s ++ rest = 34 :: tl ∧ parseString tl = some (s, rest) := by
  refine ⟨quoteUnits s ++ 34 :: rest, ?_, parseString_quoteUnits s rest⟩
  simp [quoteJSONString]

/-! ## Number literals -/

theorem numStep_terminator (q : NumState) (c : Nat) (h : c = 44 ∨ c = 93 ∨ c = 125) :
    numStep q c = none := by
  rcases h with h | h | h <;> subst h <;> cases q <;> rfl

theorem scanNumber_append (l : JSString) : ∀ (q q' : NumState) (rest : JSString), Terminated rest →
    scanNumber q l = (q', l, []) → scanNumber q (l ++ rest) = (q', l, rest) := by
  induction l with
  | nil =>
    intro q q' rest hrest h
    simp only [scanNumber, Prod.mk.injEq, and_true] at h
    subst h
    rcases hrest with rfl | ⟨c, r, rfl, hc⟩
    · simp [scanNumber]
    · simp [scanNumber, numStep_terminator q c hc]
  | cons c l ih =>
    intro q q' rest hrest h
    simp only [scanNumber, List.cons_append] at h ⊢
    cases hstep : numStep q c with
    | none => simp [hstep] at h
    | some q1 =>
      simp only [hstep, Prod.mk.injEq, List.cons.injEq, true_and] at h ⊢
      have h2 : scanNumber q1 l = (q', l, []) := by
        rcases h with ⟨h1, h2, h3⟩
        exact Prod.ext h1 (Prod.ext h2 h3)
      have h3 := ih q1 q' rest hrest h2
      simp only [List.append_eq] at h3 ⊢
      rw [h3]
      simp

theorem lexNumber_append (l rest : JSString) (hrest : Terminated rest)
    (h : lexNumber l = some (l, [])) : lexNumber (l ++ rest) = some (l, rest) := by
  unfold lexNumber at h ⊢
  simp only at h ⊢
  split at h
  · rename_i hacc
    simp only [Option.some.injEq, Prod.mk.injEq] at h
    have hs : scanNumber .start l = ((scanNumber .start l).1, l, []) :=
      Prod.ext rfl (Prod.ext h.1 h.2)
    rw [scanNumber_append l _ _ rest hrest hs]
    simp [hacc]
  · simp at h

theorem lexNumber_head (l : JSString) (h : lexNumber l = some (l, [])) :
    ∃ c tl, l = c :: tl ∧ (c = 45 ∨ (48 ≤ c ∧ c ≤ 57)) := by
  cases l with
  | nil => simp [lexNumber, scanNumber, NumState.accepting] at h
  | cons c tl =>
    refine ⟨c, tl, rfl, ?_⟩
    unfold lexNumber at h
    simp only [scanNumber] at h
    cases hstep : numStep .start c with
    | none => simp [hstep] at h
    | some q =>
      simp only [numStep, isDigit] at hstep
      by_contra hc
      have h1 : c ≠ 45 := by omega
      have h2 : c ≠ 48 := by omega
      have h3 : ¬ (48 ≤ c ∧ c ≤ 57) := by omega
      simp [h1, h2, h3] at hstep

/-! ## First characters and unfolding of the value reader -/

theorem lit_null : lit "null" = [110, 117, 108, 108] := by rfl
theorem lit_true : lit "true" = [116, 114, 117, 101] := by rfl
theorem lit_false : lit "false" = [102, 97, 108, 115, 101] := by rfl

theorem skipWs_cons (c : Nat) (rest : JSString) (h : isJSONSpace c = false) :
    skipWs (c :: rest) = c :: rest := by
  simp [skipWs, List.dropWhile, h]

theorem Terminated.skipWs {rest : JSString} (h : Terminated rest) : skipWs rest = rest := by
  rcases h with rfl | ⟨c, r, rfl, hc⟩
  · rfl
  · apply skipWs_cons
    rcases hc with rfl | rfl | rfl <;> rfl

theorem stringify_head (E : Engine) (v : JSON E.D) (hv : JSON.Valid E v) :
    ∃ c tl, stringify E v = c :: tl ∧ isJSONSpace c = false ∧ c ≠ 93 ∧ c ≠ 125 ∧ c ≠ 44 := by
  cases v with
  | null => exact ⟨110, _, by rw [stringify, lit_null], by decide, by decide, by decide, by decide⟩
  | bool b =>
    cases b
    · exact ⟨102, _, by rw [stringify, lit_false], by decide, by decide, by decide, by decide⟩
    · exact ⟨116, _, by rw [stringify, lit_true], by decide, by decide, by decide, by decide⟩
  | num d =>
    simp only [JSON.Valid, Engine.Preserved] at hv
    obtain ⟨c, tl, hl, hc⟩ := lexNumber_head _ hv.2.1
    refine ⟨c, tl, by rw [stringify, hv.1, if_pos rfl, hl], ?_, ?_, ?_, ?_⟩
    · simp only [isJSONSpace]
      rcases hc with rfl | hc
      · rfl
      · simp; omega
    all_goals omega
  | str s => exact ⟨34, _, by rw [stringify, quoteJSONString], by decide, by decide, by decide, by decide⟩
  | arr xs => exact ⟨91, _, by rw [stringify], by decide, by decide, by decide, by decide⟩
  | obj ms => exact ⟨123, _, by rw [stringify], by decide, by decide, by decide, by decide⟩

theorem parseValue_cons (E : Engine) (fuel c : Nat) (rest : JSString) (h : isJSONSpace c = false) :
    parseValue E (fuel + 1) (c :: rest) =
      if c = 123 then
        match skipWs rest with
        | [] => none
        | c' :: rest' =>
          if c' = 125 then some (.obj [], rest')
          else (parseMembers E fuel (c' :: rest')).map
            (fun r => (.obj (r.1.foldl (fun acc kv => JSON.setProp acc kv.1 kv.2) []), r.2))
      else if c = 91 then
        match skipWs rest with
        | [] => none
        | c' :: rest' =>
          if c' = 93 then some (.arr [], rest')
          else (parseElements E fuel (c' :: rest')).map (fun r => (.arr r.1, r.2))
      else if c = 34 then (parseString rest).map (fun r => (.str r.1, r.2))
      else if c = 116 then (expect (lit "true") (c :: rest)).map (fun r => (.bool true, r))
      else if c = 102 then (expect (lit "false") (c :: rest)).map (fun r => (.bool false, r))
      else if c = 110 then (expect (lit "null") (c :: rest)).map (fun r => (.null, r))
      else (lexNumber (c :: rest)).map (fun r => (.num (E.numberOfLiteral r.1), r.2)) := by
  rw [parseValue, skipWs_cons c rest h]

/-! ## `JSON.parse` after `JSON.stringify` -/

theorem setProp_new {D : Type} (acc : List (JSString × JSON D)) (k : JSString) (v : JSON D)
    (h : k ∉ acc.map Prod.fst) : JSON.setProp acc k v = acc ++ [(k, v)] := by
  induction acc with
  | nil => rfl
  | cons kv acc ih =>
    obtain ⟨k', v'⟩ := kv
    simp only [List.map_cons, List.mem_cons, not_or] at h
    simp only [JSON.setProp, List.cons_append]
    rw [if_neg (fun e => h.1 e.symm), ih h.2]

theorem foldl_setProp {D : Type} (ms : List (JSString × JSON D)) :
    ∀ acc : List (JSString × JSON D), ((acc ++ ms).map Prod.fst).Nodup →
      ms.foldl (fun acc kv => JSON.setProp acc kv.1 kv.2) acc = acc ++ ms := by
  induction ms with
  | nil => intro acc _; simp
  | cons kv ms ih =>
    intro acc h
    simp only [List.foldl_cons]
    have hk : kv.1 ∉ acc.map Prod.fst := by
      simp only [List.map_append, List.map_cons] at h
      rw [List.nodup_append] at h
      intro hmem
      exact h.2.2 hmem (List.mem_cons_self _ _)
    rw [setProp_new acc kv.1 kv.2 hk, ih]
    · simp
    · simpa using h

theorem foldl_setProp_nil {D : Type} (ms : List (JSString × JSON D)) (h : (ms.map Prod.fst).Nodup) :
    ms.foldl (fun acc kv => JSON.setProp acc kv.1 kv.2) [] = ms := by
  simpa using foldl_setProp ms [] (by simpa using h)

/-- Reading back a serialisation, for the three mutually recursive readers at
once; by induction on the bound on nested calls. -/
theorem parse_stringify_aux (E : Engine) (n : Nat) :
    (∀ (v : JSON E.D), JSON.Valid E v → ∀ (rest : JSString), v.cost ≤ n → Terminated rest →
      parseValue E n (stringify E v ++ rest) = some (v, rest)) ∧
    (∀ (x : JSON E.D) (xs : List (JSON E.D)), JSON.Valid E x → JSON.ValidElements E xs →
      ∀ (rest : JSString), JSON.costElements (x :: xs) ≤ n →
        parseElements E n (stringifyElements E (x :: xs) ++ 93 :: rest) = some (x :: xs, rest)) ∧
    (∀ (k : JSString) (v : JSON E.D) (ms : List (JSString × JSON E.D)),
      JSON.Valid E v → JSON.ValidMembers E ms →
      ∀ (rest : JSString), JSON.costMembers ((k, v) :: ms) ≤ n →
        parseMembers E n (stringifyMembers E ((k, v) :: ms) ++ 125 :: rest) = some ((k, v) :: ms, rest)) := by
  induction n with
  | zero =>
    refine ⟨?_, ?_, ?_⟩
    · intro v _ rest hf _
      cases v <;> simp [JSON.cost] at hf
    · intro x xs _ _ rest hf
      simp only [JSON.costElements] at hf; omega
    · intro k v ms _ _ rest hf
      simp only [JSON.costMembers] at hf; omega
  | succ f ih =>
    obtain ⟨ihV, ihE, ihM⟩ := ih
    refine ⟨?_, ?_, ?_⟩
    · intro v hv rest hf hrest
      match v, hv, hf with
      | .null, _, _ =>
        simp only [stringify, lit_null, List.cons_append]
        rw [parseValue_cons E f _ _ (by decide)]
        simp [expect, lit_null]
      | .bool true, _, _ =>
        simp only [stringify, lit_true, List.cons_append]
        rw [parseValue_cons E f _ _ (by decide)]
        simp [expect, lit_true]
      | .bool false, _, _ =>
        simp only [stringify, lit_false, List.cons_append]
        rw [parseValue_cons E f _ _ (by decide)]
        simp [expect, lit_false]
      | .num d, hv, _ =>
        have hv' := hv
        simp only [JSON.Valid, Engine.Preserved] at hv'
        obtain ⟨c, tl, hl, hc⟩ := lexNumber_head _ hv'.2.1
        have happ := lexNumber_append _ rest hrest hv'.2.1
        simp only [stringify, hv'.1, if_true]
        rw [hl, List.cons_append, parseValue_cons E f _ _ (by
          simp only [isJSONSpace]; rcases hc with rfl | hc
          · rfl
          · simp; omega)]
        rw [hl, List.cons_append] at happ
        have h1 : c ≠ 123 := by omega
        have h2 : c ≠ 91 := by omega
        have h3 : c ≠ 34 := by omega
        have h4 : c ≠ 116 := by omega
        have h5 : c ≠ 102 := by omega
        have h6 : c ≠ 110 := by omega
        simp only [h1, h2, h3, h4, h5, h6, if_false, happ, Option.map_some', ← hl, hv'.2.2]
      | .str s, _, _ =>
        simp only [stringify, quoteJSONString, List.cons_append, List.append_assoc]
        rw [parseValue_cons E f _ _ (by decide)]
        simp [parseString_quoteUnits]
      | .arr [], _, _ =>
        simp only [stringify, stringifyElements, List.cons_append, List.nil_append]
        rw [parseValue_cons E f _ _ (by decide)]
        simp [skipWs_cons 93 rest (by decide)]
      | .arr (x :: xs), hv, hf =>
        simp only [JSON.Valid, JSON.ValidElements] at hv
        have hel := ihE x xs hv.1 hv.2 rest (by simp only [JSON.cost] at hf; omega)
        obtain ⟨c, tl, hx, hc, h93, _, _⟩ := stringify_head E x hv.1
        have hhead : ∃ tl', stringifyElements E (x :: xs) ++ 93 :: rest = c :: tl' := by
          refine ⟨(stringifyElements E (x :: xs) ++ 93 :: rest).tail, ?_⟩
          cases xs <;> simp [stringifyElements, hx]
        obtain ⟨tl', htl⟩ := hhead
        simp only [stringify, List.cons_append, List.append_assoc, List.nil_append, List.singleton_append]
        rw [parseValue_cons E f _ _ (by decide)]
        rw [htl] at hel
        simp only [show (91 : Nat) ≠ 123 by decide, if_false, if_true, htl, skipWs_cons c tl' hc, h93, hel,
          Option.map_some']
      | .obj [], _, _ =>
        simp only [stringify, stringifyMembers, List.cons_append, List.nil_append]
        rw [parseValue_cons E f _ _ (by decide)]
        simp [skipWs_cons 125 rest (by decide)]
      | .obj ((k, v) :: ms), hv, hf =>
        simp only [JSON.Valid, JSON.ValidMembers] at hv
        have hme := ihM k v ms hv.2.1 hv.2.2 rest (by simp only [JSON.cost] at hf; omega)
        have hhead : ∃ tl', stringifyMembers E ((k, v) :: ms) ++ 125 :: rest = 34 :: tl' := by
          refine ⟨(stringifyMembers E ((k, v) :: ms) ++ 125 :: rest).tail, ?_⟩
          cases ms <;> simp [stringifyMembers, quoteJSONString]
        obtain ⟨tl', htl⟩ := hhead
        simp only [stringify, List.cons_append, List.append_assoc, List.nil_append, List.singleton_append]
        rw [parseValue_cons E f _ _ (by decide)]
        rw [htl] at hme
        simp only [if_true, htl, skipWs_cons 34 tl' (by decide), show (34 : Nat) ≠ 125 by decide, if_false,
          hme, Option.map_some', foldl_setProp_nil _ hv.1]
    · intro x xs hx hxs rest hf
      match xs, hxs, hf with
      | [], _, hf =>
        have hval := ihV x hx (93 :: rest)
          (by simp only [JSON.costElements] at hf; omega) (Or.inr ⟨93, rest, rfl, by simp⟩)
        simp only [stringifyElements]
        rw [parseElements, hval]
        simp [skipWs_cons 93 rest (by decide)]
      | y :: ys, hxs, hf =>
        simp only [JSON.ValidElements] at hxs
        have hval := ihV x hx (44 :: (stringifyElements E (y :: ys) ++ 93 :: rest))
          (by simp only [JSON.costElements] at hf; omega) (Or.inr ⟨44, _, rfl, by simp⟩)
        have hrec := ihE y ys hxs.1 hxs.2 rest (by simp only [JSON.costElements] at hf ⊢; omega)
        simp only [stringifyElements, List.append_assoc, List.cons_append]
        rw [parseElements, hval]
        simp [skipWs_cons 44 _ (by decide), hrec]
    · intro k v ms hv hms rest hf
      match ms, hms, hf with
      | [], _, hf =>
        have hval := ihV v hv (125 :: rest)
          (by simp only [JSON.costMembers] at hf; omega) (Or.inr ⟨125, rest, rfl, by simp⟩)
        simp only [stringifyMembers, quoteJSONString, List.append_assoc, List.cons_append, List.nil_append]
        rw [parseMembers, skipWs_cons 34 _ (by decide)]
        simp [parseString_quoteUnits, skipWs_cons 58 _ (by decide), hval, skipWs_cons 125 rest (by decide)]
      | (k', v') :: ms, hms, hf =>
        simp only [JSON.ValidMembers] at hms
        have hval := ihV v hv (44 :: (stringifyMembers E ((k', v') :: ms) ++ 125 :: rest))
          (by simp only [JSON.costMembers] at hf; omega) (Or.inr ⟨44, _, rfl, by simp⟩)
        have hrec := ihM k' v' ms hms.1 hms.2 rest (by simp only [JSON.costMembers] at hf ⊢; omega)
        simp only [stringifyMembers, quoteJSONString, List.append_assoc, List.cons_append, List.nil_append]
        rw [parseMembers, skipWs_cons 34 _ (by decide)]
        simp only [quoteJSONString, List.append_assoc, List.cons_append, List.nil_append] at hrec
        simp [parseString_quoteUnits, skipWs_cons 58 _ (by decide), hval, skipWs_cons 44 _ (by decide), hrec]

theorem cost_le_length_aux (E : Engine) (n : Nat) :
    (∀ v : JSON E.D, v.cost ≤ n → JSON.Valid E v → v.cost ≤ (stringify E v).length) ∧
    (∀ xs : List (JSON E.D), JSON.costElements xs ≤ n → JSON.ValidElements E xs →
      JSON.costElements xs ≤ (stringifyElements E xs).length + 1) ∧
    (∀ ms : List (JSString × JSON E.D), JSON.costMembers ms ≤ n → JSON.ValidMembers E ms →
      JSON.costMembers ms ≤ (stringifyMembers E ms).length + 1) := by
  induction n with
  | zero =>
    refine ⟨?_, ?_, ?_⟩
    · intro v hf _
      cases v <;> simp [JSON.cost] at hf
    · intro xs hf _
      cases xs with
      | nil => simp [JSON.costElements]
      | cons x xs => simp only [JSON.costElements] at hf; omega
    · intro ms hf _
      cases ms with
      | nil => simp [JSON.costMembers]
      | cons m ms => obtain ⟨k, v⟩ := m; simp only [JSON.costMembers] at hf; omega
  | succ n ih =>
    obtain ⟨ihV, ihE, ihM⟩ := ih
    refine ⟨?_, ?_, ?_⟩
    · intro v hf hv
      obtain ⟨c, tl, hhead, _⟩ := stringify_head E v hv
      match v, hv, hf with
      | .null, _, _ => simp [JSON.cost, hhead]
      | .bool _, _, _ => simp [JSON.cost, hhead]
      | .num _, _, _ => simp [JSON.cost, hhead]
      | .str _, _, _ => simp [JSON.cost, hhead]
      | .arr xs, hv, hf =>
        simp only [JSON.Valid] at hv
        have := ihE xs (by simp only [JSON.cost] at hf; omega) hv
        simp only [JSON.cost, stringify, List.length_cons, List.length_append, List.length_nil]
        omega
      | .obj ms, hv, hf =>
        simp only [JSON.Valid] at hv
        have := ihM ms (by simp only [JSON.cost] at hf; omega) hv.2
        simp only [JSON.cost, stringify, List.length_cons, List.length_append, List.length_nil]
        omega
    · intro xs hf hxs
      match xs, hxs, hf with
      | [], _, _ => simp [JSON.costElements]
      | [x], hxs, hf =>
        simp only [JSON.ValidElements] at hxs
        have := ihV x (by simp only [JSON.costElements] at hf; omega) hxs.1
        simp only [JSON.costElements, stringifyElements]
        omega
      | x :: y :: ys, hxs, hf =>
        simp only [JSON.ValidElements] at hxs
        have h1 := ihV x (by simp only [JSON.costElements] at hf; omega) hxs.1
        have h2 := ihE (y :: ys) (by simp only [JSON.costElements] at hf ⊢; omega)
          (by simp only [JSON.ValidElements]; exact hxs.2)
        simp only [JSON.costElements, stringifyElements, List.length_cons, List.length_append] at h2 ⊢
        omega
    · intro ms hf hms
      match ms, hms, hf with
      | [], _, _ => simp [JSON.costMembers]
      | [(k, v)], hms, hf =>
        simp only [JSON.ValidMembers] at hms
        have := ihV v (by simp only [JSON.costMembers] at hf; omega) hms.1
        simp only [JSON.costMembers, stringifyMembers, List.length_cons, List.length_append]
        omega
      | (k, v) :: (k', v') :: ms, hms, hf =>
        simp only [JSON.ValidMembers] at hms
        have h1 := ihV v (by simp only [JSON.costMembers] at hf; omega) hms.1
        have h2 := ihM ((k', v') :: ms) (by simp only [JSON.costMembers] at hf ⊢; omega)
          (by simp only [JSON.ValidMembers]; exact hms.2)
        simp only [JSON.costMembers, stringifyMembers, List.length_cons, List.length_append] at h2 ⊢
        omega

/-- The round trip of the platform: `JSON.parse(JSON.stringify(v))` is `v`. -/
theorem jsonParse_stringify (E : Engine) (v : JSON E.D) (hv : JSON.Valid E v) :
    jsonParse E (stringify E v) = .ok v := by
  have hcost := (cost_le_length_aux E v.cost).1 v (le_refl _) hv
  have h := (parse_stringify_aux E ((stringify E v).length + 1)).1 v hv [] (by omega) (Or.inl rfl)
  rw [List.append_nil] at h
  simp [jsonParse, h, skipWs]

/-- A value read from a text that starts with an opening brace is an object. -/
theorem jsonParse_brace (E : Engine) (rest : JSString) (v : JSON E.D)
    (h : jsonParse E (123 :: rest) = .ok v) : v.isObject = true := by
  unfold jsonParse at h
  rw [parseValue_cons E _ 123 rest (by decide)] at h
  simp only [if_true] at h
  split at h
  · rename_i v' rest' hp
    split at hp
    · simp at hp
    · split at hp
      · simp only [Option.some.injEq, Prod.mk.injEq] at hp
        split at h
        · simp only [Except.ok.injEq] at h
          rw [← h, ← hp.1]; rfl
        · simp at h
      · rw [Option.map_eq_some'] at hp
        obtain ⟨r, _, hr⟩ := hp
        simp only [Prod.mk.injEq] at hr
        split at h
        · simp only [Except.ok.injEq] at h
          rw [← h, ← hr.1]; rfl
        · simp at h
  · simp at h

/-! ## The regular expressions on serialised objects -/

theorem closeFence_cons (c : Nat) (rest : JSString) :
    closeFence (c :: rest) =
      match (if isSpace c then closeFence rest else none) with
      | some r => some r
      | none => expect fence (c :: rest) := rfl

theorem lazyBody_cons (c : Nat) (rest : JSString) :
    lazyBody (c :: rest) =
      match closeFence (c :: rest) with
      | some r => some ([], r)
      | none => (lazyBody rest).map (fun x => (c :: x.1, x.2)) := rfl

theorem openBody_cons (c : Nat) (rest : JSString) :
    openBody (c :: rest) =
      match (if isSpace c then openBody rest else none) with
      | some x => some x
      | none => lazyBody (c :: rest) := rfl

theorem isSpace_125 : isSpace 125 = false := by decide
theorem isSpace_123 : isSpace 123 = false := by decide
theorem isSpace_10 : isSpace 10 = true := by decide

theorem expect_fence (s : JSString) :
    expect fence s = if fence.isPrefixOf s then some (s.drop 3) else none := rfl

theorem matchFence_none_of_not_containsFence (s : JSString) (h : containsFence s = false) :
    matchFence s = none := by
  induction s with
  | nil => rfl
  | cons c rest ih =>
    simp only [containsFence, Bool.or_eq_false_iff] at h
    rw [matchFence, fenceAt, expect_fence, h.1]
    simp [ih h.2]

theorem isPrefixOf_fence_append (A G : JSString) :
    fence.isPrefixOf (A ++ 125 :: G) = fence.isPrefixOf (A ++ [125]) := by
  match A with
  | [] => simp [fence, List.isPrefixOf]
  | [a] => simp [fence, List.isPrefixOf]
  | [a, b] => simp [fence, List.isPrefixOf]
  | a :: b :: c :: A' => simp [fence, List.isPrefixOf]

theorem closeFence_none (A G : JSString) (h : containsFence (A ++ [125]) = false) :
    closeFence (A ++ 125 :: G) = none := by
  induction A with
  | nil =>
    simp only [List.nil_append]
    rw [closeFence_cons, isSpace_125]
    rfl
  | cons c A ih =>
    simp only [List.cons_append, containsFence, Bool.or_eq_false_iff, List.append_eq] at h
    have hp : fence.isPrefixOf (c :: (A ++ 125 :: G)) = false := by
      have := isPrefixOf_fence_append (c :: A) G
      simp only [List.cons_append] at this
      rw [this, h.1]
    simp only [List.cons_append]
    rw [closeFence_cons, ih h.2, expect_fence, hp]
    simp

theorem lazyBody_serialised (A : JSString) (h : containsFence (A ++ [125]) = false) :
    lazyBody (A ++ 125 :: lit "\n```") = some (A ++ [125], []) := by
  induction A with
  | nil =>
    have h1 := closeFence_none [] (lit "\n```") h
    simp only [List.nil_append] at h1 ⊢
    rw [lazyBody_cons, h1]
    rfl
  | cons c A ih =>
    have h1 := closeFence_none (c :: A) (lit "\n```") h
    simp only [List.cons_append, containsFence, Bool.or_eq_false_iff, List.append_eq] at h h1 ⊢
    rw [lazyBody_cons, h1, ih h.2]
    rfl

theorem matchFence_fenced (A : JSString) (h : containsFence (123 :: (A ++ [125])) = false) :
    matchFence (lit "```json\n" ++ 123 :: (A ++ [125]) ++ lit "\n```") =
      some ⟨lit "```json\n" ++ 123 :: (A ++ [125]) ++ lit "\n```", some (123 :: (A ++ [125]))⟩ := by
  have hl := lazyBody_serialised (123 :: A) (by simpa using h)
  simp only [List.cons_append] at hl
  have e1 : lit "```json\n" ++ 123 :: (A ++ [125]) ++ lit "\n```" =
      96 :: 96 :: 96 :: 106 :: 115 :: 111 :: 110 :: 10 :: 123 :: (A ++ 125 :: lit "\n```") := by
    have : lit "```json\n" = [96, 96, 96, 106, 115, 111, 110, 10] := by rfl
    rw [this]; simp
  have h2 : openBody (123 :: (A ++ 125 :: lit "\n```")) = some (123 :: (A ++ [125]), []) := by
    rw [openBody_cons, isSpace_123]
    simp [hl]
  have hopen : openBody (10 :: 123 :: (A ++ 125 :: lit "\n```")) = some (123 :: (A ++ [125]), []) := by
    rw [openBody_cons, isSpace_10]
    simp [h2]
  have hafter : afterOpen (106 :: 115 :: 111 :: 110 :: 10 :: 123 :: (A ++ 125 :: lit "\n```")) =
      some (123 :: (A ++ [125]), []) := by
    have hj : expect (lit "json") (106 :: 115 :: 111 :: 110 :: 10 :: 123 :: (A ++ 125 :: lit "\n```")) =
        some (10 :: 123 :: (A ++ 125 :: lit "\n```")) := by
      have : lit "json" = [106, 115, 111, 110] := by rfl
      simp [expect, this, List.isPrefixOf]
    simp only [afterOpen, hj, hopen]
  have hf : expect fence (96 :: 96 :: 96 :: 106 :: 115 :: 111 :: 110 :: 10 :: 123 :: (A ++ 125 :: lit "\n```")) =
      some (106 :: 115 :: 111 :: 110 :: 10 :: 123 :: (A ++ 125 :: lit "\n```")) := by
    simp [expect, fence, List.isPrefixOf]
  rw [e1, matchFence, fenceAt, hf]
  simp only [hafter, Option.map_some', List.length_nil, Nat.sub_zero, List.take_length]

theorem greedyToBrace_none (B : JSString) (h : 125 ∉ B) : greedyToBrace B = none := by
  induction B with
  | nil => rfl
  | cons c B ih =>
    simp only [List.mem_cons, not_or] at h
    rw [greedyToBrace, ih h.2]
    simp only [ite_eq_right_iff]
    intro e; exact absurd e.symm h.1

theorem greedyToBrace_append (A B : JSString) (h : 125 ∉ B) :
    greedyToBrace (A ++ 125 :: B) = some (A ++ [125]) := by
  induction A with
  | nil =>
    simp only [List.nil_append]
    rw [greedyToBrace, greedyToBrace_none B h]
    simp
  | cons c A ih =>
    simp only [List.cons_append]
    rw [greedyToBrace, ih]

theorem matchBraces_append (P A B : JSString) (hP : 123 ∉ P) (hB : 125 ∉ B) :
    matchBraces (P ++ 123 :: (A ++ 125 :: B)) = some ⟨123 :: (A ++ [125]), none⟩ := by
  induction P with
  | nil =>
    simp only [List.nil_append]
    rw [matchBraces]
    simp [greedyToBrace_append A B hB]
  | cons c P ih =>
    simp only [List.mem_cons, not_or] at hP
    simp only [List.cons_append]
    rw [matchBraces, if_neg (fun e : c = 123 => hP.1 e.symm)]
    simp [ih hP.2]

theorem containsFence_append_left (P X : JSString) (hP : 96 ∉ P) :
    containsFence (P ++ X) = containsFence X := by
  induction P with
  | nil => rfl
  | cons c P ih =>
    simp only [List.mem_cons, not_or] at hP
    have hc : c ≠ 96 := fun e => hP.1 e.symm
    have : fence.isPrefixOf (c :: (P ++ X)) = false := by
      simp [fence, List.isPrefixOf, hc.symm]
    simp only [List.cons_append, containsFence, List.append_eq, ih hP.2, this, Bool.false_or]

theorem containsFence_append_right (A B : JSString) (h : containsFence (A ++ [125]) = false)
    (hB : 96 ∉ B) : containsFence (A ++ 125 :: B) = false := by
  induction A with
  | nil =>
    have hB' : containsFence B = false := by
      have := containsFence_append_left B [] hB
      simpa [containsFence] using this
    simp [containsFence, fence, List.isPrefixOf, hB']
  | cons c A ih =>
    simp only [List.cons_append, containsFence, Bool.or_eq_false_iff, List.append_eq] at h ⊢
    have := isPrefixOf_fence_append (c :: A) B
    simp only [List.cons_append] at this
    exact ⟨by rw [this, h.1], ih h.2⟩

/-! ## C1: the fenced round trip through `parseJSON` -/

theorem stringify_obj (E : Engine) (ms : List (JSString × JSON E.D)) :
    stringify E (.obj ms) = 123 :: (stringifyMembers E ms ++ [125]) := by
  rw [stringify]

/-- C1 (amended).  Fenced round trip: for every JSON object `O` whose
serialisation contains no run of three backticks, `parseJSON` applied to the
text "```json\n" + JSON.stringify(O) + "\n```" succeeds and returns `O`. -/
theorem parseJSON_fenced_roundtrip (E : Engine) (ms : List (JSString × JSON E.D))
    (hvalid : JSON.Valid E (.obj ms)) (hfence : containsFence (stringify E (.obj ms)) = false) :
    parseJSON E (lit "```json\n" ++ stringify E (.obj ms) ++ lit "\n```") = .ok (.obj ms) := by
  have hparse := jsonParse_stringify E (.obj ms) hvalid
  rw [stringify_obj] at hfence hparse ⊢
  rw [parseJSON, jsonMatch, matchFence_fenced _ hfence]
  simpa [RegExpMatch.candidate] using hparse

/-- Witness for C1: an object with a string array and a number. -/
theorem parseJSON_fenced_roundtrip_witness :
    JSON.Valid intEngine (.obj [(lit "tags", .arr [.str (lit "cozy"), .str (lit "scenic")]), (lit "n", .num (3 : Int))]) ∧
    containsFence (stringify intEngine
      (.obj [(lit "tags", .arr [.str (lit "cozy"), .str (lit "scenic")]), (lit "n", .num (3 : Int))])) = false ∧
    parseJSON intEngine (lit "```json\n" ++ stringify intEngine
      (.obj [(lit "tags", .arr [.str (lit "cozy"), .str (lit "scenic")]), (lit "n", .num (3 : Int))]) ++ lit "\n```") =
      .ok (.obj [(lit "tags", .arr [.str (lit "cozy"), .str (lit "scenic")]), (lit "n", .num (3 : Int))]) :=
  have hv : JSON.Valid intEngine
      (.obj [(lit "tags", .arr [.str (lit "cozy"), .str (lit "scenic")]), (lit "n", .num (3 : Int))]) := by
    simp only [JSON.Valid, JSON.ValidMembers, JSON.ValidElements, Engine.Preserved]
    refine ⟨by decide, ?_⟩
    repeat' constructor
  ⟨hv, rfl, parseJSON_fenced_roundtrip intEngine _ hv rfl⟩

/-- C1 (as stated) fails: for the object with the one member `a` whose value
is a string of three backticks, the fenced text makes `parseJSON` throw: the
lazy group ends at the backticks inside the string. -/
theorem parseJSON_fenced_roundtrip_counterexample :
    JSON.Valid intEngine (.obj [(lit "a", .str (lit "```"))]) ∧
    parseJSON intEngine (lit "```json\n" ++ stringify intEngine (.obj [(lit "a", .str (lit "```"))]) ++ lit "\n```") =
      .error (.syntaxError (lit "\x7b\"a\":\"")) :=
  ⟨by simp only [JSON.Valid, JSON.ValidMembers]; exact ⟨by decide, trivial, trivial⟩, rfl⟩

/-! ## What the two regular expressions match -/

theorem closeFence_nil : closeFence [] = none := rfl
theorem lazyBody_nil : lazyBody [] = none := rfl
theorem openBody_nil : openBody [] = none := rfl

theorem expect_eq_some (kw s r : JSString) (h : expect kw s = some r) : s = kw ++ r := by
  unfold expect at h
  split at h
  · rename_i hp
    simp only [Option.some.injEq] at h
    rw [List.isPrefixOf_iff_prefix] at hp
    obtain ⟨t, rfl⟩ := hp
    rw [← h]; simp
  · simp at h

theorem expect_append (kw r : JSString) : expect kw (kw ++ r) = some r := by
  simp [expect, List.isPrefixOf_iff_prefix]

theorem closeFence_fence (Q : JSString) : closeFence (fence ++ Q) = some Q := by
  have h : fence ++ Q = 96 :: (96 :: 96 :: Q) := rfl
  rw [h, closeFence_cons]
  have hs : isSpace 96 = false := by decide
  rw [hs, ← h]
  simp [expect_append]

theorem lazyBody_isSome (M Q : JSString) : (lazyBody (M ++ (fence ++ Q))).isSome = true := by
  induction M with
  | nil =>
    have h : [] ++ (fence ++ Q) = 96 :: (96 :: 96 :: Q) := rfl
    rw [h, lazyBody_cons, ← h]
    simp [closeFence_fence]
  | cons c M ih =>
    rw [List.cons_append, lazyBody_cons]
    cases closeFence (c :: (M ++ (fence ++ Q))) with
    | some r => rfl
    | none =>
      simp only [Option.isSome_map']
      exact ih

theorem openBody_isSome (s : JSString) (h : (lazyBody s).isSome = true) : (openBody s).isSome = true := by
  cases s with
  | nil => rw [lazyBody_nil] at h; simp at h
  | cons c rest =>
    rw [openBody_cons]
    by_cases hsp : isSpace c = true
    · rw [if_pos hsp]
      cases openBody rest with
      | some x => rfl
      | none => exact h
    · rw [if_neg hsp]
      exact h

theorem afterOpen_isSome (s : JSString) (h : (lazyBody s).isSome = true) : (afterOpen s).isSome = true := by
  unfold afterOpen
  split
  · rfl
  · exact openBody_isSome s h

theorem matchFence_isSome (P M Q : JSString) :
    (matchFence (P ++ (fence ++ (M ++ (fence ++ Q))))).isSome = true := by
  induction P with
  | nil =>
    have h : [] ++ (fence ++ (M ++ (fence ++ Q))) = 96 :: (96 :: 96 :: (M ++ (fence ++ Q))) := rfl
    rw [h, matchFence, fenceAt, ← h]
    simp only [List.nil_append, expect_append]
    have := afterOpen_isSome _ (lazyBody_isSome M Q)
    cases hao : afterOpen (M ++ (fence ++ Q)) with
    | none => simp [hao] at this
    | some x => rfl
  | cons c P ih =>
    rw [List.cons_append, matchFence]
    cases fenceAt (c :: (P ++ (fence ++ (M ++ (fence ++ Q))))) with
    | some m => rfl
    | none => exact ih

theorem closeFence_eq_some (s r : JSString) (h : closeFence s = some r) :
    ∃ W, s = W ++ (fence ++ r) := by
  induction s with
  | nil => rw [closeFence_nil] at h; simp at h
  | cons c rest ih =>
    rw [closeFence_cons] at h
    by_cases hsp : isSpace c = true
    · rw [if_pos hsp] at h
      cases hr : closeFence rest with
      | some r' =>
        rw [hr] at h
        simp only [Option.some.injEq] at h
        subst h
        obtain ⟨W, hW⟩ := ih hr
        exact ⟨c :: W, by rw [hW]; rfl⟩
      | none =>
        rw [hr] at h
        exact ⟨[], expect_eq_some fence _ r h⟩
    · rw [if_neg hsp] at h
      exact ⟨[], expect_eq_some fence _ r h⟩

theorem lazyBody_eq_some (s : JSString) : ∀ (x : JSString × JSString), lazyBody s = some x →
    ∃ W, s = W ++ (fence ++ x.2) := by
  induction s with
  | nil => intro x h; rw [lazyBody_nil] at h; simp at h
  | cons c rest ih =>
    intro x h
    rw [lazyBody_cons] at h
    split at h
    · rename_i r hr
      simp only [Option.some.injEq] at h
      subst h
      exact closeFence_eq_some _ _ hr
    · rw [Option.map_eq_some'] at h
      obtain ⟨y, hy, rfl⟩ := h
      obtain ⟨W, hW⟩ := ih y hy
      exact ⟨c :: W, by rw [hW]; rfl⟩

theorem openBody_eq_some (s : JSString) : ∀ (x : JSString × JSString), openBody s = some x →
    ∃ W, s = W ++ (fence ++ x.2) := by
  induction s with
  | nil => intro x h; rw [openBody_nil] at h; simp at h
  | cons c rest ih =>
    intro x h
    rw [openBody_cons] at h
    by_cases hsp : isSpace c = true
    · rw [if_pos hsp] at h
      cases hy : openBody rest with
      | some y =>
        rw [hy] at h
        simp only [Option.some.injEq] at h
        subst h
        obtain ⟨W, hW⟩ := ih y hy
        exact ⟨c :: W, by rw [hW]; rfl⟩
      | none =>
        rw [hy] at h
        exact lazyBody_eq_some _ x h
    · rw [if_neg hsp] at h
      exact lazyBody_eq_some _ x h

theorem afterOpen_eq_some (s : JSString) (x : JSString × JSString) (h : afterOpen s = some x) :
    ∃ W, s = W ++ (fence ++ x.2) := by
  unfold afterOpen at h
  split at h
  · rename_i y hy
    simp only [Option.some.injEq] at h
    subst h
    split at hy
    · rename_i r hr
      obtain ⟨W, hW⟩ := openBody_eq_some r y hy
      exact ⟨lit "json" ++ W, by rw [expect_eq_some _ _ _ hr, hW]; simp⟩
    · simp at hy
  · exact openBody_eq_some s x h

theorem matchFence_eq_some (text : JSString) (m : RegExpMatch) (h : matchFence text = some m) :
    HasFencedBlock text := by
  induction text with
  | nil => simp [matchFence] at h
  | cons c rest ih =>
    rw [matchFence] at h
    split at h
    · rename_i m' hm
      unfold fenceAt at hm
      split at hm
      · simp at hm
      · rename_i r hr
        rw [Option.map_eq_some'] at hm
        obtain ⟨x, hx, _⟩ := hm
        obtain ⟨W, hW⟩ := afterOpen_eq_some r x hx
        exact ⟨[], W, x.2, by rw [expect_eq_some _ _ _ hr, hW]; rfl⟩
    · obtain ⟨P, M, Q, hP⟩ := ih h
      exact ⟨c :: P, M, Q, by rw [hP]; rfl⟩

/-- The first expression of `parseJSON` matches exactly the texts that contain
a fenced block. -/
theorem matchFence_eq_none_iff (text : JSString) : matchFence text = none ↔ ¬ HasFencedBlock text := by
  constructor
  · rintro h ⟨P, M, Q, rfl⟩
    have := matchFence_isSome P M Q
    rw [h] at this
    simp at this
  · intro h
    cases hm : matchFence text with
    | none => rfl
    | some m => exact absurd (matchFence_eq_some text m hm) h

theorem greedyToBrace_eq_none (s : JSString) (h : greedyToBrace s = none) : 125 ∉ s := by
  induction s with
  | nil => simp
  | cons c rest ih =>
    rw [greedyToBrace] at h
    split at h
    · simp at h
    · rename_i hr
      split at h
      · simp at h
      · rename_i hc
        simp only [List.mem_cons, not_or]
        exact ⟨fun e => hc e.symm, ih hr⟩

theorem greedyToBrace_eq_some (s : JSString) : ∀ g, greedyToBrace s = some g →
    ∃ A B, s = A ++ 125 :: B ∧ 125 ∉ B ∧ g = A ++ [125] := by
  induction s with
  | nil => intro g h; simp [greedyToBrace] at h
  | cons c rest ih =>
    intro g h
    rw [greedyToBrace] at h
    split at h
    · rename_i m hm
      simp only [Option.some.injEq] at h
      obtain ⟨A, B, hA, hB, hg⟩ := ih m hm
      exact ⟨c :: A, B, by rw [hA]; rfl, hB, by rw [← h, hg]; rfl⟩
    · rename_i hr
      split at h
      · rename_i hc
        simp only [Option.some.injEq] at h
        exact ⟨[], rest, by rw [hc]; rfl, greedyToBrace_eq_none rest hr, by rw [← h, hc]; rfl⟩
      · simp at h

theorem matchBraces_eq_some (text : JSString) (m : RegExpMatch) (h : matchBraces text = some m) :
    BraceSpan text m.whole := by
  induction text with
  | nil => simp [matchBraces] at h
  | cons c rest ih =>
    rw [matchBraces] at h
    split at h
    · rename_i g hg
      simp only [Option.some.injEq] at h
      subst h
      split at hg
      · rename_i hc
        obtain ⟨A, B, hA, hB, hg'⟩ := greedyToBrace_eq_some rest g hg
        exact ⟨[], A, B, by rw [hc, hA]; rfl, by simp, hB, by rw [hc, hg']⟩
      · simp at hg
    · rename_i hnone
      obtain ⟨P, A, B, hP, h123, hB, hspan⟩ := ih h
      refine ⟨c :: P, A, B, by rw [hP]; rfl, ?_, hB, hspan⟩
      simp only [List.mem_cons, not_or]
      refine ⟨fun e => ?_, h123⟩
      rw [if_pos e.symm] at hnone
      have := greedyToBrace_eq_none rest hnone
      rw [hP] at this
      simp at this

/-- The second expression of `parseJSON` matches exactly the span from the
first opening brace to the last closing brace. -/
theorem matchBraces_of_braceSpan (text span : JSString) (h : BraceSpan text span) :
    matchBraces text = some ⟨span, none⟩ := by
  obtain ⟨P, A, B, rfl, hP, hB, rfl⟩ := h
  exact matchBraces_append P A B hP hB

theorem matchBraces_eq_none_iff (text : JSString) :
    matchBraces text = none ↔ ∀ span, ¬ BraceSpan text span := by
  constructor
  · intro h span hs
    rw [matchBraces_of_braceSpan text span hs] at h
    simp at h
  · intro h
    cases hm : matchBraces text with
    | none => rfl
    | some m => exact absurd (matchBraces_eq_some text m hm) (h _)

/-! ## The bound on nested calls is immaterial -/

theorem skipWs_length_le (s : JSString) : (skipWs s).length ≤ s.length := by
  unfold skipWs
  exact (List.dropWhile_sublist _).length_le

theorem expect_length (kw s r : JSString) (h : expect kw s = some r) : r.length + kw.length = s.length := by
  rw [expect_eq_some kw s r h]
  simp [Nat.add_comm]

theorem parseString_length (n : Nat) : ∀ (s : JSString), s.length ≤ n →
    ∀ x rest, parseString s = some (x, rest) → rest.length < s.length := by
  induction n with
  | zero =>
    intro s hs x rest h
    cases s with
    | nil => rw [parseString.eq_def] at h; simp at h
    | cons c t => simp at hs
  | succ n ih =>
    intro s hs x rest h
    rw [parseString.eq_def] at h
    split at h
    · simp at h
    · rename_i c t
      split at h
      · simp only [Option.some.injEq, Prod.mk.injEq] at h
        rw [← h.2]; simp
      · split at h
        · split at h
          · simp at h
          · rename_i e rest1
            split at h
            · split at h
              · rename_i h1 h2 h3 h4 rest2
                split at h
                · rename_i u hu
                  rw [Option.map_eq_some'] at h
                  obtain ⟨r, hr, hx⟩ := h
                  simp only [Prod.mk.injEq] at hx
                  have := ih rest2 (by simp only [List.length_cons] at hs ⊢; omega) r.1 r.2 hr
                  rw [← hx.2]
                  simp only [List.length_cons]; omega
                · simp at h
              · simp at h
            · split at h
              · rw [Option.map_eq_some'] at h
                obtain ⟨r, hr, hx⟩ := h
                simp only [Prod.mk.injEq] at hx
                have := ih rest1 (by simp only [List.length_cons] at hs ⊢; omega) r.1 r.2 hr
                rw [← hx.2]
                simp only [List.length_cons]; omega
              · simp at h
        · split at h
          · simp at h
          · rw [Option.map_eq_some'] at h
            obtain ⟨r, hr, hx⟩ := h
            simp only [Prod.mk.injEq] at hx
            have := ih t (by simp only [List.length_cons] at hs ⊢; omega) r.1 r.2 hr
            rw [← hx.2]
            simp only [List.length_cons]; omega

theorem scanNumber_length (s : JSString) : ∀ (q : NumState),
    (scanNumber q s).2.1.length + (scanNumber q s).2.2.length = s.length := by
  induction s with
  | nil => intro q; simp [scanNumber]
  | cons c t ih =>
    intro q
    simp only [scanNumber]
    cases numStep q c with
    | none => simp
    | some q' =>
      have := ih q'
      simp only [List.length_cons]
      omega

theorem lexNumber_length (s l rest : JSString) (h : lexNumber s = some (l, rest)) :
    rest.length < s.length := by
  unfold lexNumber at h
  simp only at h
  split at h
  · rename_i hacc
    simp only [Option.some.injEq, Prod.mk.injEq] at h
    have hlen := scanNumber_length s .start
    rw [h.1, h.2] at hlen
    cases s with
    | nil => simp [scanNumber, NumState.accepting] at hacc
    | cons c t =>
      simp only [scanNumber] at hacc h
      cases hstep : numStep .start c with
      | none => simp [hstep, NumState.accepting] at hacc
      | some q =>
        simp only [hstep] at h
        rw [← h.1] at hlen
        simp only [List.length_cons] at hlen ⊢
        omega
  · simp at h

theorem parseValue_succ (E : Engine) (n : Nat) (s : JSString) (c : Nat) (r0 : JSString)
    (hsk : skipWs s = c :: r0) : parseValue E (n + 1) s = parseValue E (n + 1) (c :: r0) := by
  have hc : isJSONSpace c = false := by
    unfold skipWs at hsk
    have := List.head_dropWhile_not isJSONSpace s (by rw [hsk]; simp)
    simpa [hsk] using this
  rw [parseValue, hsk, parseValue, skipWs_cons c r0 hc]

theorem parseMembers_succ (E : Engine) (n : Nat) (s : JSString) (c : Nat) (r0 : JSString)
    (hsk : skipWs s = c :: r0) : parseMembers E (n + 1) s = parseMembers E (n + 1) (c :: r0) := by
  have hc : isJSONSpace c = false := by
    unfold skipWs at hsk
    have := List.head_dropWhile_not isJSONSpace s (by rw [hsk]; simp)
    simpa [hsk] using this
  rw [parseMembers, hsk, parseMembers, skipWs_cons c r0 hc]

theorem isJSONSpace_of_skipWs (s : JSString) (c : Nat) (r0 : JSString) (hsk : skipWs s = c :: r0) :
    isJSONSpace c = false := by
  unfold skipWs at hsk
  have := List.head_dropWhile_not isJSONSpace s (by rw [hsk]; simp)
  simpa [hsk] using this

theorem skipWs_cons_length (s : JSString) (c : Nat) (r0 : JSString) (hsk : skipWs s = c :: r0) :
    r0.length + 1 ≤ s.length := by
  have := skipWs_length_le s
  rw [hsk] at this
  simpa using this

/-- The readers do not depend on the bound once it covers the characters they
consume: a result obtained with some bound is obtained with every bound that
is at least the number of characters read. -/
theorem parse_fuel_aux (E : Engine) (n : Nat) :
    (∀ s v rest, parseValue E n s = some (v, rest) → rest.length < s.length ∧
      ∀ m, s.length - rest.length ≤ m → parseValue E m s = some (v, rest)) ∧
    (∀ s vs rest, parseElements E n s = some (vs, rest) → rest.length < s.length ∧
      ∀ m, s.length - rest.length ≤ m → parseElements E m s = some (vs, rest)) ∧
    (∀ s ms rest, parseMembers E n s = some (ms, rest) → rest.length < s.length ∧
      ∀ m, s.length - rest.length ≤ m → parseMembers E m s = some (ms, rest)) := by
  induction n with
  | zero =>
    refine ⟨?_, ?_, ?_⟩
    · intro s v rest h; rw [parseValue] at h; simp at h
    · intro s v rest h; rw [parseElements] at h; simp at h
    · intro s v rest h; rw [parseMembers] at h; simp at h
  | succ n ih =>
    obtain ⟨ihV, ihE, ihM⟩ := ih
    refine ⟨?_, ?_, ?_⟩
    · intro s v rest h
      cases hsk : skipWs s with
      | nil => rw [parseValue, hsk] at h; simp at h
      | cons c r0 =>
        have hc := isJSONSpace_of_skipWs s c r0 hsk
        have hlen0 := skipWs_cons_length s c r0 hsk
        rw [parseValue_succ E n s c r0 hsk, parseValue_cons E n c r0 hc] at h
        suffices hkey : rest.length < r0.length + 1 ∧ ∀ m', (r0.length + 1) - rest.length ≤ m' + 1 →
            parseValue E (m' + 1) (c :: r0) = some (v, rest) by
          refine ⟨by omega, fun m hm => ?_⟩
          obtain ⟨m', rfl⟩ : ∃ m', m = m' + 1 := ⟨m - 1, by omega⟩
          rw [parseValue_succ E m' s c r0 hsk]
          exact hkey.2 m' (by omega)
        by_cases h123 : c = 123
        · rw [if_pos h123] at h
          cases hsk1 : skipWs r0 with
          | nil => rw [hsk1] at h; simp at h
          | cons c' r1 =>
            have hlen1 := skipWs_cons_length r0 c' r1 hsk1
            rw [hsk1] at h
            simp only at h
            by_cases h125 : c' = 125
            · rw [if_pos h125] at h
              simp only [Option.some.injEq, Prod.mk.injEq] at h
              obtain ⟨rfl, rfl⟩ := h
              refine ⟨by omega, fun m' _ => ?_⟩
              rw [parseValue_cons E m' c r0 hc, if_pos h123, hsk1]
              simp only [if_pos h125]
            · rw [if_neg h125, Option.map_eq_some'] at h
              obtain ⟨r, hr, hf⟩ := h
              simp only [Prod.mk.injEq] at hf
              obtain ⟨hlt, hm⟩ := ihM (c' :: r1) r.1 r.2 hr
              rw [← hf.2]
              simp only [List.length_cons] at hlt
              refine ⟨by omega, fun m' hm' => ?_⟩
              rw [parseValue_cons E m' c r0 hc, if_pos h123, hsk1]
              simp only [if_neg h125]
              rw [hm m' (by simp only [List.length_cons]; omega)]
              simp only [Option.map_some', hf.1]
        · rw [if_neg h123] at h
          by_cases h91 : c = 91
          · rw [if_pos h91] at h
            cases hsk1 : skipWs r0 with
            | nil => rw [hsk1] at h; simp at h
            | cons c' r1 =>
              have hlen1 := skipWs_cons_length r0 c' r1 hsk1
              rw [hsk1] at h
              simp only at h
              by_cases h93 : c' = 93
              · rw [if_pos h93] at h
                simp only [Option.some.injEq, Prod.mk.injEq] at h
                obtain ⟨rfl, rfl⟩ := h
                refine ⟨by omega, fun m' _ => ?_⟩
                rw [parseValue_cons E m' c r0 hc, if_neg h123, if_pos h91, hsk1]
                simp only [if_pos h93]
              · rw [if_neg h93, Option.map_eq_some'] at h
                obtain ⟨r, hr, hf⟩ := h
                simp only [Prod.mk.injEq] at hf
                obtain ⟨hlt, hm⟩ := ihE (c' :: r1) r.1 r.2 hr
                rw [← hf.2]
                simp only [List.length_cons] at hlt
                refine ⟨by omega, fun m' hm' => ?_⟩
                rw [parseValue_cons E m' c r0 hc, if_neg h123, if_pos h91, hsk1]
                simp only [if_neg h93]
                rw [hm m' (by simp only [List.length_cons]; omega)]
                simp only [Option.map_some', hf.1]
          · rw [if_neg h91] at h
            have hlt : rest.length < r0.length + 1 := by
              split at h
              · rw [Option.map_eq_some'] at h
                obtain ⟨r, hr, hf⟩ := h
                simp only [Prod.mk.injEq] at hf
                have := parseString_length r0.length r0 (le_refl _) r.1 r.2 hr
                rw [← hf.2]; omega
              · split at h
                · rw [Option.map_eq_some'] at h
                  obtain ⟨r, hr, hf⟩ := h
                  simp only [Prod.mk.injEq] at hf
                  have := expect_length _ _ _ hr
                  rw [← hf.2]
                  simp only [List.length_cons, lit_true] at this
                  omega
                · split at h
                  · rw [Option.map_eq_some'] at h
                    obtain ⟨r, hr, hf⟩ := h
                    simp only [Prod.mk.injEq] at hf
                    have := expect_length _ _ _ hr
                    rw [← hf.2]
                    simp only [List.length_cons, lit_false] at this
                    omega
                  · split at h
                    · rw [Option.map_eq_some'] at h
                      obtain ⟨r, hr, hf⟩ := h
                      simp only [Prod.mk.injEq] at hf
                      have := expect_length _ _ _ hr
                      rw [← hf.2]
                      simp only [List.length_cons, lit_null] at this
                      omega
                    · rw [Option.map_eq_some'] at h
                      obtain ⟨r, hr, hf⟩ := h
                      simp only [Prod.mk.injEq] at hf
                      have := lexNumber_length _ _ _ (show lexNumber (c :: r0) = some (r.1, r.2) from hr)
                      rw [← hf.2]
                      simp only [List.length_cons] at this
                      omega
            refine ⟨hlt, fun m' _ => ?_⟩
            rw [parseValue_cons E m' c r0 hc, if_neg h123, if_neg h91]
            exact h
    · intro s vs rest h
      rw [parseElements] at h
      split at h
      · simp at h
      · rename_i v r1 hv
        obtain ⟨hlt1, hm1⟩ := ihV s v r1 hv
        have hsk := skipWs_length_le r1
        split at h
        · simp at h
        · rename_i c r2 hsk2
          rw [hsk2] at hsk
          simp only [List.length_cons] at hsk
          split at h
          · rw [Option.map_eq_some'] at h
            obtain ⟨r, hr, hf⟩ := h
            simp only [Prod.mk.injEq] at hf
            obtain ⟨hlt2, hm2⟩ := ihE r2 r.1 r.2 hr
            rw [← hf.2]
            refine ⟨by omega, fun m hm => ?_⟩
            obtain ⟨m', rfl⟩ : ∃ m', m = m' + 1 := ⟨m - 1, by omega⟩
            rw [parseElements, hm1 m' (by omega)]
            simp only [hsk2]
            rename_i h44
            rw [if_pos h44, hm2 m' (by omega)]
            simp only [Option.map_some', hf.1]
          · split at h
            · simp only [Option.some.injEq, Prod.mk.injEq] at h
              obtain ⟨rfl, rfl⟩ := h
              refine ⟨by omega, fun m hm => ?_⟩
              obtain ⟨m', rfl⟩ : ∃ m', m = m' + 1 := ⟨m - 1, by omega⟩
              rw [parseElements, hm1 m' (by omega)]
              simp only [hsk2]
              rename_i h44 h93
              rw [if_neg h44, if_pos h93]
            · simp at h
    · intro s ms rest h
      cases hsk : skipWs s with
      | nil => rw [parseMembers, hsk] at h; simp at h
      | cons q r0 =>
        have hlen0 := skipWs_cons_length s q r0 hsk
        rw [parseMembers, hsk] at h
        simp only at h
        by_cases h34 : q = 34
        · rw [if_pos h34] at h
          cases hps : parseString r0 with
          | none => rw [hps] at h; simp at h
          | some kr =>
            obtain ⟨k, r1⟩ := kr
            have hl1 := parseString_length r0.length r0 (le_refl _) k r1 hps
            rw [hps] at h
            simp only at h
            cases hsk2 : skipWs r1 with
            | nil => rw [hsk2] at h; simp at h
            | cons c r2 =>
              have hl2 := skipWs_cons_length r1 c r2 hsk2
              rw [hsk2] at h
              simp only at h
              by_cases h58 : c = 58
              · rw [if_pos h58] at h
                cases hv : parseValue E n r2 with
                | none => rw [hv] at h; simp at h
                | some vr =>
                  obtain ⟨v, r3⟩ := vr
                  obtain ⟨hl3, hm3⟩ := ihV r2 v r3 hv
                  rw [hv] at h
                  simp only at h
                  cases hsk4 : skipWs r3 with
                  | nil => rw [hsk4] at h; simp at h
                  | cons c' r4 =>
                    have hl4 := skipWs_cons_length r3 c' r4 hsk4
                    rw [hsk4] at h
                    simp only at h
                    by_cases h44 : c' = 44
                    · rw [if_pos h44, Option.map_eq_some'] at h
                      obtain ⟨r, hr, hf⟩ := h
                      simp only [Prod.mk.injEq] at hf
                      obtain ⟨hl5, hm5⟩ := ihM r4 r.1 r.2 hr
                      rw [← hf.2]
                      refine ⟨by omega, fun m hm => ?_⟩
                      obtain ⟨m', rfl⟩ : ∃ m', m = m' + 1 := ⟨m - 1, by omega⟩
                      rw [parseMembers, hsk]
                      simp only [if_pos h34, hps, hsk2, if_pos h58]
                      rw [hm3 m' (by omega)]
                      simp only [hsk4, if_pos h44]
                      rw [hm5 m' (by omega)]
                      simp only [Option.map_some', hf.1]
                    · rw [if_neg h44] at h
                      by_cases h125 : c' = 125
                      · rw [if_pos h125] at h
                        simp only [Option.some.injEq, Prod.mk.injEq] at h
                        obtain ⟨rfl, rfl⟩ := h
                        refine ⟨by omega, fun m hm => ?_⟩
                        obtain ⟨m', rfl⟩ : ∃ m', m = m' + 1 := ⟨m - 1, by omega⟩
                        rw [parseMembers, hsk]
                        simp only [if_pos h34, hps, hsk2, if_pos h58]
                        rw [hm3 m' (by omega)]
                        simp only [hsk4, if_neg h44, if_pos h125]
                      · rw [if_neg h125] at h; simp at h
              · rw [if_neg h58] at h; simp at h
        · rw [if_neg h34] at h; simp at h

/-- The function `jsonParse` gives the result of the readers run with any
bound: the bound it supplies is always enough. -/
theorem jsonParse_of_parseValue (E : Engine) (n : Nat) (text : JSString) (v : JSON E.D) (rest : JSString)
    (h : parseValue E n text = some (v, rest)) (hrest : skipWs rest = []) :
    jsonParse E text = .ok v := by
  have := ((parse_fuel_aux E n).1 text v rest h).2 (text.length + 1) (by omega)
  simp [jsonParse, this, hrest]

/-! ## The candidate read by `parseJSON` -/

theorem matchBraces_whole (text : JSString) (m : RegExpMatch) (h : matchBraces text = some m) :
    ∃ r, m.whole = 123 :: r ∧ m.group1 = none := by
  induction text with
  | nil => simp [matchBraces] at h
  | cons c rest ih =>
    rw [matchBraces] at h
    split at h
    · rename_i g hg
      simp only [Option.some.injEq] at h
      subst h
      split at hg
      · rename_i hc
        subst hc
        exact ⟨g, rfl, rfl⟩
      · simp at hg
    · exact ih h

theorem parseJSON_of_fence (E : Engine) (text : JSString) (m : RegExpMatch)
    (h : matchFence text = some m) : parseJSON E text = jsonParse E m.candidate := by
  simp [parseJSON, jsonMatch, h]

theorem parseJSON_of_braces (E : Engine) (text span : JSString) (hfence : ¬ HasFencedBlock text)
    (hspan : BraceSpan text span) : parseJSON E text = jsonParse E span := by
  have hf := (matchFence_eq_none_iff text).2 hfence
  have hb := matchBraces_of_braceSpan text span hspan
  simp [parseJSON, jsonMatch, hf, hb, RegExpMatch.candidate]

theorem parseJSON_of_neither (E : Engine) (text : JSString) (hfence : ¬ HasFencedBlock text)
    (hspan : ∀ span, ¬ BraceSpan text span) : parseJSON E text = jsonParse E text := by
  have hf := (matchFence_eq_none_iff text).2 hfence
  have hb := (matchBraces_eq_none_iff text).2 hspan
  simp [parseJSON, jsonMatch, hf, hb]

/-! ## C5 and C6: `POST /ai/summarize-notes` -/

theorem badRequest_status {D : Type} (message : String) : (badRequest message : Response D).status = 400 := rfl

theorem serverError_status (E : Engine) (env : Env E) (message : String) (err : JSError) :
    (serverError E env message err).status = 500 := rfl

theorem notesMissing_absent (E : Engine) : notesMissing E none = .ok true := rfl

theorem notesMissing_str (E : Engine) (s : JSString) :
    notesMissing E (some (.str s)) = .ok (decide (trim s = [])) := by
  cases s with
  | nil => rfl
  | cons c s =>
    simp only [notesMissing, truthy, List.isEmpty_cons, Bool.not_false, Bool.not_true, Bool.false_eq_true,
      if_false]
    cases h : trim (c :: s) <;> simp

/-- C5 (amended).  Summarize validation: for every request body the handler
answers 400 with message `Notes field is required`, making no outbound call,
if `notes` is absent or a string that is blank after trimming; for every
non-blank string `notes` it never answers 400 and makes at most one call; it
calls the generator exactly once, with the prompt that embeds the four fields,
whenever `title`, `category` and `address` convert to text. -/
theorem summarizeNotes_validation (E : Engine) (env : Env E) (body : Body E.D) :
    ((body.field "notes" = none ∨ ∃ s, body.field "notes" = some (.str s) ∧ trim s = []) →
      summarizeNotes E env body = (badRequest "Notes field is required", [])) ∧
    (∀ s, body.field "notes" = some (.str s) → trim s ≠ [] →
      (summarizeNotes E env body).1.status ≠ 400 ∧ (summarizeNotes E env body).2.length ≤ 1 ∧
      ∀ t c a, templateStr E (body.field "title") = .ok t →
        templateStr E (body.field "category") = .ok c →
        templateStr E (body.field "address") = .ok a →
        (summarizeNotes E env body).2 =
          [.generate (summaryPromptHead ++ t ++ lit "\nCategory: " ++ c ++ lit "\nLocation: " ++ a ++
            lit "\n\nRaw notes:\n" ++ s ++ summaryPromptTail)]) := by
  constructor
  · rintro (h | ⟨s, h, hs⟩)
    · simp only [summarizeNotes, h, notesMissing_absent]
    · simp only [summarizeNotes, h, notesMissing_str, hs, decide_True]
  · intro s h hs
    have hm : notesMissing E (some (.str s)) = .ok false := by
      rw [notesMissing_str]; simp [hs]
    refine ⟨?_, ?_, ?_⟩
    · simp only [summarizeNotes, h, hm]
      split
      · simp [serverError_status]
      · split
        · simp [serverError_status]
        · split <;> simp [serverError_status]
    · simp only [summarizeNotes, h, hm]
      split
      · simp
      · split
        · simp
        · split <;> simp
    · intro t c a ht hc ha
      have hp : summaryPrompt E (body.field "title") (body.field "category") (body.field "address")
          (some (.str s)) = .ok (summaryPromptHead ++ t ++ lit "\nCategory: " ++ c ++ lit "\nLocation: " ++ a ++
            lit "\n\nRaw notes:\n" ++ s ++ summaryPromptTail) := by
        unfold summaryPrompt
        rw [ht, hc, ha]
        simp only [templateStr, toStr, bind, Except.bind, pure, Except.pure]
      simp only [summarizeNotes, h, hm, hp]
      split
      · rfl
      · split <;> rfl

/-- Witness for C5: a blank `notes` is refused without a call; a non-blank
one with a string title leads to exactly one call. -/
theorem summarizeNotes_validation_witness :
    summarizeNotes intEngine (stubEnv (lit "\x7b\x7d")) (.object [(lit "notes", .str (lit " \n\t"))]) =
      (badRequest "Notes field is required", []) ∧
    (summarizeNotes intEngine (stubEnv (lit "\x7b\x7d"))
      (.object [(lit "notes", .str (lit "Great pasta")), (lit "title", .str (lit "Luigi"))])).2.length = 1 :=
  ⟨(summarizeNotes_validation intEngine (stubEnv (lit "\x7b\x7d"))
      (.object [(lit "notes", .str (lit " \n\t"))])).1 (Or.inr ⟨lit " \n\t", rfl, rfl⟩),
   by
    have h := ((summarizeNotes_validation intEngine (stubEnv (lit "\x7b\x7d"))
      (.object [(lit "notes", .str (lit "Great pasta")), (lit "title", .str (lit "Luigi"))])).2
      (lit "Great pasta") rfl (by decide)).2.2 (lit "Luigi") (lit "undefined") (lit "undefined") rfl rfl rfl
    rw [h]; rfl⟩

/-- C5 (as stated) fails: with non-blank string notes and a title that is an
object with an own member `toString`, building the prompt throws, so the
handler answers 500 and the generator is not called. -/
theorem summarizeNotes_no_call_counterexample :
    Body.field (.object [(lit "notes", .str (lit "x")), (lit "title", .obj [(lit "toString", .null)])] :
      Body intEngine.D) "notes" = some (.str (lit "x")) ∧
    trim (lit "x") ≠ [] ∧
    (summarizeNotes intEngine (stubEnv (lit "\x7b\x7d"))
      (.object [(lit "notes", .str (lit "x")), (lit "title", .obj [(lit "toString", .null)])])).1.status = 500 ∧
    (summarizeNotes intEngine (stubEnv (lit "\x7b\x7d"))
      (.object [(lit "notes", .str (lit "x")), (lit "title", .obj [(lit "toString", .null)])])).2.length = 0 :=
  ⟨rfl, by decide, rfl, rfl⟩

theorem callGemini_ok (E : Engine) (env : Env E) (prompt reply : JSString)
    (h : env.generateContent prompt = .ok reply) : callGemini E env prompt = .ok reply := by
  simp [callGemini, h]

theorem callGemini_eq_ok (E : Engine) (env : Env E) (prompt reply : JSString)
    (h : callGemini E env prompt = .ok reply) : env.generateContent prompt = .ok reply := by
  unfold callGemini at h
  split at h
  · rename_i text ht
    rw [ht]; simpa using h
  · simp at h

/-- C6 (amended).  Summary output: for every Summarize request and every
model reply, if the operation answers with success (status 200) then exactly
one prompt was sent to the generator and the response body is the value that
`parseJSON` extracted from its reply, unchanged.  Which fields the body has is
decided by the reply alone; none is checked to be present or non-empty. -/
theorem summarizeNotes_success_body (E : Engine) (env : Env E) (body : Body E.D)
    (h : (summarizeNotes E env body).1.status = 200) :
    ∃ prompt reply, (summarizeNotes E env body).2 = [.generate prompt] ∧
      env.generateContent prompt = .ok reply ∧
      parseJSON E reply = .ok (summarizeNotes E env body).1.body := by
  unfold summarizeNotes at h ⊢
  simp only at h ⊢
  split at h
  · simp [serverError_status] at h
  · simp [badRequest_status] at h
  · split at h
    · simp [serverError_status] at h
    · rename_i prompt hp
      split at h
      · simp [serverError_status] at h
      · rename_i reply hr
        split at h
        · simp [serverError_status] at h
        · rename_i summary hs
          exact ⟨prompt, reply, rfl, callGemini_eq_ok E env prompt reply hr, hs⟩

/-- Witness for C6: a complete summary in a fenced reply. -/
theorem summarizeNotes_success_body_witness :
    (summarizeNotes intEngine (stubEnv (lit "```json\n\x7b\"tips\":\"Book ahead\"\x7d\n```"))
      (.object [(lit "notes", .str (lit "Great pasta"))])).1.status = 200 ∧
    ∃ prompt reply,
      (summarizeNotes intEngine (stubEnv (lit "```json\n\x7b\"tips\":\"Book ahead\"\x7d\n```"))
        (.object [(lit "notes", .str (lit "Great pasta"))])).2 = [.generate prompt] ∧
      (stubEnv (lit "```json\n\x7b\"tips\":\"Book ahead\"\x7d\n```")).generateContent prompt = .ok reply ∧
      parseJSON intEngine reply = .ok
        (summarizeNotes intEngine (stubEnv (lit "```json\n\x7b\"tips\":\"Book ahead\"\x7d\n```"))
          (.object [(lit "notes", .str (lit "Great pasta"))])).1.body :=
  ⟨rfl, summarizeNotes_success_body intEngine _ _ rfl⟩

/-- C6 (as stated) fails: when the model replies with the empty object, the
operation answers 200 with the empty object, which has none of the three
fields. -/
theorem summarizeNotes_empty_summary_counterexample :
    summarizeNotes intEngine (stubEnv (lit "\x7b\x7d")) (.object [(lit "notes", .str (lit "Great pasta"))]) =
      (⟨200, .obj []⟩, [.generate (summaryPromptHead ++ lit "undefined" ++ lit "\nCategory: " ++ lit "undefined" ++
        lit "\nLocation: " ++ lit "undefined" ++ lit "\n\nRaw notes:\n" ++ lit "Great pasta" ++ summaryPromptTail)]) ∧
    (JSON.obj [] : JSON intEngine.D).own "whyILikedIt" = none ∧
    (JSON.obj [] : JSON intEngine.D).own "tips" = none ∧
    (JSON.obj [] : JSON intEngine.D).own "bestTimeToGo" = none :=
  ⟨rfl, rfl, rfl, rfl⟩

/-! ## C7 and C8: `POST /ai/suggest-tags` -/

theorem getProp_of_ne_null {D : Type} (v : JSON D) (k : String) (h : v ≠ .null) :
    getProp (some v) k = .ok (v.own k) := by
  cases v <;> first | rfl | exact absurd rfl h

/-- C7, for every reply but `null`.  Tag coercion: for every Suggest Tags
request with a truthy `photoUrl` and every model reply from which `parseJSON`
extracts a value other than `null`, the operation answers 200 with body
`{tags: T}`, where `T` is the parsed `tags` value unchanged when it is an
array and the empty array when it is anything else or missing; the `tags` of
the response is always an array.  (At the extracted value `null` the code
departs from this.) -/
theorem suggestTags_coercion (E : Engine) (env : Env E) (body : Body E.D) (url : JSON E.D)
    (prompt reply : JSString) (result : JSON E.D)
    (hurl : body.field "photoUrl" = some url) (htruthy : truthy E (some url) = true)
    (hprompt : tagPrompt E (body.field "title") (body.field "category") (describeImage E env url).1 = .ok prompt)
    (hreply : env.generateContent prompt = .ok reply)
    (hresult : parseJSON E reply = .ok result) (hnull : result ≠ .null) :
    ∃ T, (suggestTags E env body).1 = ⟨200, .obj [(lit "tags", .arr T)]⟩ ∧
      (∀ xs, result.own "tags" = some (.arr xs) → T = xs) ∧
      ((∀ xs, result.own "tags" ≠ some (.arr xs)) → T = []) := by
  have hg := callGemini_ok E env prompt reply hreply
  have hp := getProp_of_ne_null result "tags" hnull
  have hrun : (suggestTags E env body).1 = ⟨200, .obj [(lit "tags", coerceTags (result.own "tags"))]⟩ := by
    simp only [suggestTags, hurl, htruthy, hprompt, hg, hresult, hp]
  rw [hrun]
  cases htags : result.own "tags" with
  | none => exact ⟨[], rfl, by simp, fun _ => rfl⟩
  | some t =>
    cases t with
    | arr xs => exact ⟨xs, rfl, by simp, fun h => absurd rfl (h xs)⟩
    | null => exact ⟨[], rfl, by simp, fun _ => rfl⟩
    | bool b => exact ⟨[], rfl, by simp, fun _ => rfl⟩
    | num d => exact ⟨[], rfl, by simp, fun _ => rfl⟩
    | str s => exact ⟨[], rfl, by simp, fun _ => rfl⟩
    | obj ms => exact ⟨[], rfl, by simp, fun _ => rfl⟩

/-- Witness for C7: the reply carries the tags `cozy` and `scenic`. -/
theorem suggestTags_coercion_witness :
    ∃ T, (suggestTags intEngine (stubEnv (lit "\x7b\"tags\": [\"cozy\",\"scenic\"]\x7d"))
        (.object [(lit "photoUrl", .str (lit "https://example.com/p.jpg"))])).1 =
        ⟨200, .obj [(lit "tags", .arr T)]⟩ ∧
      (∀ xs, (JSON.obj [(lit "tags", .arr [.str (lit "cozy"), .str (lit "scenic")])] : JSON intEngine.D).own "tags"
        = some (.arr xs) → T = xs) ∧
      ((∀ xs, (JSON.obj [(lit "tags", .arr [.str (lit "cozy"), .str (lit "scenic")])] : JSON intEngine.D).own "tags"
        ≠ some (.arr xs)) → T = []) :=
  suggestTags_coercion intEngine (stubEnv (lit "\x7b\"tags\": [\"cozy\",\"scenic\"]\x7d"))
    (.object [(lit "photoUrl", .str (lit "https://example.com/p.jpg"))])
    (.str (lit "https://example.com/p.jpg"))
    (tagPromptHead ++ lit "Unknown" ++ lit "\nCategory: " ++ lit "General" ++ lit "\n" ++ [] ++ tagPromptTail)
    (lit "\x7b\"tags\": [\"cozy\",\"scenic\"]\x7d")
    (.obj [(lit "tags", .arr [.str (lit "cozy"), .str (lit "scenic")])])
    rfl rfl rfl rfl rfl (by intro h; cases h)

/-- C7 fails in the code at one input: when the model replies with the text
`null`, `parseJSON` extracts the value `null`; the line under the comment
`Ensure we return an array` reads `result.tags` without a guard, which
throws, and the operation answers 500 instead of the body with the empty
array that the coercion is written to give. -/
theorem suggestTags_null_reply_counterexample :
    parseJSON intEngine (lit "null") = .ok .null ∧
    (suggestTags intEngine (stubEnv (lit "null"))
      (.object [(lit "photoUrl", .str (lit "https://example.com/p.jpg"))])).1 =
      ⟨500, .obj [(lit "error", .str (lit "Internal Server Error")),
        (lit "message", .str (lit "Failed to generate tags"))]⟩ :=
  ⟨rfl, rfl⟩

theorem imageDescriptionOf_isEmpty (E : Engine) (result : AnnotateImageResponse E.D) :
    (imageDescriptionOf E result).isEmpty = false := by
  have h : lit "\nLabels detected: " = 10 :: lit "Labels detected: " := by rfl
  simp only [imageDescriptionOf, h, List.cons_append, List.isEmpty_cons]

theorem describeImage_none (E : Engine) (env : Env E) (url : JSON E.D) (h : env.visionClient = none) :
    describeImage E env url = ([], []) := by
  simp [describeImage, h]

theorem describeImage_error (E : Engine) (env : Env E) (url : JSON E.D)
    (client : JSON E.D → Except JSError (AnnotateImageResponse E.D)) (err : JSError)
    (h : env.visionClient = some client) (hc : client url = .error err) :
    describeImage E env url = ([], [.annotate url]) := by
  simp [describeImage, h, hc]

theorem describeImage_ok (E : Engine) (env : Env E) (url : JSON E.D)
    (client : JSON E.D → Except JSError (AnnotateImageResponse E.D)) (result : AnnotateImageResponse E.D)
    (h : env.visionClient = some client) (hc : client url = .ok result) :
    describeImage E env url = (imageDescriptionOf E result, [.annotate url]) := by
  simp [describeImage, h, hc]

theorem suggestTags_calls (E : Engine) (env : Env E) (body : Body E.D) (url : JSON E.D) (prompt : JSString)
    (hurl : body.field "photoUrl" = some url) (htruthy : truthy E (some url) = true)
    (hprompt : tagPrompt E (body.field "title") (body.field "category") (describeImage E env url).1 = .ok prompt) :
    (suggestTags E env body).2 = (describeImage E env url).2 ++ [.generate prompt] := by
  simp only [suggestTags, hurl, htruthy, hprompt]
  split
  · rfl
  · split
    · rfl
    · split <;> rfl

theorem tagPrompt_ok (E : Engine) (title category : Option (JSON E.D)) (d t c : JSString)
    (htitle : templateOr E title (lit "Unknown") = .ok t)
    (hcat : templateOr E category (lit "General") = .ok c) :
    tagPrompt E title category d =
      .ok (tagPromptHead ++ t ++ lit "\nCategory: " ++ c ++ lit "\n" ++ imageSection d ++ tagPromptTail) := by
  unfold tagPrompt
  rw [htitle, hcat]
  rfl

/-- C8.  Degrade-to-none in Suggest Tags, for a request with a truthy
`photoUrl`.  (1) When the annotation call throws, the response is the
one the handler gives without a vision client: an annotation failure never
makes the request fail.  (2) Whenever `title` and `category` convert to text,
the generator is called with the tag prompt, whose image analysis section is
non-empty if and only if the client is configured and the annotation call
returned; it is then `Image analysis:` followed by the description (also when
labels, landmarks and colours are all empty), and it is absent altogether when
the client is unconfigured or the call throws. -/
theorem suggestTags_degrade (E : Engine) (env : Env E) (body : Body E.D) (url : JSON E.D)
    (hurl : body.field "photoUrl" = some url) (htruthy : truthy E (some url) = true) :
    (∀ client err, env.visionClient = some client → client url = .error err →
      (suggestTags E env body).1 = (suggestTags E env.withoutVision body).1) ∧
    (∀ t c, templateOr E (body.field "title") (lit "Unknown") = .ok t →
      templateOr E (body.field "category") (lit "General") = .ok c →
      ∃ sec pre, (suggestTags E env body).2 =
          pre ++ [.generate (tagPromptHead ++ t ++ lit "\nCategory: " ++ c ++ lit "\n" ++ sec ++ tagPromptTail)] ∧
        (sec ≠ [] ↔ ∃ client result, env.visionClient = some client ∧ client url = .ok result) ∧
        (∀ client result, env.visionClient = some client → client url = .ok result →
          sec = lit "\nImage analysis:\n" ++ imageDescriptionOf E result ∧ pre = [.annotate url]) ∧
        (env.visionClient = none → sec = [] ∧ pre = []) ∧
        (∀ client err, env.visionClient = some client → client url = .error err →
          sec = [] ∧ pre = [.annotate url])) := by
  constructor
  · intro client err hclient herr
    have h1 := describeImage_error E env url client err hclient herr
    have h2 := describeImage_none E env.withoutVision url rfl
    have hs : ∀ m e, serverError E env.withoutVision m e = serverError E env m e := fun _ _ => rfl
    have hg : ∀ p, callGemini E env.withoutVision p = callGemini E env p := fun _ => rfl
    simp only [suggestTags, hurl, htruthy, h1, h2, hs, hg]
    cases tagPrompt E (body.field "title") (body.field "category") [] with
    | error e => rfl
    | ok prompt =>
      simp only
      cases callGemini E env prompt with
      | error e => rfl
      | ok response =>
        simp only
        cases parseJSON E response with
        | error e => rfl
        | ok result =>
          simp only
          cases getProp (some result) "tags" <;> rfl
  · intro t c htitle hcat
    have hprompt := tagPrompt_ok E (body.field "title") (body.field "category")
      (describeImage E env url).1 t c htitle hcat
    have hcalls := suggestTags_calls E env body url _ hurl htruthy hprompt
    refine ⟨imageSection (describeImage E env url).1, (describeImage E env url).2, hcalls, ?_, ?_, ?_, ?_⟩
    · cases hv : env.visionClient with
      | none => simp [describeImage_none E env url hv, imageSection]
      | some client =>
        cases hc : client url with
        | error err => simp [describeImage_error E env url client err hv hc, imageSection, hc]
        | ok result =>
          rw [describeImage_ok E env url client result hv hc]
          simp [imageSection, imageDescriptionOf_isEmpty, hc]
          have : lit "\nImage analysis:\n" = 10 :: lit "Image analysis:\n" := by rfl
          rw [this]; simp
    · intro client result hv hc
      rw [describeImage_ok E env url client result hv hc]
      simp [imageSection, imageDescriptionOf_isEmpty]
    · intro hv
      simp [describeImage_none E env url hv, imageSection]
    · intro client err hv hc
      simp [describeImage_error E env url client err hv hc, imageSection]

/-- Witness for C8: a failing annotation call, and an annotation result with
no labels, landmarks or colours. -/
theorem suggestTags_degrade_witness :
    (suggestTags intEngine (stubVisionEnv (lit "\x7b\"tags\": []\x7d") (.error (.error (lit "quota exceeded"))))
      (.object [(lit "photoUrl", .str (lit "https://example.com/p.jpg"))])).1 =
    (suggestTags intEngine
      (stubVisionEnv (lit "\x7b\"tags\": []\x7d") (.error (.error (lit "quota exceeded")))).withoutVision
      (.object [(lit "photoUrl", .str (lit "https://example.com/p.jpg"))])).1 ∧
    ∃ sec pre, (suggestTags intEngine (stubVisionEnv (lit "\x7b\"tags\": []\x7d") (.ok ⟨none, none, none⟩))
        (.object [(lit "photoUrl", .str (lit "https://example.com/p.jpg"))])).2 =
        pre ++ [.generate (tagPromptHead ++ lit "Unknown" ++ lit "\nCategory: " ++ lit "General" ++ lit "\n" ++
          sec ++ tagPromptTail)] ∧
      sec = lit "\nImage analysis:\n\nLabels detected: \nLandmarks: none\nDominant colors: " ∧
      pre = [.annotate (.str (lit "https://example.com/p.jpg"))] :=
  ⟨(suggestTags_degrade intEngine
      (stubVisionEnv (lit "\x7b\"tags\": []\x7d") (.error (.error (lit "quota exceeded"))))
      (.object [(lit "photoUrl", .str (lit "https://example.com/p.jpg"))])
      (.str (lit "https://example.com/p.jpg")) rfl rfl).1 _ _ rfl rfl,
    by
      obtain ⟨sec, pre, hcalls, _, hok, _, _⟩ := (suggestTags_degrade intEngine
        (stubVisionEnv (lit "\x7b\"tags\": []\x7d") (.ok ⟨none, none, none⟩))
        (.object [(lit "photoUrl", .str (lit "https://example.com/p.jpg"))])
        (.str (lit "https://example.com/p.jpg")) rfl rfl).2 (lit "Unknown") (lit "General") rfl rfl
      exact ⟨sec, pre, hcalls, (hok _ _ rfl rfl).1, (hok _ _ rfl rfl).2⟩⟩

/-! ## C9 and C10: `POST /ai/smart-search` -/

theorem searchInvalid_eq (E : Engine) (query places : Option (JSON E.D)) :
    searchInvalid E query places = true ↔
      (truthy E query = false ∨ ¬ ∃ ps, places = some (.arr ps)) := by
  unfold searchInvalid
  cases places with
  | none => simp [truthy]
  | some v => cases v <;> simp [truthy, JSON.isArray]

theorem smartSearch_valid (E : Engine) (env : Env E) (body : Body E.D) (ps : List (JSON E.D))
    (hq : truthy E (body.field "query") = true) (hps : body.field "places" = some (.arr ps)) :
    smartSearch E env body =
      match searchPrompt E (body.field "query") ps with
      | .error err => (serverError E env "Failed to process search" err, [])
      | .ok prompt =>
        match callGemini E env prompt with
        | .error err => (serverError E env "Failed to process search" err, [.generate prompt])
        | .ok response =>
          match parseJSON E response with
          | .error err => (serverError E env "Failed to process search" err, [.generate prompt])
          | .ok result =>
            match matchCount E result with
            | .error err => (serverError E env "Failed to process search" err, [.generate prompt])
            | .ok _ => (⟨200, result⟩, [.generate prompt]) := by
  have hinv : searchInvalid E (body.field "query") (some (.arr ps)) = false := by
    unfold searchInvalid
    rw [hq]
    rfl
  simp only [smartSearch, hps, hinv]

/-- C9 (amended).  Smart Search validation: for every request body the
handler answers 400 if and only if `query` is absent or falsy (the empty
string, `null`, `false`, a zero) or `places` is not an array; the answer is
then the message `query and places array are required`, and no call is made. -/
theorem smartSearch_validation (E : Engine) (env : Env E) (body : Body E.D) :
    ((smartSearch E env body).1.status = 400 ↔
      (truthy E (body.field "query") = false ∨ ¬ ∃ ps, body.field "places" = some (.arr ps))) ∧
    ((smartSearch E env body).1.status = 400 →
      smartSearch E env body = (badRequest "query and places array are required", [])) := by
  have key : (truthy E (body.field "query") = false ∨ ¬ ∃ ps, body.field "places" = some (.arr ps)) →
      smartSearch E env body = (badRequest "query and places array are required", []) := by
    intro h
    have hinv := (searchInvalid_eq E (body.field "query") (body.field "places")).2 h
    simp only [smartSearch, hinv]
    split
    · rename_i heq; simp at heq
    · rfl
  have key2 : ¬ (truthy E (body.field "query") = false ∨ ¬ ∃ ps, body.field "places" = some (.arr ps)) →
      (smartSearch E env body).1.status ≠ 400 := by
    intro h
    simp only [not_or, not_not, Bool.not_eq_false] at h
    obtain ⟨hq, ps, hps⟩ := h
    rw [smartSearch_valid E env body ps hq hps]
    split
    · simp [serverError_status]
    · split
      · simp [serverError_status]
      · split
        · simp [serverError_status]
        · split <;> simp [serverError_status]
  refine ⟨⟨fun h => ?_, fun h => by rw [key h]; rfl⟩, fun h => ?_⟩
  · by_contra hc
    exact key2 hc h
  · by_cases hc : (truthy E (body.field "query") = false ∨ ¬ ∃ ps, body.field "places" = some (.arr ps))
    · exact key hc
    · exact absurd h (key2 hc)

/-- Witness for C9: a missing `query`, a `places` that is a string, and a
well-formed request. -/
theorem smartSearch_validation_witness :
    (smartSearch intEngine (stubEnv (lit "\x7b\x7d")) (.object [(lit "places", .arr [])])).1.status = 400 ∧
    (smartSearch intEngine (stubEnv (lit "\x7b\x7d"))
      (.object [(lit "query", .str (lit "pasta")), (lit "places", .str (lit "p1"))])).1.status = 400 ∧
    ¬ (smartSearch intEngine (stubEnv (lit "\x7b\x7d"))
      (.object [(lit "query", .str (lit "pasta")), (lit "places", .arr [])])).1.status = 400 :=
  ⟨((smartSearch_validation intEngine (stubEnv (lit "\x7b\x7d")) (.object [(lit "places", .arr [])])).1).2
      (Or.inl rfl),
   ((smartSearch_validation intEngine (stubEnv (lit "\x7b\x7d"))
      (.object [(lit "query", .str (lit "pasta")), (lit "places", .str (lit "p1"))])).1).2
      (Or.inr (by rintro ⟨ps, h⟩; cases h)),
   fun h => (((smartSearch_validation intEngine (stubEnv (lit "\x7b\x7d"))
      (.object [(lit "query", .str (lit "pasta")), (lit "places", .arr [])])).1).1 h).elim
      (fun h1 => by cases h1) (fun h2 => h2 ⟨[], rfl⟩)⟩

/-- C9 (as stated) fails: a request whose `query` is present but is the empty
string, with `places` an array, is answered 400. -/
theorem smartSearch_empty_query_counterexample :
    Body.field (.object [(lit "query", .str []), (lit "places", .arr [])] : Body intEngine.D) "query" =
      some (.str []) ∧
    Body.field (.object [(lit "query", .str []), (lit "places", .arr [])] : Body intEngine.D) "places" =
      some (.arr []) ∧
    smartSearch intEngine (stubEnv (lit "\x7b\x7d")) (.object [(lit "query", .str []), (lit "places", .arr [])]) =
      (badRequest "query and places array are required", []) :=
  ⟨rfl, rfl, rfl⟩

theorem templateStr_textual (E : Engine) (v : Option (JSON E.D)) (h : Textual v) :
    ∃ t, templateStr E v = .ok t := by
  rcases h with rfl | ⟨s, rfl⟩
  · exact ⟨_, rfl⟩
  · simp only [templateStr, toStr]
    exact ⟨_, rfl⟩

theorem joinValues_strings (E : Engine) (sep : JSString) (ts : List JSString) :
    joinValues E sep (ts.map .str) = .ok (joinWith sep ts) := by
  induction ts using joinWith.induct sep with
  | case1 => simp only [List.map_nil, joinValues, joinWith]
  | case2 s => simp only [List.map_cons, List.map_nil, joinValues, elementStr, toStr, joinWith]
  | case3 s t rest ih =>
    simp only [List.map_cons] at ih ⊢
    simp only [joinValues, elementStr, toStr, ih, joinWith]

theorem placeLine_plain (E : Engine) (p : JSON E.D) (h : PlainPlace p) :
    ∃ l, placeLine E p = .ok l := by
  obtain ⟨ms, rfl, hid, htitle, hcat, hnotes, htags⟩ := h
  obtain ⟨i, hi⟩ := templateStr_textual E _ hid
  obtain ⟨t, ht⟩ := templateStr_textual E _ htitle
  obtain ⟨c, hc⟩ := templateStr_textual E _ hcat
  have hT : ∃ x, tagsText E (.obj ms) = .ok x := by
    rcases htags with h | ⟨ts, h⟩
    · simp only [tagsText, getProp, h, bind, Except.bind, pure, Except.pure]
      exact ⟨_, rfl⟩
    · simp only [tagsText, getProp, h, bind, Except.bind, pure, Except.pure, joinValues_strings]
      exact ⟨_, rfl⟩
  have hN : ∃ x, notesText (.obj ms) = .ok x := by
    rcases hnotes with h | ⟨s, h⟩
    · simp only [notesText, getProp, h, bind, Except.bind, pure, Except.pure]
      exact ⟨_, rfl⟩
    · simp only [notesText, getProp, h, bind, Except.bind, pure, Except.pure]
      exact ⟨_, rfl⟩
  obtain ⟨x, hx⟩ := hT
  obtain ⟨y, hy⟩ := hN
  simp only [placeLine, getProp, hi, ht, hc, hx, hy, bind, Except.bind, pure, Except.pure]
  exact ⟨_, rfl⟩

theorem placeLines_plain (E : Engine) (ps : List (JSON E.D)) (h : ∀ p ∈ ps, PlainPlace p) :
    ∃ ls, placeLines E ps = .ok ls := by
  induction ps with
  | nil => exact ⟨[], rfl⟩
  | cons p ps ih =>
    obtain ⟨l, hl⟩ := placeLine_plain E p (h p (List.mem_cons_self _ _))
    obtain ⟨ls, hls⟩ := ih (fun q hq => h q (List.mem_cons_of_mem _ hq))
    simp only [placeLines, hl, hls]
    exact ⟨_, rfl⟩

theorem matchCount_ok_iff (E : Engine) (result : JSON E.D) :
    (∃ s, matchCount E result = .ok s) ↔
      result ≠ .null ∧
      ∀ ms, result.own "matchingIds" = some (.obj ms) →
        ∃ s, templateOr E (JSON.lookup (lit "length") ms) (lit "0") = .ok s := by
  cases result with
  | null => simp [matchCount, getProp, bind, Except.bind]
  | bool b => simp [matchCount, getProp, JSON.own, bind, Except.bind, pure, Except.pure]
  | num d => simp [matchCount, getProp, JSON.own, bind, Except.bind, pure, Except.pure]
  | str t => simp [matchCount, getProp, JSON.own, bind, Except.bind, pure, Except.pure]
  | arr xs => simp [matchCount, getProp, JSON.own, bind, Except.bind, pure, Except.pure]
  | obj members =>
    simp only [matchCount, getProp, JSON.own, bind, Except.bind, pure, Except.pure]
    cases JSON.lookup (lit "matchingIds") members with
    | none => simp
    | some v =>
      cases v with
      | obj ms => simp
      | null => simp
      | bool b => simp
      | num d => simp
      | str t => simp
      | arr xs => simp

/-- C10 (amended).  Smart Search pass-through, for a request with a truthy
`query` and `places` an array.  The generator is called exactly once, with the
search prompt, whenever that prompt can be built; it can be built whenever
`query` is a string and every place has the documented shape, in particular
for the empty array, which is not answered locally.  When `parseJSON`
extracts a value from the reply, the response is 200 with that value
unmodified (`matchingIds` is not filtered against the candidates) exactly
when the log line that follows can be evaluated: the value is not `null` and,
if its `matchingIds` is an object, the `length` of that object is falsy or
converts to text.  This is so in particular whenever the value is not `null`
and `matchingIds` is an array, a string, a number, a boolean, `null` or
missing. -/
theorem smartSearch_passthrough (E : Engine) (env : Env E) (body : Body E.D) (ps : List (JSON E.D))
    (hq : truthy E (body.field "query") = true) (hps : body.field "places" = some (.arr ps)) :
    (∀ prompt, searchPrompt E (body.field "query") ps = .ok prompt →
      (smartSearch E env body).2 = [.generate prompt]) ∧
    ((∃ q, body.field "query" = some (.str q)) → (∀ p ∈ ps, PlainPlace p) →
      ∃ prompt, searchPrompt E (body.field "query") ps = .ok prompt) ∧
    (∀ q, body.field "query" = some (.str q) → ps = [] →
      (smartSearch E env body).2 =
        [.generate (searchPromptHead ++ q ++ lit "\"\n\nAvailable places:\n" ++ [] ++ searchPromptTail)]) ∧
    (∀ prompt reply result, searchPrompt E (body.field "query") ps = .ok prompt →
      env.generateContent prompt = .ok reply → parseJSON E reply = .ok result →
      ((smartSearch E env body).1 = ⟨200, result⟩ ↔
        (result ≠ .null ∧
          ∀ ms, result.own "matchingIds" = some (.obj ms) →
            ∃ s, templateOr E (JSON.lookup (lit "length") ms) (lit "0") = .ok s)) ∧
      (result ≠ .null → (∀ ms, result.own "matchingIds" ≠ some (.obj ms)) →
        (smartSearch E env body).1 = ⟨200, result⟩)) := by
  have hcalls : ∀ prompt, searchPrompt E (body.field "query") ps = .ok prompt →
      (smartSearch E env body).2 = [.generate prompt] := by
    intro prompt hp
    rw [smartSearch_valid E env body ps hq hps, hp]
    simp only
    split
    · rfl
    · split
      · rfl
      · split <;> rfl
  refine ⟨hcalls, ?_, ?_, ?_⟩
  · rintro ⟨q, hquery⟩ hplain
    obtain ⟨ls, hls⟩ := placeLines_plain E ps hplain
    simp only [searchPrompt, hquery, templateStr, toStr, hls, bind, Except.bind, pure, Except.pure]
    exact ⟨_, rfl⟩
  · intro q hquery hnil
    subst hnil
    apply hcalls
    simp only [searchPrompt, hquery, templateStr, toStr, placeLines, bind, Except.bind, pure, Except.pure,
      joinWith]
  · intro prompt reply result hp hreply hresult
    have hrun : (smartSearch E env body).1 =
        match matchCount E result with
        | .error err => serverError E env "Failed to process search" err
        | .ok _ => ⟨200, result⟩ := by
      rw [smartSearch_valid E env body ps hq hps, hp]
      simp only [callGemini_ok E env prompt reply hreply, hresult]
      cases matchCount E result <;> rfl
    have hiff : (smartSearch E env body).1 = ⟨200, result⟩ ↔ ∃ s, matchCount E result = .ok s := by
      rw [hrun]
      cases hm : matchCount E result with
      | error err =>
        simp only [reduceCtorEq, exists_false, iff_false]
        intro h
        have hs : (500 : Nat) = 200 := by
          have := congrArg Response.status h
          rwa [serverError_status] at this
        exact absurd hs (by decide)
      | ok s => simp
    refine ⟨hiff.trans (matchCount_ok_iff E result), fun hnull hobj => ?_⟩
    exact (hiff.trans (matchCount_ok_iff E result)).2 ⟨hnull, fun ms h => absurd h (hobj ms)⟩

/-- Witness for C10: one candidate of the documented shape, and a reply
naming an id that is not among the candidates. -/
theorem smartSearch_passthrough_witness :
    (smartSearch intEngine (stubEnv (lit "\x7b\"matchingIds\": [\"zzz\"], \"explanation\": \"none\"\x7d"))
      (.object [(lit "query", .str (lit "where did I eat pasta?")),
        (lit "places", .arr [.obj [(lit "id", .str (lit "p1")), (lit "tags", .arr [.str (lit "italian")]),
          (lit "notes", .str (lit "great pasta"))]])])).1 =
      ⟨200, .obj [(lit "matchingIds", .arr [.str (lit "zzz")]), (lit "explanation", .str (lit "none"))]⟩ :=
  ((smartSearch_passthrough intEngine
      (stubEnv (lit "\x7b\"matchingIds\": [\"zzz\"], \"explanation\": \"none\"\x7d"))
      (.object [(lit "query", .str (lit "where did I eat pasta?")),
        (lit "places", .arr [.obj [(lit "id", .str (lit "p1")), (lit "tags", .arr [.str (lit "italian")]),
          (lit "notes", .str (lit "great pasta"))]])])
      [.obj [(lit "id", .str (lit "p1")), (lit "tags", .arr [.str (lit "italian")]),
          (lit "notes", .str (lit "great pasta"))]] rfl rfl).2.2.2
    (searchPromptHead ++ lit "where did I eat pasta?" ++ lit "\"\n\nAvailable places:\n" ++
      lit "ID: p1 | Title: undefined | Category: undefined | Tags: italian | Notes: great pasta" ++
      searchPromptTail)
    (lit "\x7b\"matchingIds\": [\"zzz\"], \"explanation\": \"none\"\x7d")
    (.obj [(lit "matchingIds", .arr [.str (lit "zzz")]), (lit "explanation", .str (lit "none"))])
    rfl rfl rfl).2 (by intro h; cases h) (by intro ms h; cases h)

/-- C10 (as stated) fails in both parts.  For a request with a non-empty query
and `places` an array holding a place whose `tags` is a string, building the
prompt throws (a string has no method `join`), the handler answers 500, and
the generator is not called.  And for a well-formed request and a reply whose
`matchingIds` is an object with a `length` that cannot be converted to text,
JSON is extracted but the log line throws and the handler answers 500 instead
of passing the value through. -/
theorem smartSearch_no_call_counterexample :
    truthy intEngine (Body.field (.object [(lit "query", .str (lit "pasta")),
      (lit "places", .arr [.obj [(lit "id", .str (lit "p1")), (lit "tags", .str (lit "italian"))]])] :
      Body intEngine.D) "query") = true ∧
    smartSearch intEngine (stubEnv (lit "\x7b\"matchingIds\": []\x7d"))
      (.object [(lit "query", .str (lit "pasta")),
        (lit "places", .arr [.obj [(lit "id", .str (lit "p1")), (lit "tags", .str (lit "italian"))]])]) =
      (⟨500, .obj [(lit "error", .str (lit "Internal Server Error")),
        (lit "message", .str (lit "Failed to process search"))]⟩, []) ∧
    parseJSON intEngine (lit "\x7b\"matchingIds\":\x7b\"length\":\x7b\"toString\":null\x7d\x7d\x7d") =
      .ok (.obj [(lit "matchingIds", .obj [(lit "length", .obj [(lit "toString", .null)])])]) ∧
    (smartSearch intEngine
      (stubEnv (lit "\x7b\"matchingIds\":\x7b\"length\":\x7b\"toString\":null\x7d\x7d\x7d"))
      (.object [(lit "query", .str (lit "pasta")), (lit "places", .arr [])])).1 =
      ⟨500, .obj [(lit "error", .str (lit "Internal Server Error")),
        (lit "message", .str (lit "Failed to process search"))]⟩ :=
  ⟨rfl, rfl, rfl, rfl⟩

theorem getProp_eq_own {D : Type} (p : JSON D) (k : String) (v : Option (JSON D))
    (h : getProp (some p) k = .ok v) : v = p.own k := by
  cases p <;> simp [getProp, JSON.own] at h ⊢ <;> exact h.symm

theorem tagsText_field (E : Engine) (p : JSON E.D) (T : JSString) (h : tagsText E p = .ok T) :
    TagsField E (p.own "tags") T := by
  unfold tagsText at h
  cases hg : getProp (some p) "tags" with
  | error err => simp [hg, bind, Except.bind] at h
  | ok v =>
    have hv := getProp_eq_own p "tags" v hg
    rw [← hv]
    simp only [hg, bind, Except.bind, pure, Except.pure] at h
    cases v with
    | none =>
      simp only [Except.ok.injEq] at h
      exact h.symm
    | some t =>
      cases t with
      | null =>
        simp only [Except.ok.injEq] at h
        exact h.symm
      | arr xs =>
        simp only at h
        cases hj : joinValues E (lit ", ") xs with
        | error err => simp [hj] at h
        | ok s =>
          simp only [hj, Except.ok.injEq] at h
          refine ⟨s, hj, ?_⟩
          rw [← h]
          cases s <;> rfl
      | bool b => simp at h
      | num d => simp at h
      | str s => simp at h
      | obj ms => simp at h

theorem notesText_field {D : Type} (p : JSON D) (N : JSString) (h : notesText p = .ok N) :
    NotesField (p.own "notes") N := by
  unfold notesText at h
  cases hg : getProp (some p) "notes" with
  | error err => simp [hg, bind, Except.bind] at h
  | ok v =>
    have hv := getProp_eq_own p "notes" v hg
    rw [← hv]
    simp only [hg, bind, Except.bind, pure, Except.pure] at h
    cases v with
    | none =>
      simp only [Except.ok.injEq] at h
      exact h.symm
    | some t =>
      cases t with
      | null =>
        simp only [Except.ok.injEq] at h
        exact h.symm
      | str s =>
        simp only [Except.ok.injEq] at h
        show N = if s = [] then lit "none" else s.take 100
        rw [← h]
        cases s <;> rfl
      | bool b => simp at h
      | num d => simp at h
      | arr xs => simp at h
      | obj ms => simp at h

theorem notesField_length {D : Type} (notes : Option (JSON D)) (N : JSString) (h : NotesField notes N) :
    N.length ≤ 100 := by
  unfold NotesField at h
  split at h
  · rw [h]; decide
  · rw [h]; decide
  · rw [h]
    split
    · decide
    · simp [List.length_take]
  · exact h.elim

theorem placeLine_isEntry (E : Engine) (p : JSON E.D) (l : JSString) (h : placeLine E p = .ok l) :
    IsEntry E p l := by
  unfold placeLine at h
  cases hid : getProp (some p) "id" with
  | error err => simp [hid, bind, Except.bind] at h
  | ok id =>
    cases hti : getProp (some p) "title" with
    | error err => cases p <;> simp [getProp] at hid hti
    | ok title =>
      cases hca : getProp (some p) "category" with
      | error err => cases p <;> simp [getProp] at hid hca
      | ok category =>
        have h1 := getProp_eq_own p "id" id hid
        have h2 := getProp_eq_own p "title" title hti
        have h3 := getProp_eq_own p "category" category hca
        simp only [hid, hti, hca, bind, Except.bind, pure, Except.pure] at h
        cases hi : templateStr E id with
        | error err => simp [hi] at h
        | ok idText =>
          cases ht : templateStr E title with
          | error err => simp [hi, ht] at h
          | ok titleText =>
            cases hc : templateStr E category with
            | error err => simp [hi, ht, hc] at h
            | ok categoryText =>
              cases hT : tagsText E p with
              | error err => simp [hi, ht, hc, hT] at h
              | ok T =>
                cases hN : notesText p with
                | error err => simp [hi, ht, hc, hT, hN] at h
                | ok N =>
                  simp only [hi, ht, hc, hT, hN, Except.ok.injEq] at h
                  refine ⟨idText, titleText, categoryText, T, N, h.symm, ?_, ?_, ?_,
                    tagsText_field E p T hT, notesText_field p N hN⟩
                  · rw [← h1]; exact hi
                  · rw [← h2]; exact ht
                  · rw [← h3]; exact hc

theorem placeLines_isEntry (E : Engine) (ps : List (JSON E.D)) :
    ∀ ls, placeLines E ps = .ok ls → List.Forall₂ (IsEntry E) ps ls := by
  induction ps with
  | nil =>
    intro ls h
    simp only [placeLines, Except.ok.injEq] at h
    rw [← h]
    exact List.Forall₂.nil
  | cons p ps ih =>
    intro ls h
    cases hl : placeLine E p with
    | error err => simp [placeLines, hl] at h
    | ok l =>
      cases hls : placeLines E ps with
      | error err => simp [placeLines, hl, hls] at h
      | ok rest =>
        simp only [placeLines, hl, hls, Except.ok.injEq] at h
        rw [← h]
        exact List.Forall₂.cons (placeLine_isEntry E p l hl) (ih rest hls)



/-- C11 (amended).  Search prompt candidate block.  Whenever the search prompt
is built, the block between `Available places:` and the closing question is
the candidates' entries joined by newlines, one entry per candidate in input
order with none dropped, each entry being the five labelled fields with the
texts of `id`, `title` and `category`, with T and with N.  T is `none` when
`tags` is absent; for an array it is the elements joined by a comma and a
blank, or `none` when that joined text is empty (an empty array, but also an
array holding only an empty tag).  N is `none` when `notes` is absent or
empty, otherwise the first 100 code units of `notes`; it never exceeds 100
code units.  The prompt is built whenever `query` is a string or absent and
every candidate has the documented shape. -/
theorem searchPrompt_candidate_block (E : Engine) (query : Option (JSON E.D)) (ps : List (JSON E.D)) :
    (∀ prompt, searchPrompt E query ps = .ok prompt →
      ∃ q ls, templateStr E query = .ok q ∧
        prompt = searchPromptHead ++ q ++ lit "\"\n\nAvailable places:\n" ++ joinWith (lit "\n") ls ++
          searchPromptTail ∧
        List.Forall₂ (IsEntry E) ps ls) ∧
    (∀ (ts : List JSString) (T : JSString), TagsField E (some (.arr (ts.map .str))) T ↔
      T = if joinWith (lit ", ") ts = [] then lit "none" else joinWith (lit ", ") ts) ∧
    (∀ (notes : Option (JSON E.D)) (N : JSString), NotesField notes N → N.length ≤ 100) ∧
    (Textual query → (∀ p ∈ ps, PlainPlace p) → ∃ prompt, searchPrompt E query ps = .ok prompt) := by
  refine ⟨?_, ?_, fun notes N h => notesField_length notes N h, ?_⟩
  · intro prompt h
    unfold searchPrompt at h
    cases hq : templateStr E query with
    | error err => simp [hq, bind, Except.bind] at h
    | ok q =>
      cases hls : placeLines E ps with
      | error err => simp [hq, hls, bind, Except.bind] at h
      | ok ls =>
        simp only [hq, hls, bind, Except.bind, pure, Except.pure, Except.ok.injEq] at h
        exact ⟨q, ls, rfl, h.symm, placeLines_isEntry E ps ls hls⟩
  · intro ts T
    show (∃ s, joinValues E (lit ", ") (ts.map .str) = .ok s ∧ T = if s = [] then lit "none" else s) ↔ _
    rw [joinValues_strings]
    constructor
    · rintro ⟨s, hs, hT⟩
      simp only [Except.ok.injEq] at hs
      rw [hs]
      exact hT
    · intro hT
      exact ⟨_, rfl, hT⟩
  · intro hq hps
    obtain ⟨q, hq⟩ := templateStr_textual E query hq
    obtain ⟨ls, hls⟩ := placeLines_plain E ps hps
    unfold searchPrompt
    simp only [hq, hls, bind, Except.bind, pure, Except.pure]
    exact ⟨_, rfl⟩

/-- Witness for C11: a query and two candidates, one with tags and notes, one
with an empty `tags` array and no notes. -/
theorem searchPrompt_candidate_block_witness :
    ∃ q ls, templateStr intEngine (some (.str (lit "pasta"))) = .ok q ∧
      searchPromptHead ++ lit "pasta" ++ lit "\"\n\nAvailable places:\n" ++
        (lit "ID: p1 | Title: Da Mario | Category: undefined | Tags: italian, cozy | Notes: great pasta" ++
          lit "\n" ++ lit "ID: p2 | Title: undefined | Category: park | Tags: none | Notes: none") ++
        searchPromptTail =
      searchPromptHead ++ q ++ lit "\"\n\nAvailable places:\n" ++ joinWith (lit "\n") ls ++
        searchPromptTail ∧
      List.Forall₂ (IsEntry intEngine)
        [.obj [(lit "id", .str (lit "p1")), (lit "title", .str (lit "Da Mario")),
          (lit "tags", .arr [.str (lit "italian"), .str (lit "cozy")]),
          (lit "notes", .str (lit "great pasta"))],
         .obj [(lit "id", .str (lit "p2")), (lit "category", .str (lit "park")), (lit "tags", .arr [])]] ls :=
  (searchPrompt_candidate_block intEngine (some (.str (lit "pasta")))
    [.obj [(lit "id", .str (lit "p1")), (lit "title", .str (lit "Da Mario")),
      (lit "tags", .arr [.str (lit "italian"), .str (lit "cozy")]),
      (lit "notes", .str (lit "great pasta"))],
     .obj [(lit "id", .str (lit "p2")), (lit "category", .str (lit "park")), (lit "tags", .arr [])]]).1
    _ rfl

/-- C11 (as stated) fails for a candidate whose only tag is the empty string:
`tags` is present and not empty, the tags joined give the empty text, yet the
entry shows `none`. -/
theorem searchPrompt_empty_tag_counterexample :
    placeLines intEngine
      [.obj [(lit "id", .str (lit "p1")), (lit "title", .str (lit "Cafe")),
        (lit "category", .str (lit "food")), (lit "tags", .arr [.str []])]] =
      .ok [lit "ID: p1 | Title: Cafe | Category: food | Tags: none | Notes: none"] ∧
    JSON.own (.obj [(lit "id", .str (lit "p1")), (lit "title", .str (lit "Cafe")),
        (lit "category", .str (lit "food")), (lit "tags", .arr [.str []])] : JSON intEngine.D) "tags" =
      some (.arr [.str []]) ∧
    joinWith (lit ", ") [([] : JSString)] = [] ∧
    lit "none" ≠ ([] : JSString) :=
  ⟨rfl, rfl, rfl, by decide⟩

theorem serverError_isServerError (E : Engine) (env : Env E) (message : String) (err : JSError) :
    IsServerError E env (serverError E env message err) message (E.message err) :=
  ⟨rfl, rfl⟩

theorem callGemini_error (E : Engine) (env : Env E) (p : JSString) (e : JSError)
    (h : env.generateContent p = .error e) :
    callGemini E env p = .error (.error (lit "AI service error: " ++ E.message e)) := by
  simp [callGemini, h]

theorem summarizeNotes_generated (E : Engine) (env : Env E) (body : Body E.D) (p : JSString)
    (hp : Call.generate p ∈ (summarizeNotes E env body).2) :
    summarizeNotes E env body =
      match callGemini E env p with
      | .error err => (serverError E env "Failed to generate summary" err, [.generate p])
      | .ok response =>
        match parseJSON E response with
        | .error err => (serverError E env "Failed to generate summary" err, [.generate p])
        | .ok summary => (⟨200, summary⟩, [.generate p]) := by
  unfold summarizeNotes at hp ⊢
  simp only at hp ⊢
  cases hn : notesMissing E (body.field "notes") with
  | error err => rw [hn] at hp; simp at hp
  | ok b =>
    cases b with
    | true => rw [hn] at hp; simp at hp
    | false =>
      rw [hn] at hp
      simp only at hp ⊢
      cases hpr : summaryPrompt E (body.field "title") (body.field "category") (body.field "address")
          (body.field "notes") with
      | error err => rw [hpr] at hp; simp at hp
      | ok prompt =>
        rw [hpr] at hp
        simp only at hp ⊢
        have hpp : p = prompt := by
          cases hg : callGemini E env prompt with
          | error err => rw [hg] at hp; simpa using hp
          | ok response =>
            cases hj : parseJSON E response with
            | error err => simp only [hg, hj] at hp; simpa using hp
            | ok v => simp only [hg, hj] at hp; simpa using hp
        subst hpp
        rfl



theorem describeImage_no_generate (E : Engine) (env : Env E) (url : JSON E.D) (p : JSString) :
    Call.generate p ∉ (describeImage E env url).2 := by
  unfold describeImage
  cases env.visionClient with
  | none => simp
  | some client =>
    simp only
    split <;> simp

theorem suggestTags_generated (E : Engine) (env : Env E) (body : Body E.D) (p : JSString)
    (hp : Call.generate p ∈ (suggestTags E env body).2) :
    (suggestTags E env body).1 =
      match callGemini E env p with
      | .error err => serverError E env "Failed to generate tags" err
      | .ok response =>
        match parseJSON E response with
        | .error err => serverError E env "Failed to generate tags" err
        | .ok result =>
          match getProp (some result) "tags" with
          | .error err => serverError E env "Failed to generate tags" err
          | .ok tags => ⟨200, .obj [(lit "tags", coerceTags tags)]⟩ := by
  cases hu : body.field "photoUrl" with
  | none => simp [suggestTags, hu] at hp
  | some url =>
    cases ht : truthy E (some url) with
    | false => simp [suggestTags, hu, ht] at hp
    | true =>
      simp only [suggestTags, hu, ht] at hp ⊢
      have hv := describeImage_no_generate E env url p
      cases hpr : tagPrompt E (body.field "title") (body.field "category") (describeImage E env url).1 with
      | error err => simp only [hpr] at hp; exact absurd hp hv
      | ok prompt =>
        simp only [hpr] at hp ⊢
        have hpp : p = prompt := by
          cases hg : callGemini E env prompt with
          | error err => simp only [hg] at hp; simpa [hv] using hp
          | ok response =>
            cases hj : parseJSON E response with
            | error err => simp only [hg, hj] at hp; simpa [hv] using hp
            | ok v =>
              cases hgp : getProp (some v) "tags" with
              | error err => simp only [hg, hj, hgp] at hp; simpa [hv] using hp
              | ok tags => simp only [hg, hj, hgp] at hp; simpa [hv] using hp
        subst hpp
        cases hg : callGemini E env p with
        | error err => simp only
        | ok response =>
          simp only
          cases hj : parseJSON E response with
          | error err => simp only
          | ok v =>
            simp only
            cases hgp : getProp (some v) "tags" with
            | error err => simp only [hgp]
            | ok tags => simp only [hgp]

theorem smartSearch_generated (E : Engine) (env : Env E) (body : Body E.D) (p : JSString)
    (hp : Call.generate p ∈ (smartSearch E env body).2) :
    (smartSearch E env body).1 =
      match callGemini E env p with
      | .error err => serverError E env "Failed to process search" err
      | .ok response =>
        match parseJSON E response with
        | .error err => serverError E env "Failed to process search" err
        | .ok result =>
          match matchCount E result with
          | .error err => serverError E env "Failed to process search" err
          | .ok _ => ⟨200, result⟩ := by
  cases hpl : body.field "places" with
  | none => simp [smartSearch, hpl] at hp
  | some v =>
    cases v with
    | null => simp [smartSearch, hpl] at hp
    | bool b => simp [smartSearch, hpl] at hp
    | num d => simp [smartSearch, hpl] at hp
    | str t => simp [smartSearch, hpl] at hp
    | obj ms => simp [smartSearch, hpl] at hp
    | arr ps =>
      cases hinv : searchInvalid E (body.field "query") (some (.arr ps)) with
      | true => simp [smartSearch, hpl, hinv] at hp
      | false =>
        simp only [smartSearch, hpl, hinv] at hp ⊢
        cases hpr : searchPrompt E (body.field "query") ps with
        | error err => simp [hpr] at hp
        | ok prompt =>
          simp only [hpr] at hp ⊢
          have hpp : p = prompt := by
            cases hg : callGemini E env prompt with
            | error err => simp only [hg] at hp; simpa using hp
            | ok response =>
              cases hj : parseJSON E response with
              | error err => simp only [hg, hj] at hp; simpa using hp
              | ok v =>
                cases hgp : matchCount E v with
                | error err => simp only [hg, hj, hgp] at hp; simpa using hp
                | ok tags => simp only [hg, hj, hgp] at hp; simpa using hp
          subst hpp
          cases hg : callGemini E env p with
          | error err => simp only
          | ok response =>
            simp only
            cases hj : parseJSON E response with
            | error err => simp only
            | ok v =>
              simp only
              cases hgp : matchCount E v with
              | error err => simp only [hgp]
              | ok tags => simp only [hgp]



/-- C12.  Uniform server error.  In each of the three handlers, whenever the
generator has been called with a prompt `p` (so the request passed validation
and the prompt was built): if that call fails, or if it answers with a reply
from which `parseJSON` extracts no JSON, the response has status 500 and its
body consists of the label `Internal Server Error`, the generic message of
the operation and, exactly when the environment is development, the member
`details` with the message of the error (for a failed generation the
underlying message after the prefix `AI service error: `); in any other
environment `details` is absent, and the body has no other member. -/
theorem uniform_server_error (E : Engine) (env : Env E) (body : Body E.D) (p : JSString) :
    (Call.generate p ∈ (summarizeNotes E env body).2 →
      (∀ e, env.generateContent p = .error e →
        IsServerError E env (summarizeNotes E env body).1 "Failed to generate summary"
          (lit "AI service error: " ++ E.message e)) ∧
      (∀ reply e, env.generateContent p = .ok reply → parseJSON E reply = .error e →
        IsServerError E env (summarizeNotes E env body).1 "Failed to generate summary" (E.message e))) ∧
    (Call.generate p ∈ (suggestTags E env body).2 →
      (∀ e, env.generateContent p = .error e →
        IsServerError E env (suggestTags E env body).1 "Failed to generate tags"
          (lit "AI service error: " ++ E.message e)) ∧
      (∀ reply e, env.generateContent p = .ok reply → parseJSON E reply = .error e →
        IsServerError E env (suggestTags E env body).1 "Failed to generate tags" (E.message e))) ∧
    (Call.generate p ∈ (smartSearch E env body).2 →
      (∀ e, env.generateContent p = .error e →
        IsServerError E env (smartSearch E env body).1 "Failed to process search"
          (lit "AI service error: " ++ E.message e)) ∧
      (∀ reply e, env.generateContent p = .ok reply → parseJSON E reply = .error e →
        IsServerError E env (smartSearch E env body).1 "Failed to process search" (E.message e))) := by
  refine ⟨fun hp => ⟨fun e he => ?_, fun reply e hr he => ?_⟩,
    fun hp => ⟨fun e he => ?_, fun reply e hr he => ?_⟩,
    fun hp => ⟨fun e he => ?_, fun reply e hr he => ?_⟩⟩
  · rw [summarizeNotes_generated E env body p hp, callGemini_error E env p e he]
    exact serverError_isServerError E env _ _
  · rw [summarizeNotes_generated E env body p hp, callGemini_ok E env p reply hr]
    simp only [he]
    exact serverError_isServerError E env _ _
  · rw [suggestTags_generated E env body p hp, callGemini_error E env p e he]
    exact serverError_isServerError E env _ _
  · rw [suggestTags_generated E env body p hp, callGemini_ok E env p reply hr]
    simp only [he]
    exact serverError_isServerError E env _ _
  · rw [smartSearch_generated E env body p hp, callGemini_error E env p e he]
    exact serverError_isServerError E env _ _
  · rw [smartSearch_generated E env body p hp, callGemini_ok E env p reply hr]
    simp only [he]
    exact serverError_isServerError E env _ _

/-- Witness for C12: a failed generation in development, and a reply without
JSON in production. -/
theorem uniform_server_error_witness :
    IsServerError intEngine (testEnv (.error (.error (lit "quota exceeded"))) true)
      (smartSearch intEngine (testEnv (.error (.error (lit "quota exceeded"))) true)
        (.object [(lit "query", .str (lit "pasta")), (lit "places", .arr [])])).1
      "Failed to process search" (lit "AI service error: quota exceeded") ∧
    (smartSearch intEngine (testEnv (.ok (lit "no places match")) false)
        (.object [(lit "query", .str (lit "pasta")), (lit "places", .arr [])])).1.body =
      .obj [(lit "error", .str (lit "Internal Server Error")),
        (lit "message", .str (lit "Failed to process search"))] :=
  ⟨((uniform_server_error intEngine (testEnv (.error (.error (lit "quota exceeded"))) true)
      (.object [(lit "query", .str (lit "pasta")), (lit "places", .arr [])]) _).2.2
        (List.Mem.head _)).1 (.error (lit "quota exceeded")) rfl,
   (((uniform_server_error intEngine (testEnv (.ok (lit "no places match")) false)
      (.object [(lit "query", .str (lit "pasta")), (lit "places", .arr [])]) _).2.2
        (List.Mem.head _)).2 (lit "no places match") (.syntaxError (lit "no places match")) rfl rfl).2⟩

/-! ## C13: the fenced block read by the first expression -/

theorem splitAtFence_cons (c : Nat) (rest : JSString) :
    splitAtFence (c :: rest) =
      if fence.isPrefixOf (c :: rest) then some ([], (c :: rest).drop 3)
      else (splitAtFence rest).map (fun x => (c :: x.1, x.2)) := rfl

theorem fence_prefix_head (c : Nat) (rest : JSString) (h : fence.isPrefixOf (c :: rest) = true) :
    c = 96 := by
  rw [List.isPrefixOf_iff_prefix] at h
  obtain ⟨t, ht⟩ := h
  have h0 : (fence ++ t).head? = (c :: rest).head? := by rw [ht]
  simpa [fence] using h0.symm

theorem fence_not_prefix (c : Nat) (rest : JSString) (h : c ≠ 96) :
    fence.isPrefixOf (c :: rest) = false := by
  cases hp : fence.isPrefixOf (c :: rest) with
  | false => rfl
  | true => exact absurd (fence_prefix_head c rest hp) h

theorem isSpace_ne_96 (c : Nat) (h : isSpace c = true) : c ≠ 96 := by
  intro hc
  subst hc
  exact absurd h (by decide)

theorem trimEnd_nil : trimEnd [] = [] := rfl

theorem trimEnd_concat (B : JSString) (d : Nat) :
    trimEnd (B ++ [d]) = if isSpace d then trimEnd B else B ++ [d] := by
  unfold trimEnd
  rw [List.reverse_append, List.reverse_singleton, List.singleton_append]
  by_cases hd : isSpace d = true
  · rw [List.dropWhile_cons_of_pos hd, if_pos hd]
  · rw [List.dropWhile_cons_of_neg hd, if_neg hd]
    simp

theorem trimEnd_cons (c : Nat) (A : JSString) :
    trimEnd (c :: A) = if (c :: A).all isSpace then [] else c :: trimEnd A := by
  induction A using List.reverseRecOn generalizing c with
  | nil =>
    have h := trimEnd_concat [] c
    rw [List.nil_append] at h
    rw [h]
    by_cases hc : isSpace c = true
    · simp [hc, trimEnd_nil]
    · simp [hc, trimEnd_nil]
  | append_singleton B d ih =>
    have h1 := trimEnd_concat (c :: B) d
    rw [List.cons_append] at h1
    rw [h1, trimEnd_concat B d]
    by_cases hd : isSpace d = true
    · rw [if_pos hd, if_pos hd, ih c]
      simp [List.all_append, hd]
    · rw [if_neg hd, if_neg hd]
      simp [List.all_append, hd]

theorem closeFence_eq_split (s : JSString) :
    closeFence s =
      match splitAtFence s with
      | some x => if x.1.all isSpace then some x.2 else none
      | none => none := by
  induction s with
  | nil => rfl
  | cons c rest ih =>
    rw [closeFence_cons, expect_fence, splitAtFence_cons]
    by_cases hp : fence.isPrefixOf (c :: rest) = true
    · have hc := fence_prefix_head c rest hp
      have hs : isSpace c = false := by subst hc; decide
      rw [if_pos hp, if_pos hp]
      simp [hs]
    · rw [if_neg hp, if_neg hp]
      by_cases hsp : isSpace c = true
      · rw [if_pos hsp, ih]
        cases splitAtFence rest with
        | none => rfl
        | some x =>
          simp only [Option.map_some', List.all_cons, hsp, Bool.true_and]
          cases x.1.all isSpace <;> rfl
      · rw [if_neg hsp]
        cases splitAtFence rest with
        | none => rfl
        | some x =>
          have hf : isSpace c = false := by simpa using hsp
          simp [hf]

theorem lazyBody_eq_split (s : JSString) :
    lazyBody s = (splitAtFence s).map (fun x => (trimEnd x.1, x.2)) := by
  induction s with
  | nil => rfl
  | cons c rest ih =>
    rw [lazyBody_cons, closeFence_eq_split (c :: rest), splitAtFence_cons]
    by_cases hp : fence.isPrefixOf (c :: rest) = true
    · rw [if_pos hp]
      rfl
    · rw [if_neg hp, ih]
      cases splitAtFence rest with
      | none => rfl
      | some x =>
        simp only [Option.map_some']
        by_cases hall : (c :: x.1).all isSpace = true
        · rw [if_pos hall, trimEnd_cons, if_pos hall]
        · rw [if_neg hall, trimEnd_cons, if_neg hall]

theorem trim_cons_space (c : Nat) (A : JSString) (h : isSpace c = true) : trim (c :: A) = trim A := by
  unfold trim
  rw [List.dropWhile_cons_of_pos h]

theorem trim_cons_other (c : Nat) (A : JSString) (h : ¬ isSpace c = true) :
    trim (c :: A) = trimEnd (c :: A) := by
  unfold trim
  rw [List.dropWhile_cons_of_neg h]

theorem openBody_eq_split (s : JSString) :
    openBody s = (splitAtFence s).map (fun x => (trim x.1, x.2)) := by
  induction s with
  | nil => rfl
  | cons c rest ih =>
    rw [openBody_cons]
    by_cases hsp : isSpace c = true
    · rw [if_pos hsp, ih, lazyBody_eq_split, splitAtFence_cons,
        fence_not_prefix c rest (isSpace_ne_96 c hsp)]
      cases splitAtFence rest with
      | none => rfl
      | some x =>
        simp only [Option.map_some', Bool.false_eq_true, if_false]
        rw [trim_cons_space c x.1 hsp]
    · rw [if_neg hsp, lazyBody_eq_split, splitAtFence_cons]
      by_cases hp : fence.isPrefixOf (c :: rest) = true
      · rw [if_pos hp]
        rfl
      · rw [if_neg hp]
        cases splitAtFence rest with
        | none => rfl
        | some x =>
          simp only [Option.map_some']
          rw [trim_cons_other c x.1 hsp]



theorem splitAtFence_append (A r : JSString) (hA : ∀ c ∈ A, c ≠ 96) :
    splitAtFence (A ++ r) = (splitAtFence r).map (fun x => (A ++ x.1, x.2)) := by
  induction A with
  | nil =>
    rw [List.nil_append]
    cases splitAtFence r <;> simp
  | cons a A ih =>
    rw [List.cons_append, splitAtFence_cons, fence_not_prefix a _ (hA a (List.mem_cons_self _ _)),
      ih (fun c hc => hA c (List.mem_cons_of_mem _ hc))]
    cases splitAtFence r <;> rfl

theorem splitAtFence_isSome (X Q : JSString) : (splitAtFence (X ++ (fence ++ Q))).isSome = true := by
  induction X with
  | nil =>
    have h : [] ++ (fence ++ Q) = 96 :: (96 :: 96 :: Q) := rfl
    rw [h, splitAtFence_cons]
    simp [fence]
  | cons c X ih =>
    rw [List.cons_append, splitAtFence_cons]
    by_cases hp : fence.isPrefixOf (c :: (X ++ (fence ++ Q))) = true
    · rw [if_pos hp]
      rfl
    · rw [if_neg hp]
      cases hs : splitAtFence (X ++ (fence ++ Q)) with
      | none => rw [hs] at ih; exact absurd ih (by decide)
      | some x => rfl

theorem splitAtFence_eq_some (s : JSString) (x : JSString × JSString) (h : splitAtFence s = some x) :
    s = x.1 ++ (fence ++ x.2) := by
  induction s generalizing x with
  | nil => exact absurd h (by simp [splitAtFence])
  | cons c rest ih =>
    rw [splitAtFence_cons] at h
    by_cases hp : fence.isPrefixOf (c :: rest) = true
    · rw [if_pos hp] at h
      simp only [Option.some.injEq] at h
      subst h
      have he := expect_eq_some fence (c :: rest) ((c :: rest).drop 3) (by rw [expect_fence, if_pos hp])
      exact he
    · rw [if_neg hp] at h
      cases hs : splitAtFence rest with
      | none => rw [hs] at h; exact absurd h (by simp)
      | some y =>
        rw [hs] at h
        simp only [Option.map_some', Option.some.injEq] at h
        subst h
        have := ih y hs
        simp only [List.cons_append]
        rw [← this]

theorem dropLabel_split_none (r : JSString) (h : splitAtFence (dropLabel r) = none) :
    splitAtFence r = none := by
  unfold dropLabel at h
  by_cases hp : (lit "json").isPrefixOf r = true
  · rw [if_pos hp] at h
    have he := expect_eq_some (lit "json") r (r.drop 4) (by unfold expect; rw [if_pos hp]; rfl)
    rw [he, splitAtFence_append (lit "json") (r.drop 4) (by decide), h]
    rfl
  · rw [if_neg hp] at h
    exact h

theorem afterOpen_eq_openBody (s : JSString) : afterOpen s = openBody (dropLabel s) := by
  unfold afterOpen dropLabel expect
  by_cases hp : (lit "json").isPrefixOf s = true
  · rw [if_pos hp, if_pos hp]
    have hlen : (lit "json").length = 4 := rfl
    rw [hlen]
    simp only
    cases ho : openBody (s.drop 4) with
    | some x => rfl
    | none =>
      simp only
      rw [openBody_eq_split] at ho
      rw [openBody_eq_split]
      have hn : splitAtFence (s.drop 4) = none := by
        cases hs : splitAtFence (s.drop 4) with
        | none => rfl
        | some y => rw [hs] at ho; exact absurd ho (by simp)
      have : splitAtFence (dropLabel s) = none := by
        unfold dropLabel
        rw [if_pos hp]
        exact hn
      rw [dropLabel_split_none s this]
      rfl
  · rw [if_neg hp, if_neg hp]

theorem not_hasFencedBlock_of_split (r : JSString) (h : splitAtFence r = none) :
    ¬ HasFencedBlock (fence ++ r) := by
  rintro ⟨P, M, Q, heq⟩
  have hd : r = (P ++ (fence ++ M)).drop 3 ++ (fence ++ Q) := by
    have h1 : (fence ++ r).drop 3 = r := rfl
    have h2 : P ++ (fence ++ (M ++ (fence ++ Q))) = (P ++ (fence ++ M)) ++ (fence ++ Q) := by
      simp only [List.append_assoc]
    rw [← h1, heq, h2, List.drop_append_of_le_length]
    simp [fence]
    omega
  have hs := splitAtFence_isSome ((P ++ (fence ++ M)).drop 3) Q
  rw [← hd, h] at hs
  exact absurd hs (by decide)

/-- The first expression matches exactly when the text has a first fenced
block; the match starts with a backtick and its group is the trimmed
interior of that block. -/
theorem matchFence_eq_interior (text : JSString) :
    match firstFencedInterior text with
    | none => matchFence text = none
    | some inner => ∃ w, matchFence text = some ⟨96 :: w, some inner⟩ := by
  induction text with
  | nil => rfl
  | cons c rest ih =>
    unfold firstFencedInterior at ih ⊢
    rw [splitAtFence_cons]
    by_cases hp : fence.isPrefixOf (c :: rest) = true
    · rw [if_pos hp]
      simp only
      have hc := fence_prefix_head c rest hp
      have he : expect fence (c :: rest) = some ((c :: rest).drop 3) := by rw [expect_fence, if_pos hp]
      have hfa : fenceAt (c :: rest) = (afterOpen ((c :: rest).drop 3)).map
          (fun x => ⟨(c :: rest).take ((c :: rest).length - x.2.length), some x.1⟩) := by
        unfold fenceAt
        rw [he]
      cases hs : splitAtFence (dropLabel ((c :: rest).drop 3)) with
      | none =>
        simp only [Option.map_none']
        have hn := dropLabel_split_none _ hs
        have htext := expect_eq_some fence (c :: rest) _ he
        rw [htext]
        exact (matchFence_eq_none_iff _).2 (not_hasFencedBlock_of_split _ hn)
      | some x =>
        simp only [Option.map_some']
        have hao : afterOpen ((c :: rest).drop 3) = some (trim x.1, x.2) := by
          rw [afterOpen_eq_openBody, openBody_eq_split, hs]
          rfl
        obtain ⟨W, hW⟩ := afterOpen_eq_some _ _ hao
        have htext := expect_eq_some fence (c :: rest) _ he
        have hlen : x.2.length < (c :: rest).length := by
          have h1 : (c :: rest).length = (fence ++ (c :: rest).drop 3).length := by rw [← htext]
          rw [h1, hW]
          simp [fence]
          omega
        have hpos : (c :: rest).length - x.2.length = ((c :: rest).length - x.2.length - 1) + 1 := by
          omega
        rw [matchFence, hfa, hao]
        simp only [Option.map_some']
        rw [hpos, List.take_succ_cons, hc]
        exact ⟨_, rfl⟩
    · rw [if_neg hp]
      have hfa : fenceAt (c :: rest) = none := by
        unfold fenceAt
        rw [expect_fence, if_neg hp]
      have hm : matchFence (c :: rest) = matchFence rest := by
        rw [matchFence, hfa]
      rw [hm]
      cases hs : splitAtFence rest with
      | none =>
        rw [hs] at ih
        exact ih
      | some y =>
        rw [hs] at ih
        exact ih



theorem jsonParse_backtick (E : Engine) (w : JSString) :
    jsonParse E (96 :: w) = .error (.syntaxError (96 :: w)) := by
  unfold jsonParse
  have h : (96 :: w).length + 1 = (w.length + 1) + 1 := rfl
  rw [h, parseValue_cons E _ 96 w (by decide)]
  simp [lexNumber, scanNumber, numStep, isDigit, NumState.accepting]

theorem jsonParse_empty (E : Engine) : jsonParse E [] = .error (.syntaxError []) := rfl

theorem firstFencedInterior_eq_none_iff (text : JSString) :
    firstFencedInterior text = none ↔ ¬ HasFencedBlock text := by
  have h := matchFence_eq_interior text
  rw [← matchFence_eq_none_iff]
  cases hi : firstFencedInterior text with
  | none =>
    rw [hi] at h
    exact ⟨fun _ => h, fun _ => rfl⟩
  | some inner =>
    rw [hi] at h
    obtain ⟨w, hw⟩ := h
    rw [hw]
    simp

/-- C13.  Priority order of `parseJSON`, for every text.  (1) If the text
contains a fenced block, the result is the parse of the whitespace-trimmed
interior of the first block (the text between the first three backticks, with
the label `json` if it follows them, and the next three backticks), whatever
braces occur elsewhere: the same value when the interior parses, a failure
when it does not.  For a non-empty interior the interior is the very text
handed to `JSON.parse`; for an empty one both `JSON.parse` of the empty
text and `parseJSON` fail (the text handed over is then the whole block).
(2) Otherwise, if the text has an opening brace followed later by a closing
one, the result is the parse of the span from the first opening brace to the
last closing brace.  (3) Otherwise the result is the parse of the entire
text.  In every case the failure of the chosen parse is the failure of
`parseJSON`: no later step is tried.  The text has a first fenced block
exactly when it contains three backticks and later three backticks again. -/
theorem parseJSON_priority_order (E : Engine) (text : JSString) :
    (∀ inner, firstFencedInterior text = some inner →
      (parseJSON E text).toOption = (jsonParse E inner).toOption ∧
      (inner ≠ [] → parseJSON E text = jsonParse E inner) ∧
      (inner = [] → ∃ w, parseJSON E text = .error (.syntaxError (96 :: w)))) ∧
    (firstFencedInterior text = none → ∀ span, BraceSpan text span →
      parseJSON E text = jsonParse E span) ∧
    (firstFencedInterior text = none → (∀ span, ¬ BraceSpan text span) →
      parseJSON E text = jsonParse E text) ∧
    (firstFencedInterior text = none ↔ ¬ HasFencedBlock text) := by
  refine ⟨?_, ?_, ?_, firstFencedInterior_eq_none_iff text⟩
  · intro inner hi
    have h := matchFence_eq_interior text
    rw [hi] at h
    obtain ⟨w, hw⟩ := h
    have hp := parseJSON_of_fence E text _ hw
    by_cases hin : inner = []
    · subst hin
      have hc : (⟨96 :: w, some []⟩ : RegExpMatch).candidate = 96 :: w := rfl
      rw [hc, jsonParse_backtick] at hp
      refine ⟨?_, fun hne => absurd rfl hne, fun _ => ⟨w, hp⟩⟩
      rw [hp, jsonParse_empty]
      rfl
    · have hc : (⟨96 :: w, some inner⟩ : RegExpMatch).candidate = inner := by
        simp [RegExpMatch.candidate, hin]
      rw [hc] at hp
      exact ⟨by rw [hp], fun _ => hp, fun he => absurd he hin⟩
  · intro hn span hspan
    exact parseJSON_of_braces E text span ((firstFencedInterior_eq_none_iff text).1 hn) hspan
  · intro hn hspan
    exact parseJSON_of_neither E text ((firstFencedInterior_eq_none_iff text).1 hn) hspan

/-- Witness for C13: one text for each of the three steps. -/
theorem parseJSON_priority_order_witness :
    parseJSON intEngine (lit "Here \x7bit\x7d is:\n```json\n\x7b\"a\": 1\x7d\n```\nand \x7b\"b\": 2\x7d") =
      jsonParse intEngine (lit "\x7b\"a\": 1\x7d") ∧
    parseJSON intEngine (lit "Sure: \x7b\"a\": 1\x7d. Done") = jsonParse intEngine (lit "\x7b\"a\": 1\x7d") ∧
    parseJSON intEngine (lit " [1, 2] ") = jsonParse intEngine (lit " [1, 2] ") :=
  ⟨((parseJSON_priority_order intEngine
      (lit "Here \x7bit\x7d is:\n```json\n\x7b\"a\": 1\x7d\n```\nand \x7b\"b\": 2\x7d")).1
      (lit "\x7b\"a\": 1\x7d") rfl).2.1 (by decide),
   (parseJSON_priority_order intEngine (lit "Sure: \x7b\"a\": 1\x7d. Done")).2.1 rfl
      (lit "\x7b\"a\": 1\x7d") ⟨lit "Sure: ", lit "\"a\": 1", lit ". Done", rfl, by decide, by decide, rfl⟩,
   (parseJSON_priority_order intEngine (lit " [1, 2] ")).2.2.1 rfl
      (by
        rintro span ⟨P, A, B, h, -⟩
        have hm : (123 : Nat) ∈ lit " [1, 2] " := by
          rw [h]
          simp
        exact absurd hm (by decide))⟩

/-! ## C14: the colours of the image signal -/

theorem colorShares_eq (E : Engine) (result : AnnotateImageResponse E.D) :
    colorShares E result =
      ((result.dominantColors.getD []).take 3).map (fun c => E.percentFixed0 c.score ++ lit "%") := by
  unfold colorShares
  cases result.dominantColors <;> rfl

/-- C14 (amended).  Colour cap in the image signal.  For every annotation
result the dominant-colour shares placed in the prompt (the last line of the
image description) number at most 3 and are those of the first 3 colours in
the order in which the service returned them, each given as the percentage
string of its score.  They are the 3 highest-scoring colours only insofar as
the service returns the colours by descending score: then no colour left out
has a higher score than one that is shown. -/
theorem colorShares_first_three (E : Engine) (result : AnnotateImageResponse E.D) :
    (∃ pre, imageDescriptionOf E result =
      pre ++ lit "\nDominant colors: " ++ joinWith (lit ", ") (colorShares E result)) ∧
    (colorShares E result).length ≤ 3 ∧
    colorShares E result =
      ((result.dominantColors.getD []).take 3).map (fun c => E.percentFixed0 c.score ++ lit "%") ∧
    (∀ (le : E.D → E.D → Prop) (cs : List (ColorInfo E.D)), result.dominantColors = some cs →
      cs.Pairwise (fun a b => le b.score a.score) →
      ∀ a ∈ cs.take 3, ∀ b ∈ cs.drop 3, le b.score a.score) := by
  refine ⟨⟨_, rfl⟩, ?_, colorShares_eq E result, ?_⟩
  · rw [colorShares_eq, List.length_map, List.length_take]
    exact Nat.min_le_left _ _
  · intro le cs _ hsorted a ha b hb
    have h : (cs.take 3 ++ cs.drop 3).Pairwise (fun a b => le b.score a.score) := by
      rw [List.take_append_drop]
      exact hsorted
    exact (List.pairwise_append.1 h).2.2 a ha b hb

/-- Witness for C14: four colours returned by descending score. -/
theorem colorShares_first_three_witness :
    colorShares intEngine ⟨none, none, some [⟨(1 : Int), (10 : Int), (20 : Int), (30 : Int)⟩,
      ⟨(0 : Int), (1 : Int), (2 : Int), (3 : Int)⟩, ⟨(0 : Int), (4 : Int), (5 : Int), (6 : Int)⟩,
      ⟨(0 : Int), (7 : Int), (8 : Int), (9 : Int)⟩]⟩ = [lit "100%", lit "0%", lit "0%"] ∧
    (⟨(0 : Int), (7 : Int), (8 : Int), (9 : Int)⟩ : ColorInfo Int).score ≤
      (⟨(1 : Int), (10 : Int), (20 : Int), (30 : Int)⟩ : ColorInfo Int).score :=
  ⟨(colorShares_first_three intEngine
      ⟨none, none, some [⟨(1 : Int), (10 : Int), (20 : Int), (30 : Int)⟩,
        ⟨(0 : Int), (1 : Int), (2 : Int), (3 : Int)⟩, ⟨(0 : Int), (4 : Int), (5 : Int), (6 : Int)⟩,
        ⟨(0 : Int), (7 : Int), (8 : Int), (9 : Int)⟩]⟩).2.2.1,
   (colorShares_first_three intEngine
      ⟨none, none, some [⟨(1 : Int), (10 : Int), (20 : Int), (30 : Int)⟩,
        ⟨(0 : Int), (1 : Int), (2 : Int), (3 : Int)⟩, ⟨(0 : Int), (4 : Int), (5 : Int), (6 : Int)⟩,
        ⟨(0 : Int), (7 : Int), (8 : Int), (9 : Int)⟩]⟩).2.2.2
      (fun x y : Int => x ≤ y) _ rfl
      (by
        simp only [List.pairwise_cons, List.mem_cons, List.mem_singleton, List.not_mem_nil,
          forall_eq_or_imp, forall_eq, List.Pairwise.nil, and_true, IsEmpty.forall_iff, implies_true]
        decide)
      _ (List.Mem.head _) _ (List.Mem.head _)⟩

/-- C14 (as stated) fails when the service does not return the colours by
descending score: of four colours with the scores 0, 0, 0 and 1 the prompt
shows the shares of the first three, and the share of the colour with the
highest score is left out. -/
theorem colorShares_not_top_counterexample :
    colorShares intEngine ⟨none, none, some [⟨(0 : Int), (1 : Int), (2 : Int), (3 : Int)⟩,
      ⟨(0 : Int), (4 : Int), (5 : Int), (6 : Int)⟩, ⟨(0 : Int), (7 : Int), (8 : Int), (9 : Int)⟩,
      ⟨(1 : Int), (10 : Int), (20 : Int), (30 : Int)⟩]⟩ = [lit "0%", lit "0%", lit "0%"] ∧
    intEngine.percentFixed0 (1 : Int) ++ lit "%" = lit "100%" ∧
    lit "100%" ∉ colorShares intEngine ⟨none, none, some [⟨(0 : Int), (1 : Int), (2 : Int), (3 : Int)⟩,
      ⟨(0 : Int), (4 : Int), (5 : Int), (6 : Int)⟩, ⟨(0 : Int), (7 : Int), (8 : Int), (9 : Int)⟩,
      ⟨(1 : Int), (10 : Int), (20 : Int), (30 : Int)⟩]⟩ :=
  ⟨rfl, rfl, by decide⟩

/-! ## C2, C3 and C4: the candidate read by `parseJSON` -/

theorem splitAtFence_no_backtick (Q : JSString) (hQ : ∀ c ∈ Q, c ≠ 96) : splitAtFence Q = none := by
  induction Q with
  | nil => rfl
  | cons q Q ih =>
    rw [splitAtFence_cons, fence_not_prefix q Q (hQ q (List.mem_cons_self _ _)),
      ih (fun c hc => hQ c (List.mem_cons_of_mem _ hc))]
    rfl

theorem fence_prefix_append_right (r Q : JSString) (hQ : ∀ c ∈ Q, c ≠ 96) :
    fence.isPrefixOf (r ++ Q) = fence.isPrefixOf r := by
  match r, Q, hQ with
  | [], [], _ => rfl
  | [], q :: Q', hQ =>
    have hq : q ≠ 96 := hQ q (List.mem_cons_self _ _)
    simp only [fence, List.nil_append, List.isPrefixOf, Bool.and_eq_false_imp, beq_iff_eq]
    intro h
    exact absurd h.symm hq
  | [a], [], _ => rfl
  | [a], q :: Q', hQ =>
    have hq : q ≠ 96 := hQ q (List.mem_cons_self _ _)
    simp only [fence, List.singleton_append, List.isPrefixOf, Bool.and_eq_false_imp, beq_iff_eq,
      Bool.and_false]
    intro _ h
    exact absurd h.symm hq
  | [a, b], [], _ => rfl
  | [a, b], q :: Q', hQ =>
    have hq : q ≠ 96 := hQ q (List.mem_cons_self _ _)
    have hb : (96 == q) = false := by simpa using fun h : 96 = q => hq h.symm
    simp [fence, List.isPrefixOf, hb]
  | a :: b :: c :: r', _, _ => simp [fence, List.isPrefixOf]

theorem splitAtFence_append_right (r Q : JSString) (hQ : ∀ c ∈ Q, c ≠ 96) :
    splitAtFence (r ++ Q) = (splitAtFence r).map (fun x => (x.1, x.2 ++ Q)) := by
  induction r with
  | nil =>
    rw [List.nil_append, splitAtFence_no_backtick Q hQ]
    rfl
  | cons c r ih =>
    have hp := fence_prefix_append_right (c :: r) Q hQ
    rw [List.cons_append] at hp ⊢
    rw [splitAtFence_cons, splitAtFence_cons, hp]
    by_cases hf : fence.isPrefixOf (c :: r) = true
    · rw [if_pos hf, if_pos hf]
      have he := expect_eq_some fence (c :: r) ((c :: r).drop 3) (by rw [expect_fence, if_pos hf])
      have hd : (c :: (r ++ Q)).drop 3 = (c :: r).drop 3 ++ Q := by
        have h1 : c :: (r ++ Q) = (c :: r) ++ Q := rfl
        rw [h1, List.drop_append_of_le_length]
        rw [he]
        simp [fence]
      rw [hd]
      rfl
    · rw [if_neg hf, if_neg hf, ih]
      cases splitAtFence r <;> rfl

theorem split_dropLabel_none (r : JSString) (h : splitAtFence r = none) :
    splitAtFence (dropLabel r) = none := by
  unfold dropLabel
  by_cases hp : (lit "json").isPrefixOf r = true
  · rw [if_pos hp]
    have he := expect_eq_some (lit "json") r (r.drop 4) (by unfold expect; rw [if_pos hp]; rfl)
    rw [he, splitAtFence_append (lit "json") (r.drop 4) (by decide)] at h
    cases hs : splitAtFence (r.drop 4) with
    | none => rfl
    | some x => rw [hs] at h; exact absurd h (by simp)
  · rw [if_neg hp]
    exact h

theorem hasFencedBlock_of_split (t : JSString) (y z : JSString × JSString)
    (h1 : splitAtFence t = some y) (h2 : splitAtFence y.2 = some z) : HasFencedBlock t :=
  ⟨y.1, z.1, z.2, by rw [← splitAtFence_eq_some y.2 z h2]; exact splitAtFence_eq_some t y h1⟩

theorem split_of_hasFencedBlock (t : JSString) (h : HasFencedBlock t) :
    ∃ y z, splitAtFence t = some y ∧ splitAtFence y.2 = some z := by
  have hne : firstFencedInterior t ≠ none := fun hn => (firstFencedInterior_eq_none_iff t).1 hn h
  unfold firstFencedInterior at hne
  cases hy : splitAtFence t with
  | none => rw [hy] at hne; exact absurd rfl hne
  | some y =>
    rw [hy] at hne
    simp only at hne
    cases hz : splitAtFence y.2 with
    | none =>
      rw [split_dropLabel_none y.2 hz] at hne
      exact absurd rfl hne
    | some z => exact ⟨y, z, rfl, hz⟩

/-- Text without backticks around a text adds no fenced block to it. -/
theorem hasFencedBlock_embed (P S Q : JSString) (hP : ∀ c ∈ P, c ≠ 96) (hQ : ∀ c ∈ Q, c ≠ 96)
    (h : HasFencedBlock (P ++ (S ++ Q))) : HasFencedBlock S := by
  obtain ⟨y, z, hy, hz⟩ := split_of_hasFencedBlock _ h
  rw [splitAtFence_append P _ hP, splitAtFence_append_right S Q hQ] at hy
  cases hs : splitAtFence S with
  | none => rw [hs] at hy; exact absurd hy (by simp)
  | some x =>
    rw [hs] at hy
    simp only [Option.map_some', Option.some.injEq] at hy
    subst hy
    simp only at hz
    rw [splitAtFence_append_right x.2 Q hQ] at hz
    cases hx : splitAtFence x.2 with
    | none => rw [hx] at hz; exact absurd hz (by simp)
    | some w => exact hasFencedBlock_of_split S x w hs hx

/-- C2 (amended).  Unfenced round trip: for every JSON object `O` whose
serialisation contains no fenced block (three backticks and, later and
without overlap, three backticks again), `parseJSON(JSON.stringify(O))`
returns `O`, and so does `parseJSON` on the serialisation between the texts
`some text ` and ` more text` (hence every key of `O`, with its value). -/
theorem parseJSON_unfenced_roundtrip (E : Engine) (ms : List (JSString × JSON E.D))
    (hvalid : JSON.Valid E (.obj ms)) (hfence : ¬ HasFencedBlock (stringify E (.obj ms))) :
    parseJSON E (stringify E (.obj ms)) = .ok (.obj ms) ∧
    parseJSON E (lit "some text " ++ stringify E (.obj ms) ++ lit " more text") = .ok (.obj ms) := by
  have hparse := jsonParse_stringify E (.obj ms) hvalid
  have hs := stringify_obj E ms
  constructor
  · rw [parseJSON_of_braces E _ (stringify E (.obj ms)) hfence, hparse]
    exact ⟨[], stringifyMembers E ms, [], by rw [hs]; simp, by simp, by simp, hs⟩
  · have hf : ¬ HasFencedBlock (lit "some text " ++ stringify E (.obj ms) ++ lit " more text") := by
      intro h
      rw [List.append_assoc] at h
      exact hfence (hasFencedBlock_embed _ _ _ (by decide) (by decide) h)
    rw [parseJSON_of_braces E _ (stringify E (.obj ms)) hf, hparse]
    exact ⟨lit "some text ", stringifyMembers E ms, lit " more text", by rw [hs]; simp,
      by decide, by decide, hs⟩

/-- Witness for C2: an object with a string array and a number, and an object
whose string value holds one run of three backticks. -/
theorem parseJSON_unfenced_roundtrip_witness :
    (parseJSON intEngine (stringify intEngine
      (.obj [(lit "matchingIds", .arr [.str (lit "p1")]), (lit "count", .num (1 : Int))])) =
      .ok (.obj [(lit "matchingIds", .arr [.str (lit "p1")]), (lit "count", .num (1 : Int))]) ∧
    parseJSON intEngine (lit "some text " ++ stringify intEngine
      (.obj [(lit "matchingIds", .arr [.str (lit "p1")]), (lit "count", .num (1 : Int))]) ++ lit " more text") =
      .ok (.obj [(lit "matchingIds", .arr [.str (lit "p1")]), (lit "count", .num (1 : Int))])) ∧
    (parseJSON intEngine (stringify intEngine (.obj [(lit "a", .str (lit "```"))])) =
      .ok (.obj [(lit "a", .str (lit "```"))]) ∧
    parseJSON intEngine (lit "some text " ++ stringify intEngine (.obj [(lit "a", .str (lit "```"))]) ++
      lit " more text") = .ok (.obj [(lit "a", .str (lit "```"))])) :=
  ⟨parseJSON_unfenced_roundtrip intEngine _
      (by
        simp only [JSON.Valid, JSON.ValidMembers, JSON.ValidElements, Engine.Preserved]
        refine ⟨by decide, ?_⟩
        repeat' constructor)
      ((firstFencedInterior_eq_none_iff _).1 rfl),
   parseJSON_unfenced_roundtrip intEngine _
      (by simp only [JSON.Valid, JSON.ValidMembers]; exact ⟨by decide, trivial, trivial⟩)
      ((firstFencedInterior_eq_none_iff _).1 rfl)⟩

/-- C2 (as stated) fails: the serialisation of the object with the one member
`a` whose value is a string of six backticks contains a fenced block with an
empty interior, so `parseJSON` tries to read the six backticks and throws. -/
theorem parseJSON_unfenced_roundtrip_counterexample :
    JSON.Valid intEngine (.obj [(lit "a", .str (lit "``````"))]) ∧
    parseJSON intEngine (stringify intEngine (.obj [(lit "a", .str (lit "``````"))])) =
      .error (.syntaxError (lit "``````")) :=
  ⟨by simp only [JSON.Valid, JSON.ValidMembers]; exact ⟨by decide, trivial, trivial⟩, rfl⟩



theorem parseJSON_of_interior (E : Engine) (text inner : JSString)
    (h : firstFencedInterior text = some inner) :
    (inner ≠ [] → parseJSON E text = jsonParse E inner) ∧
    (inner = [] → ∃ w, parseJSON E text = .error (.syntaxError (96 :: w))) := by
  have hm := matchFence_eq_interior text
  rw [h] at hm
  obtain ⟨w, hw⟩ := hm
  have hp := parseJSON_of_fence E text _ hw
  constructor
  · intro hne
    have hc : (⟨96 :: w, some inner⟩ : RegExpMatch).candidate = inner := by
      simp [RegExpMatch.candidate, hne]
    rw [hp, hc]
  · intro he
    subst he
    have hc : (⟨96 :: w, some []⟩ : RegExpMatch).candidate = 96 :: w := rfl
    rw [hc, jsonParse_backtick] at hp
    exact ⟨w, hp⟩

theorem parseJSON_ok_iff_interior (E : Engine) (text inner : JSString)
    (h : firstFencedInterior text = some inner) (v : JSON E.D) :
    parseJSON E text = .ok v ↔ jsonParse E inner = .ok v := by
  have hi := parseJSON_of_interior E text inner h
  by_cases hin : inner = []
  · obtain ⟨w, hw⟩ := hi.2 hin
    rw [hw, hin, jsonParse_empty]
    simp
  · rw [hi.1 hin]

/-- C3 (amended).  `parseJSON` reads exactly one candidate, chosen in priority
order, and does not fall through to the next strategy.  If the text contains a
fenced block, the candidate is the whitespace-trimmed interior of the first
block: `parseJSON` returns a value exactly when `JSON.parse` of that interior
returns it, whatever the brace span and the whole text are.  (A non-empty
interior is the text handed to `JSON.parse`; for an empty interior the whole
block is handed over, which fails like the empty text.)  Without a fenced
block but with a span from the first opening brace to the last closing brace,
the result is that of `JSON.parse` on the span.  With neither, it is that of
`JSON.parse` on the whole text.  On the text `not json at all` it throws. -/
theorem parseJSON_single_candidate (E : Engine) (text : JSString) :
    (HasFencedBlock text →
      ∃ inner, firstFencedInterior text = some inner ∧
        (∀ v, parseJSON E text = .ok v ↔ jsonParse E inner = .ok v) ∧
        (inner ≠ [] → parseJSON E text = jsonParse E inner) ∧
        (inner = [] → ∃ w, parseJSON E text = .error (.syntaxError (96 :: w)))) ∧
    (¬ HasFencedBlock text → ∀ span, BraceSpan text span → parseJSON E text = jsonParse E span) ∧
    (¬ HasFencedBlock text → (∀ span, ¬ BraceSpan text span) → parseJSON E text = jsonParse E text) ∧
    parseJSON E (lit "not json at all") = .error (.syntaxError (lit "not json at all")) := by
  refine ⟨?_, fun hf span hs => parseJSON_of_braces E text span hf hs, parseJSON_of_neither E text, rfl⟩
  intro h
  cases hi : firstFencedInterior text with
  | none => exact absurd h ((firstFencedInterior_eq_none_iff text).1 hi)
  | some inner =>
    exact ⟨inner, rfl, parseJSON_ok_iff_interior E text inner hi,
      (parseJSON_of_interior E text inner hi).1, (parseJSON_of_interior E text inner hi).2⟩

/-- Witness for C3: a fenced block after prose, a brace span inside prose, and
plain JSON text. -/
theorem parseJSON_single_candidate_witness :
    (∃ inner, firstFencedInterior (lit "Sure: ```json\n[1]\n``` and \x7b\x7d") = some inner ∧
      (∀ v, parseJSON intEngine (lit "Sure: ```json\n[1]\n``` and \x7b\x7d") = .ok v ↔
        jsonParse intEngine inner = .ok v) ∧
      (inner ≠ [] →
        parseJSON intEngine (lit "Sure: ```json\n[1]\n``` and \x7b\x7d") = jsonParse intEngine inner) ∧
      (inner = [] →
        ∃ w, parseJSON intEngine (lit "Sure: ```json\n[1]\n``` and \x7b\x7d") =
          .error (.syntaxError (96 :: w)))) ∧
    parseJSON intEngine (lit "Result: \x7b\"a\":1\x7d.") = jsonParse intEngine (lit "\x7b\"a\":1\x7d") ∧
    parseJSON intEngine (lit "[1]") = jsonParse intEngine (lit "[1]") :=
  ⟨(parseJSON_single_candidate intEngine (lit "Sure: ```json\n[1]\n``` and \x7b\x7d")).1
      ⟨lit "Sure: ", lit "json\n[1]\n", lit " and \x7b\x7d", rfl⟩,
   (parseJSON_single_candidate intEngine (lit "Result: \x7b\"a\":1\x7d.")).2.1
      ((matchFence_eq_none_iff _).1 rfl) (lit "\x7b\"a\":1\x7d")
      ⟨lit "Result: ", lit "\"a\":1", lit ".", rfl, by decide, by decide, rfl⟩,
   (parseJSON_single_candidate intEngine (lit "[1]")).2.2.1
      ((matchFence_eq_none_iff _).1 rfl) ((matchBraces_eq_none_iff _).1 rfl)⟩

/-- C3 (as stated) fails: in the text of an empty object followed by a fenced
block holding the letter `a`, the span from the first opening brace to the
last closing brace is the parseable text of the empty object, yet `parseJSON`
throws, because only the fenced interior is tried. -/
theorem parseJSON_no_fallthrough_counterexample :
    BraceSpan (lit "\x7b\x7d ```a```") (lit "\x7b\x7d") ∧
    jsonParse intEngine (lit "\x7b\x7d") = .ok (.obj []) ∧
    firstFencedInterior (lit "\x7b\x7d ```a```") = some (lit "a") ∧
    parseJSON intEngine (lit "\x7b\x7d ```a```") = .error (.syntaxError (lit "a")) :=
  ⟨⟨[], [], lit " ```a```", rfl, by decide, by decide, rfl⟩, rfl, rfl, rfl⟩

/-- C4 (amended).  Whenever `parseJSON(text)` returns on a text that has no
fenced block but has an opening brace followed later by a closing brace, the
returned value is a JSON object.  On a text with a fenced block it returns a
value exactly when `JSON.parse` of the trimmed interior of the first block
returns that value, and on a text with neither pattern its result is that of
`JSON.parse` on the whole text: it returns whatever JSON value that candidate
denotes, and throws only when the candidate is not parseable.  The value can
be an array, a string, a number, a boolean or `null`. -/
theorem parseJSON_returned_value (E : Engine) (text : JSString) :
    (¬ HasFencedBlock text → ∀ span, BraceSpan text span →
      ∀ v, parseJSON E text = .ok v → v.isObject = true) ∧
    (∀ inner, firstFencedInterior text = some inner →
      ∀ v, parseJSON E text = .ok v ↔ jsonParse E inner = .ok v) ∧
    (¬ HasFencedBlock text → (∀ span, ¬ BraceSpan text span) → parseJSON E text = jsonParse E text) ∧
    (parseJSON E (lit "```json\n[]\n```") = .ok (.arr []) ∧
      parseJSON E (lit "```\n\"cozy\"\n```") = .ok (.str (lit "cozy")) ∧
      parseJSON E (lit "7") = .ok (.num (E.numberOfLiteral (lit "7"))) ∧
      parseJSON E (lit "true") = .ok (.bool true) ∧
      parseJSON E (lit "null") = .ok .null) := by
  refine ⟨?_, fun inner hi v => parseJSON_ok_iff_interior E text inner hi v,
    parseJSON_of_neither E text, rfl, rfl, rfl, rfl, rfl⟩
  intro hfence span hspan v hret
  rw [parseJSON_of_braces E text span hfence hspan] at hret
  obtain ⟨P, A, B, _, _, _, rfl⟩ := hspan
  exact jsonParse_brace E _ v hret

/-- Witness for C4: a brace span inside prose gives an object, a fenced block
gives the array it holds, and a text with neither pattern gives the number it
denotes. -/
theorem parseJSON_returned_value_witness :
    (JSON.obj [(lit "tags", JSON.arr [])] : JSON intEngine.D).isObject = true ∧
    (parseJSON intEngine (lit "Tags:\n```json\n[\"cozy\"]\n```") = .ok (.arr [.str (lit "cozy")]) ↔
      jsonParse intEngine (lit "[\"cozy\"]") = .ok (.arr [.str (lit "cozy")])) ∧
    parseJSON intEngine (lit " 42 ") = jsonParse intEngine (lit " 42 ") :=
  ⟨(parseJSON_returned_value intEngine (lit "Here you go: \x7b\"tags\": []\x7d Enjoy!")).1
      ((matchFence_eq_none_iff _).1 rfl) (lit "\x7b\"tags\": []\x7d")
      ⟨lit "Here you go: ", lit "\"tags\": []", lit " Enjoy!", rfl, by decide, by decide, rfl⟩
      (.obj [(lit "tags", .arr [])]) rfl,
   (parseJSON_returned_value intEngine (lit "Tags:\n```json\n[\"cozy\"]\n```")).2.1
      (lit "[\"cozy\"]") rfl (.arr [.str (lit "cozy")]),
   (parseJSON_returned_value intEngine (lit " 42 ")).2.2.1
      ((matchFence_eq_none_iff _).1 rfl) ((matchBraces_eq_none_iff _).1 rfl)⟩

/-- C4 (as stated) fails: on the text of a one-element array `parseJSON`
returns the array, which is not an object. -/
theorem parseJSON_returns_array_counterexample :
    parseJSON intEngine (lit "[1]") = .ok (.arr [.num (1 : Int)]) ∧
    (JSON.arr [.num (1 : Int)] : JSON intEngine.D).isObject = false :=
  ⟨rfl, rfl⟩

end FavoritePlaces
